import Mathlib

/-!
# goober-eats: ExpandableHashMap, PointToPointRouter and DeliveryPlanner

A shallow embedding of `ExpandableHashMap.h`, `StreetMap.cpp` (insertion and lookup),
`PointToPointRouter.cpp` and `DeliveryPlanner.cpp`, followed by theorems about them.

Conventions of the embedding
* `unsigned int` counters (`m_size`, `m_buckets`) and hash values are `Nat`; the
  development is about maps whose counters stay below `2^32`.
* `double` distances are exact naturals (a fixed-point unit of length), and
  `MAX_DOUBLE` is the integer value of `numeric_limits<double>::max()`.
* `double` angles are exact rationals, in degrees.
* A pointer returned by `find` is an `Option`; writing through it is an update of
  the entry it points to.
* `hasher`, `distanceEarthMiles`, `angleOfLine` and `angleBetween2Lines` are declared
  outside the embedded files and are parameters; the planner takes the router it calls
  through `m_ptopRouter` as a parameter as well.
-/

set_option autoImplicit false
set_option linter.unusedSectionVars false
set_option linter.unusedVariables false

namespace GooberEats

/-! ## ExpandableHashMap.h -/

/-- The maximum load factor `m_loadFactor`, a `double` in the source, kept as the
exact fraction `num / den`.  `den = 0` stands for a bound no quotient exceeds. -/
structure LoadFactor where
  num : Nat
  den : Nat
deriving DecidableEq, Repr

/-- The default argument `maximumLoadFactor = 0.5` of the constructor. -/
def defaultLoadFactor : LoadFactor := ⟨1, 2⟩

/-- `MapType`: a collision chain of associations and the flag "bucket has been used". -/
abbrev MapType (K V : Type) := List (K × V) × Bool

/-- The data members of `ExpandableHashMap<KeyType, ValueType>`. -/
structure ExpandableHashMap (K V : Type) where
  m_loadFactor : LoadFactor
  m_hashmap : List (MapType K V)
  m_size : Nat
  m_buckets : Nat
deriving DecidableEq, Repr

/-- `new MapType[n]`: `n` value-initialised buckets (empty chain, flag `false`). -/
def newBuckets (K V : Type) (n : Nat) : List (MapType K V) :=
  List.replicate n ([], false)

/-- Array read `arr[pos]`. -/
def bucketAt {K V : Type} : List (MapType K V) → Nat → MapType K V
  | [], _ => ([], false)
  | b :: _, 0 => b
  | _ :: bs, n + 1 => bucketAt bs n

/-- Array write `arr[pos] = f (arr[pos])`. -/
def modifyAt {K V : Type} (f : MapType K V → MapType K V) :
    List (MapType K V) → Nat → List (MapType K V)
  | [], _ => []
  | b :: bs, 0 => f b :: bs
  | b :: bs, n + 1 => b :: modifyAt f bs n

/-- The two statements `arr[pos].first.push_back(kv); arr[pos].second = true;`. -/
def pushBack {K V : Type} (arr : List (MapType K V)) (pos : Nat) (kv : K × V) :
    List (MapType K V) :=
  modifyAt (fun b => (b.1 ++ [kv], true)) arr pos

namespace ExpandableHashMap

variable {K V : Type} [DecidableEq K]

/-- Constructor `ExpandableHashMap(double maximumLoadFactor)`: 8 buckets, no association. -/
def create (maximumLoadFactor : LoadFactor) : ExpandableHashMap K V :=
  { m_loadFactor := maximumLoadFactor
    m_hashmap := newBuckets K V 8
    m_size := 0
    m_buckets := 8 }

/-- Method `reset()`: a fresh array of 8 buckets, size 0. -/
def reset (m : ExpandableHashMap K V) : ExpandableHashMap K V :=
  { m with m_hashmap := newBuckets K V 8, m_buckets := 8, m_size := 0 }

/-- Method `size()`. -/
def size (m : ExpandableHashMap K V) : Nat := m.m_size

/-- The chain walk of `find`: the value of the first pair whose key equals `key`. -/
def findInChain (key : K) : List (K × V) → Option V
  | [] => none
  | kv :: rest => if kv.1 = key then some kv.2 else findInChain key rest

/-- Method `find(key)`; `none` is `nullptr`. -/
def find (hasher : K → Nat) (m : ExpandableHashMap K V) (key : K) : Option V :=
  if m.m_size = 0 then none
  else
    let pos := hasher key % m.m_buckets
    if (bucketAt m.m_hashmap pos).2 then findInChain key (bucketAt m.m_hashmap pos).1
    else none

/-- The write `*foundValue = value` through the pointer `find` returned: the first pair
of the chain whose key equals `key` gets the new value. -/
def overwriteInChain (key : K) (value : V) : List (K × V) → List (K × V)
  | [] => []
  | kv :: rest =>
    if kv.1 = key then (kv.1, value) :: rest else kv :: overwriteInChain key value rest

/-- The inner loop of the rehash: every pair of one old chain, front to back, is pushed
to the back of the chain of bucket `hasher(key) % (m_buckets * 2)` of the new array. -/
def rehashChain (hasher : K → Nat) (doubled : Nat) :
    List (K × V) → List (MapType K V) → List (MapType K V)
  | [], fresh => fresh
  | kv :: rest, fresh => rehashChain hasher doubled rest (pushBack fresh (hasher kv.1 % doubled) kv)

/-- The outer loop of the rehash over the old buckets `temp[0 .. m_buckets)`; a bucket
whose flag is not set is skipped. -/
def rehash (hasher : K → Nat) (doubled : Nat) :
    List (MapType K V) → List (MapType K V) → List (MapType K V)
  | [], fresh => fresh
  | b :: bs, fresh =>
    rehash hasher doubled bs (if b.2 then rehashChain hasher doubled b.1 fresh else fresh)

/-- The test `newLoadFactor > m_loadFactor` with
`newLoadFactor = (m_size + 1) / m_buckets`, cross-multiplied. -/
def overLoad (m : ExpandableHashMap K V) : Bool :=
  decide (m.m_loadFactor.num * m.m_buckets < (m.m_size + 1) * m.m_loadFactor.den)

/-- The resize block of `associate`: allocate `m_buckets * 2` buckets, rehash every
old pair into them, double `m_buckets`. -/
def grow (hasher : K → Nat) (m : ExpandableHashMap K V) : ExpandableHashMap K V :=
  { m with
    m_hashmap := rehash hasher (m.m_buckets * 2) m.m_hashmap (newBuckets K V (m.m_buckets * 2))
    m_buckets := m.m_buckets * 2 }

/-- The tail of the insertion branch of `associate`: push the new pair to the back of
bucket `hasher(key) % m_buckets`, set its flag, increment `m_size`. -/
def insertNew (hasher : K → Nat) (m : ExpandableHashMap K V) (key : K) (value : V) :
    ExpandableHashMap K V :=
  { m with
    m_hashmap := pushBack m.m_hashmap (hasher key % m.m_buckets) (key, value)
    m_size := m.m_size + 1 }

/-- The write `*p = value` through a non-null pointer `p = find(key)`: the pair `find`
stopped at, in bucket `hasher(key) % m_buckets`, gets the new value. -/
def writeThrough (hasher : K → Nat) (m : ExpandableHashMap K V) (key : K) (value : V) :
    ExpandableHashMap K V :=
  { m with
    m_hashmap :=
      modifyAt (fun b => (overwriteInChain key value b.1, b.2)) m.m_hashmap
        (hasher key % m.m_buckets) }

/-- Method `associate(key, value)`. -/
def associate (hasher : K → Nat) (m : ExpandableHashMap K V) (key : K) (value : V) :
    ExpandableHashMap K V :=
  match find hasher m key with
  | none =>
    insertNew hasher (if overLoad m then grow hasher m else m) key value
  | some _ => writeThrough hasher m key value

/-- All stored pairs, bucket by bucket. -/
def entries : List (MapType K V) → List (K × V)
  | [] => []
  | b :: bs => b.1 ++ entries bs

/-- A run of `associate` calls, in order. -/
def associateAll (hasher : K → Nat) (m : ExpandableHashMap K V) (kvs : List (K × V)) :
    ExpandableHashMap K V :=
  kvs.foldl (fun acc kv => associate hasher acc kv.1 kv.2) m

/-- States obtained from the constructor by `associate` and `reset` calls. -/
inductive Reachable (hasher : K → Nat) : ExpandableHashMap K V → Prop
  | create (lf : LoadFactor) : Reachable hasher (create lf)
  | reset (m : ExpandableHashMap K V) : Reachable hasher m → Reachable hasher (reset m)
  | associate (m : ExpandableHashMap K V) (key : K) (value : V) :
      Reachable hasher m → Reachable hasher (associate hasher m key value)

/-- Bucket `i` is well placed: its keys hash to `i`, are pairwise different, and its
flag is set when the chain is non-empty. -/
def BucketOk (hasher : K → Nat) (n : Nat) (i : Nat) (b : MapType K V) : Prop :=
  (∀ kv ∈ b.1, hasher kv.1 % n = i) ∧ (b.1.map Prod.fst).Nodup ∧ (b.1 ≠ [] → b.2 = true)

/-- Every bucket of the array, counted from index `i`, is well placed. -/
def BucketsOk (hasher : K → Nat) (n : Nat) : Nat → List (MapType K V) → Prop
  | _, [] => True
  | i, b :: bs => BucketOk hasher n i b ∧ BucketsOk hasher n (i + 1) bs

/-- The structural invariant of the map. -/
structure WF (hasher : K → Nat) (m : ExpandableHashMap K V) : Prop where
  length_eq : m.m_hashmap.length = m.m_buckets
  buckets_pos : 0 < m.m_buckets
  buckets_ok : BucketsOk hasher m.m_buckets 0 m.m_hashmap
  size_eq : m.m_size = (entries m.m_hashmap).length

/-- The value a run of `associate` calls gave to `key` last, if any. -/
def lastAssociated (key : K) : List (K × V) → Option V
  | [] => none
  | kv :: rest =>
    match lastAssociated key rest with
    | some v => some v
    | none => if kv.1 = key then some kv.2 else none

/-- The first value when there is one, else the second. -/
def valueOr (o fallback : Option V) : Option V :=
  match o with
  | some w => some w
  | none => fallback

/-- The keys stored in the map. -/
def keysOf (m : ExpandableHashMap K V) : Finset K :=
  ((entries m.m_hashmap).map Prod.fst).toFinset

end ExpandableHashMap

/-! ## provided.h: the declarations the router uses -/

/-- Modelled from the spec: `StreetSegment`, declared in `provided.h`, as the directed
edge of the data model: a segment from `start` to `end` with a street name (`end` is a
keyword, hence `end_`). -/
structure StreetSegment (G : Type) where
  start : G
  end_ : G
  name : String
deriving DecidableEq, Repr

/-- Modelled from the spec: `DeliveryResult`, declared in `provided.h`, as the result
taxonomy success, no route, invalid coordinate. -/
inductive DeliveryResult
  | DELIVERY_SUCCESS
  | NO_ROUTE
  | BAD_COORD
deriving DecidableEq, Repr

/-! ## StreetMap.cpp: lookup -/

/-- `StreetMapImpl`: the map from a coordinate to the segments that start with it. -/
structure StreetMapImpl (G : Type) where
  m_coordToSegmentMap : ExpandableHashMap G (List (StreetSegment G))

/-- `getSegmentsThatStartWith(gc, segs)`: `none` is the return value `false`, and
`some segs` is `true` with the output vector `segs`. -/
def StreetMapImpl.getSegmentsThatStartWith {G : Type} [DecidableEq G] (hasher : G → Nat)
    (sm : StreetMapImpl G) (gc : G) : Option (List (StreetSegment G)) :=
  ExpandableHashMap.find hasher sm.m_coordToSegmentMap gc

/-- `StreetMapImpl()`: the map member is built with the default load factor. -/
def StreetMapImpl.create {G : Type} [DecidableEq G] : StreetMapImpl G :=
  ⟨ExpandableHashMap.create defaultLoadFactor⟩

/-- `insertSegment(s)`: append `s` to the vector stored under `s->start` through the
pointer `find` returned, or associate `s->start` with a new one-element vector. -/
def StreetMapImpl.insertSegment {G : Type} [DecidableEq G] (hasher : G → Nat)
    (sm : StreetMapImpl G) (s : StreetSegment G) : StreetMapImpl G :=
  match ExpandableHashMap.find hasher sm.m_coordToSegmentMap s.start with
  | some f => ⟨ExpandableHashMap.writeThrough hasher sm.m_coordToSegmentMap s.start (f ++ [s])⟩
  | none => ⟨ExpandableHashMap.associate hasher sm.m_coordToSegmentMap s.start [s]⟩

/-- The effect of `load` on the segment lines it reads, each with the street name it
belongs to: the segment and its reverse are inserted. -/
def StreetMapImpl.loadSegments {G : Type} [DecidableEq G] (hasher : G → Nat) :
    StreetMapImpl G → List (G × G × String) → StreetMapImpl G
  | sm, [] => sm
  | sm, (new1, new2, streetName) :: rest =>
    StreetMapImpl.loadSegments hasher
      ((sm.insertSegment hasher ⟨new1, new2, streetName⟩).insertSegment hasher
        ⟨new2, new1, streetName⟩) rest

/-! ## PointToPointRouter.cpp -/

/-- `MAX_DOUBLE`, the value of `numeric_limits<double>::max()`, which is the integer
`2^1024 - 2^971`. -/
def MAX_DOUBLE : Nat :=
  179769313486231570814527423731704356798070567525844996598917476803157260780028538760589558632766878171540458953514382464234321326889464182768467546703537516986049910576551282076245490090389328944075868508455133942304583236903222948165808559332123348274797826204144723168738177180919299881250404026184124858368

/-- `struct processCoord`; a value built without a distance has `MAX_DOUBLE`. -/
structure processCoord (G : Type) where
  location : G
  distanceFromSource : Nat
deriving DecidableEq, Repr

/-- `processCoord::operator<`: the distances are compared, the locations are not. -/
def processCoord.lt {G : Type} (lhs rhs : processCoord G) : Bool :=
  decide (lhs.distanceFromSource < rhs.distanceFromSource)

/-- `std::set<processCoord>::insert` on the ascending list of the set's elements: an
element equivalent to `x` under `operator<` (neither is less than the other) keeps `x`
out of the set. -/
def setInsert {G : Type} (x : processCoord G) : List (processCoord G) → List (processCoord G)
  | [] => [x]
  | y :: ys =>
    if x.lt y then x :: y :: ys
    else if y.lt x then y :: setInsert x ys
    else y :: ys

/-- `std::set<processCoord>::find(x) != end()`: some element is equivalent to `x`. -/
def setFind {G : Type} (x : processCoord G) (s : List (processCoord G)) : Bool :=
  s.any (fun y => !x.lt y && !y.lt x)

/-- The local variables of `generatePointToPointRoute` that the search loop updates. -/
structure RouterState (G : Type) where
  processed : List (processCoord G)
  vertexQueue : List (processCoord G)
  distanceMap : ExpandableHashMap G Nat
  routeMap : ExpandableHashMap G (StreetSegment G)

/-- How a call of `generatePointToPointRoute` ends: it returns, with the result and the
values of the reference parameters `route` and `totalDistanceTravelled`; or it
dereferences the null pointer `distanceMap.find(end)` or `routeMap.find(routeConstructor)`;
or one of the two loops is cut off by its iteration bound. -/
inductive Outcome (G : Type)
  | returned (result : DeliveryResult) (route : List (StreetSegment G))
      (totalDistanceTravelled : Nat)
  | nullDistance
  | nullSegment
  | searchCutOff
  | walkCutOff
deriving DecidableEq, Repr

section Router

variable {G : Type} [DecidableEq G]

/-- The backtracking loop `while (routeConstructor != start)`, at most `fuel` iterations. -/
def backtrack (hasher : G → Nat) (routeMap : ExpandableHashMap G (StreetSegment G))
    (start : G) : Nat → G → List (StreetSegment G) → Option (Option (List (StreetSegment G)))
  | 0, _, _ => none
  | fuel + 1, routeConstructor, route =>
    if routeConstructor = start then some (some route)
    else
      match ExpandableHashMap.find hasher routeMap routeConstructor with
      | none => some none
      | some toBeAdded => backtrack hasher routeMap start fuel toBeAdded.start (toBeAdded :: route)

/-- The body of the loop `for (const auto &x : processor)`: the neighbour `x.end` of
`current` gets a new distance and route segment when the distance through `current` is
shorter than the one recorded (`MAX_DOUBLE` when none is), and is inserted into the queue
in either case. -/
def relaxOne (hasher : G → Nat) (distanceEarthMiles : G → G → Nat) (current : processCoord G)
    (x : StreetSegment G) (st : RouterState G) : RouterState G :=
  let comparisonDistance :=
    match ExpandableHashMap.find hasher st.distanceMap x.end_ with
    | some d => d
    | none => MAX_DOUBLE
  let possibleNewDistance :=
    distanceEarthMiles current.location x.end_ + current.distanceFromSource
  if possibleNewDistance < comparisonDistance then
    { st with
      distanceMap := ExpandableHashMap.associate hasher st.distanceMap x.end_ possibleNewDistance
      routeMap := ExpandableHashMap.associate hasher st.routeMap x.end_ x
      vertexQueue := setInsert ⟨x.end_, possibleNewDistance⟩ st.vertexQueue }
  else
    { st with vertexQueue := setInsert ⟨x.end_, MAX_DOUBLE⟩ st.vertexQueue }

/-- The loop `for (const auto &x : processor)` over the segments that start at `current`. -/
def relax (hasher : G → Nat) (distanceEarthMiles : G → G → Nat) (current : processCoord G) :
    List (StreetSegment G) → RouterState G → RouterState G
  | [], st => st
  | x :: xs, st =>
    relax hasher distanceEarthMiles current xs (relaxOne hasher distanceEarthMiles current x st)

/-- The loop `while (!vertexQueue.empty())`, at most `fuel` iterations; `route` and
`totalDistanceTravelled` are the values the reference parameters hold on entry. -/
def searchLoop (hasher : G → Nat) (distanceEarthMiles : G → G → Nat) (sm : StreetMapImpl G)
    (start end_ : G) (route : List (StreetSegment G)) (totalDistanceTravelled : Nat)
    (walkFuel : Nat) : Nat → RouterState G → Outcome G
  | 0, _ => Outcome.searchCutOff
  | fuel + 1, st =>
    match st.vertexQueue with
    | [] => Outcome.returned DeliveryResult.NO_ROUTE route totalDistanceTravelled
    | current :: rest =>
      if setFind current st.processed then
        searchLoop hasher distanceEarthMiles sm start end_ route totalDistanceTravelled walkFuel
          fuel { st with vertexQueue := rest }
      else if current.location = end_ then
        match ExpandableHashMap.find hasher st.distanceMap end_ with
        | none => Outcome.nullDistance
        | some d =>
          match backtrack hasher st.routeMap start walkFuel current.location [] with
          | none => Outcome.walkCutOff
          | some none => Outcome.nullSegment
          | some (some r) => Outcome.returned DeliveryResult.DELIVERY_SUCCESS r d
      else
        match sm.getSegmentsThatStartWith hasher current.location with
        | none => Outcome.returned DeliveryResult.BAD_COORD route totalDistanceTravelled
        | some processor =>
          searchLoop hasher distanceEarthMiles sm start end_ route totalDistanceTravelled
            walkFuel fuel
            (relax hasher distanceEarthMiles
              current processor
              { st with vertexQueue := rest, processed := setInsert current st.processed })

/-- The state on entry to the search loop: the queue holds the source with distance 0
and `distanceMap` maps the source to 0. -/
def initialState (hasher : G → Nat) (start : G) : RouterState G :=
  { processed := []
    vertexQueue := setInsert ⟨start, 0⟩ []
    distanceMap := ExpandableHashMap.associate hasher
      (ExpandableHashMap.create defaultLoadFactor) start 0
    routeMap := ExpandableHashMap.create defaultLoadFactor }

/-- `PointToPointRouterImpl::generatePointToPointRoute(start, end, route,
totalDistanceTravelled)`. -/
def generatePointToPointRoute (hasher : G → Nat) (distanceEarthMiles : G → G → Nat)
    (sm : StreetMapImpl G) (start end_ : G) (route : List (StreetSegment G))
    (totalDistanceTravelled : Nat) (searchFuel walkFuel : Nat) : Outcome G :=
  if start = end_ then Outcome.returned DeliveryResult.DELIVERY_SUCCESS [] 0
  else if (sm.getSegmentsThatStartWith hasher start).isNone
      || (sm.getSegmentsThatStartWith hasher end_).isNone then
    Outcome.returned DeliveryResult.BAD_COORD route totalDistanceTravelled
  else
    searchLoop hasher distanceEarthMiles sm start end_ route totalDistanceTravelled walkFuel
      searchFuel (initialState hasher start)

/-! ### Graph vocabulary of the statements -/

/-- The coordinate is a key of the street map. -/
def IsKey (hasher : G → Nat) (sm : StreetMapImpl G) (c : G) : Prop :=
  sm.getSegmentsThatStartWith hasher c ≠ none

/-- An edge of the graph: a segment in the list stored under the coordinate `c`. -/
def IsEdge (hasher : G → Nat) (sm : StreetMapImpl G) (c : G) (x : StreetSegment G) : Prop :=
  ∃ segs, sm.getSegmentsThatStartWith hasher c = some segs ∧ x ∈ segs

/-- Well-formed graph: every edge is stored under its own start coordinate and every
edge end is a key. -/
def WellFormed (hasher : G → Nat) (sm : StreetMapImpl G) : Prop :=
  ∀ c x, IsEdge hasher sm c x → x.start = c ∧ IsKey hasher sm x.end_

/-- The segments are graph edges that lead from `a` to `b`, each ending where the next
starts. -/
def IsPath (hasher : G → Nat) (sm : StreetMapImpl G) : G → G → List (StreetSegment G) → Prop
  | a, b, [] => a = b
  | a, b, x :: xs => IsEdge hasher sm a x ∧ x.start = a ∧ IsPath hasher sm x.end_ b xs

/-- The sum of `distanceEarthMiles(seg.start, seg.end)` over the segments. -/
def routeLength (distanceEarthMiles : G → G → Nat) (r : List (StreetSegment G)) : Nat :=
  (r.map (fun seg => distanceEarthMiles seg.start seg.end_)).sum

/-- The segments chain from `a` to `b`: the first starts at `a`, each ends where the
next starts, the last ends at `b`. -/
def Chains : G → G → List (StreetSegment G) → Prop
  | a, b, [] => a = b
  | a, b, x :: xs => x.start = a ∧ Chains x.end_ b xs

end Router

/-! ## Invariants of the search loop -/

section RouterInvariants

variable {G : Type} [DecidableEq G]

/-- The predecessor chain of `v` in `routeMap` leads back to `start`: every link is a
graph edge that ends at the coordinate it is stored under, and the recorded distances
do not increase towards `start`. -/
inductive Below (hasher : G → Nat) (sm : StreetMapImpl G) (start : G)
    (dm : ExpandableHashMap G Nat) (rm : ExpandableHashMap G (StreetSegment G)) : G → Prop
  | base : Below hasher sm start dm rm start
  | step (v : G) (seg : StreetSegment G) (d d' : Nat) :
      v ≠ start →
      ExpandableHashMap.find hasher rm v = some seg →
      seg.end_ = v →
      IsEdge hasher sm seg.start seg →
      ExpandableHashMap.find hasher dm v = some d →
      ExpandableHashMap.find hasher dm seg.start = some d' →
      d' ≤ d →
      Below hasher sm start dm rm seg.start →
      Below hasher sm start dm rm v

/-- A queue entry with a distance below `MAX_DOUBLE` is not below the distance recorded
for its location. -/
def EntryOk (hasher : G → Nat) (dm : ExpandableHashMap G Nat) (e : processCoord G) : Prop :=
  e.distanceFromSource < MAX_DOUBLE →
    ∃ d, ExpandableHashMap.find hasher dm e.location = some d ∧ d ≤ e.distanceFromSource

/-- The invariant behind the backward walk: both maps are well formed, `start` has
distance 0, every recorded distance is at most `MAX_DOUBLE` and belongs to a coordinate
whose predecessor chain leads back to `start`, and the queue entries are `EntryOk`. -/
structure TreeInv (hasher : G → Nat) (sm : StreetMapImpl G) (start : G)
    (st : RouterState G) : Prop where
  wf_dm : ExpandableHashMap.WF hasher st.distanceMap
  wf_rm : ExpandableHashMap.WF hasher st.routeMap
  start_zero : ExpandableHashMap.find hasher st.distanceMap start = some 0
  below : ∀ v d, ExpandableHashMap.find hasher st.distanceMap v = some d →
    d ≤ MAX_DOUBLE ∧ Below hasher sm start st.distanceMap st.routeMap v
  queue_ok : ∀ e ∈ st.vertexQueue, EntryOk hasher st.distanceMap e

/-- The elements of a set are in strictly ascending order of distance. -/
def Ascending (s : List (processCoord G)) : Prop :=
  s.Pairwise (fun a b => a.distanceFromSource < b.distanceFromSource)

/-- The invariant behind termination: no distance in the map, the queue or the
processed set exceeds `MAX_DOUBLE`, and the processed set is in ascending order. -/
structure BoundInv (hasher : G → Nat) (st : RouterState G) : Prop where
  wf_dm : ExpandableHashMap.WF hasher st.distanceMap
  dm_le : ∀ v d, ExpandableHashMap.find hasher st.distanceMap v = some d → d ≤ MAX_DOUBLE
  queue_le : ∀ e ∈ st.vertexQueue, e.distanceFromSource ≤ MAX_DOUBLE
  processed_le : ∀ e ∈ st.processed, e.distanceFromSource ≤ MAX_DOUBLE
  processed_asc : Ascending st.processed

/-- The coordinate is a key that some path of graph edges reaches from `start`. -/
def Reached (hasher : G → Nat) (sm : StreetMapImpl G) (start c : G) : Prop :=
  IsKey hasher sm c ∧ ∃ p, IsPath hasher sm start c p

/-- The largest number of segments stored under one coordinate. -/
def maxDegree (sm : StreetMapImpl G) : Nat :=
  ((ExpandableHashMap.entries sm.m_coordToSegmentMap.m_hashmap).map
    (fun kv => kv.2.length)).foldr max 0

/-- The bound on the remaining iterations of the search loop. -/
def potential (sm : StreetMapImpl G) (st : RouterState G) : Nat :=
  st.vertexQueue.length + (maxDegree sm + 1) * (MAX_DOUBLE + 1 - st.processed.length)

end RouterInvariants

/-! ## Checks on a stored street map and the maps used at concrete inputs -/

section Checks

variable {G : Type} [DecidableEq G]

/-- Every stored segment starts at the coordinate it is stored under and ends at a key. -/
def wellFormedCheck (hasher : G → Nat) (sm : StreetMapImpl G) : Bool :=
  (ExpandableHashMap.entries sm.m_coordToSegmentMap.m_hashmap).all (fun kv =>
    kv.2.all (fun x =>
      decide (x.start = kv.1) && (sm.getSegmentsThatStartWith hasher x.end_).isSome))

/-- No stored segment leads out of the set of coordinates `inside`. -/
def closedCheck (inside : G → Bool) (sm : StreetMapImpl G) : Bool :=
  (ExpandableHashMap.entries sm.m_coordToSegmentMap.m_hashmap).all (fun kv =>
    !inside kv.1 || kv.2.all (fun x => inside x.end_))

end Checks

/-- Distance between two points of a straight road, given by their mile marks. -/
def lineDistance (a b : Nat) : Nat := if a ≤ b then b - a else a - b

/-- A straight street `0 - 1 - 2`. -/
def lineMap : StreetMapImpl Nat :=
  StreetMapImpl.loadSegments id StreetMapImpl.create [(0, 1, "x"), (1, 2, "y")]

/-- Two streets `0 - 1` and `5 - 6` that do not meet. -/
def splitMap : StreetMapImpl Nat :=
  StreetMapImpl.loadSegments id StreetMapImpl.create [(0, 1, "x"), (5, 6, "y")]

/-- The coordinates `0` and `1` of `splitMap`. -/
def splitSide (c : Nat) : Bool := decide (c ≤ 1)

/-- Coordinate `1` has the two neighbours `0` and `2` at the same distance 1, and `3` lies
behind `2`. -/
def tieMap : StreetMapImpl Nat :=
  StreetMapImpl.loadSegments id StreetMapImpl.create [(1, 0, "a"), (1, 2, "b"), (2, 3, "c")]

/-- Coordinate `10` has the two neighbours `9` and `11` at the same distance 1; `12` is
one mile behind `11`, and eleven miles behind `9` over `5`. -/
def detourMap : StreetMapImpl Nat :=
  StreetMapImpl.loadSegments id StreetMapImpl.create
    [(10, 9, "a"), (10, 11, "b"), (11, 12, "c"), (9, 5, "d"), (5, 12, "e")]

/-- From `3`: `2` at 1 mile and `5` at 2 miles; from `2`: `6` at 4 miles and `0` at
2 miles; from `5`: `6` at 1 mile; `7` is one mile behind `6`. -/
def staleMap : StreetMapImpl Nat :=
  StreetMapImpl.loadSegments id StreetMapImpl.create
    [(3, 2, "sb"), (3, 5, "sa"), (2, 6, "bv"), (2, 0, "bw"), (5, 6, "av"), (6, 7, "ve")]

/-- The default map after four distinct keys: the next new key doubles the buckets. -/
def fourKeys : ExpandableHashMap Nat Nat :=
  ExpandableHashMap.associateAll id (ExpandableHashMap.create defaultLoadFactor)
    [(0, 10), (1, 11), (2, 12), (3, 13)]

/-! ## provided.h: the declarations the delivery planner uses -/

/-- Modelled from the spec: `DeliveryRequest`, declared in `provided.h`, as the pair of
the data model: an item and the coordinate it is delivered to. -/
structure DeliveryRequest (G : Type) where
  item : String
  location : G
deriving DecidableEq, Repr

/-- Modelled from the spec: `DeliveryCommand`, declared in `provided.h`, as the tagged
variant of the data model: what `initAsDeliverCommand(item)`,
`initAsTurnCommand(direction, streetName)` and
`initAsProceedCommand(direction, streetName, distance)` leave in the command, with
`increaseDistance` adding to the distance of a proceed command. -/
inductive DeliveryCommand
  | deliver (item : String)
  | turn (direction streetName : String)
  | proceed (direction streetName : String) (distance : Nat)
deriving DecidableEq, Repr

/-! ## DeliveryPlanner.cpp -/

/-- The cast `(int) (angle / 22.5)`: the quotient truncated towards zero. Angles are
exact rationals, in degrees. -/
def truncatedBucket (angle : ℚ) : Int :=
  if 0 ≤ angle / (45 / 2) then ⌊angle / (45 / 2)⌋ else ⌈angle / (45 / 2)⌉

/-- `stringAngleForProceed(angle)`: the `switch` on `p = (int) (angle / 22.5)`. -/
def stringAngleForProceed (angle : ℚ) : String :=
  let p := truncatedBucket angle
  if p = 0 ∨ p = 15 then "east"
  else if p = 1 ∨ p = 2 then "northeast"
  else if p = 3 ∨ p = 4 then "north"
  else if p = 5 ∨ p = 6 then "northwest"
  else if p = 7 ∨ p = 8 then "west"
  else if p = 9 ∨ p = 10 then "southwest"
  else if p = 11 ∨ p = 12 then "south"
  else if p = 13 ∨ p = 14 then "southeast"
  else ""

/-- How a call of `navigate` or `generateDeliveryPlan` ends: it returns, with the result
and the values of the reference parameters `commands` and `totalDistanceTravelled`; or
the router call it made did not return. -/
inductive PlanOutcome (G : Type)
  | returned (result : DeliveryResult) (commands : List DeliveryCommand)
      (totalDistanceTravelled : Nat)
  | routerStuck (router : Outcome G)
deriving DecidableEq, Repr

/-- How the loop over the deliveries ends: all requests are done, with the last position,
the commands and the distance so far; or the function was left from inside the loop. -/
inductive LoopOutcome (G : Type)
  | finished (currentStart : G) (commands : List DeliveryCommand)
      (totalDistanceTravelled : Nat)
  | left (out : PlanOutcome G)
deriving DecidableEq, Repr

section Planner

variable {G : Type} [DecidableEq G]

/-- The call `m_ptopRouter->generatePointToPointRoute(start, end, currentRoute, distance)`
on the fresh locals of `navigate`, with the bounds on the router's two loops. -/
def ptopRouter (hasher : G → Nat) (distanceEarthMiles : G → G → Nat) (sm : StreetMapImpl G)
    (searchFuel walkFuel : Nat) (start end_ : G) : Outcome G :=
  generatePointToPointRoute hasher distanceEarthMiles sm start end_ [] 0 searchFuel walkFuel

/-- The turn block of `navigate`: the command, if any, for the change from the last
segment `tempIt` of a street to the first segment `it` of the next one. -/
def turnCommands (angleBetween2Lines : StreetSegment G → StreetSegment G → ℚ)
    (tempIt it : StreetSegment G) : List DeliveryCommand :=
  let switchAngle := angleBetween2Lines tempIt it
  if 1 ≤ switchAngle ∧ switchAngle < 180 then [DeliveryCommand.turn "left" it.name]
  else if 180 ≤ switchAngle ∧ switchAngle ≤ 359 then [DeliveryCommand.turn "right" it.name]
  else []

/-- The loops of `navigate` over the rest of the route, entered with the proceed command
under construction (`direction`, street `temp`, `distance`) and the last segment `tempIt`
of the current street: a segment of the same street adds its length to the command; a
segment of another street, or the end of the route, pushes the command, and the segment
of another street then pushes the turn command, if any, and starts the next proceed
command. -/
def streetLoop (distanceEarthMiles : G → G → Nat) (angleOfLine : StreetSegment G → ℚ)
    (angleBetween2Lines : StreetSegment G → StreetSegment G → ℚ) :
    String → String → Nat → StreetSegment G → List (StreetSegment G) → List DeliveryCommand
  | direction, temp, distance, _, [] => [DeliveryCommand.proceed direction temp distance]
  | direction, temp, distance, tempIt, it :: rest =>
    if it.name = temp then
      streetLoop distanceEarthMiles angleOfLine angleBetween2Lines direction temp
        (distance + distanceEarthMiles it.start it.end_) it rest
    else
      DeliveryCommand.proceed direction temp distance ::
        (turnCommands angleBetween2Lines tempIt it ++
          streetLoop distanceEarthMiles angleOfLine angleBetween2Lines
            (stringAngleForProceed (angleOfLine it)) it.name
            (distanceEarthMiles it.start it.end_) it rest)

/-- The commands the loop `for (it = currentRoute.begin(); ...)` of `navigate` pushes. -/
def routeCommands (distanceEarthMiles : G → G → Nat) (angleOfLine : StreetSegment G → ℚ)
    (angleBetween2Lines : StreetSegment G → StreetSegment G → ℚ) :
    List (StreetSegment G) → List DeliveryCommand
  | [] => []
  | it :: rest =>
    streetLoop distanceEarthMiles angleOfLine angleBetween2Lines
      (stringAngleForProceed (angleOfLine it)) it.name
      (distanceEarthMiles it.start it.end_) it rest

/-- `DeliveryPlannerImpl::navigate(start, end, commands, totalDistanceTravelled)`;
`router` is the call through `m_ptopRouter`. -/
def navigate (router : G → G → Outcome G) (distanceEarthMiles : G → G → Nat)
    (angleOfLine : StreetSegment G → ℚ)
    (angleBetween2Lines : StreetSegment G → StreetSegment G → ℚ) (start end_ : G)
    (commands : List DeliveryCommand) (totalDistanceTravelled : Nat) : PlanOutcome G :=
  if start = end_ then
    PlanOutcome.returned DeliveryResult.DELIVERY_SUCCESS commands totalDistanceTravelled
  else
    match router start end_ with
    | Outcome.returned tempResult currentRoute distance =>
      if tempResult = DeliveryResult.NO_ROUTE ∨ tempResult = DeliveryResult.BAD_COORD then
        PlanOutcome.returned tempResult commands totalDistanceTravelled
      else
        PlanOutcome.returned DeliveryResult.DELIVERY_SUCCESS
          (commands ++ routeCommands distanceEarthMiles angleOfLine angleBetween2Lines
            currentRoute)
          (totalDistanceTravelled + distance)
    | stuck => PlanOutcome.routerStuck stuck

/-- The loop `for (auto &x : deliveries)` of `generateDeliveryPlan`. -/
def deliveryLoop (router : G → G → Outcome G) (distanceEarthMiles : G → G → Nat)
    (angleOfLine : StreetSegment G → ℚ)
    (angleBetween2Lines : StreetSegment G → StreetSegment G → ℚ) :
    G → List (DeliveryRequest G) → List DeliveryCommand → Nat → LoopOutcome G
  | currentStart, [], commands, total => LoopOutcome.finished currentStart commands total
  | currentStart, x :: rest, commands, total =>
    if currentStart = x.location then
      deliveryLoop router distanceEarthMiles angleOfLine angleBetween2Lines x.location rest
        (commands ++ [DeliveryCommand.deliver x.item]) total
    else
      match navigate router distanceEarthMiles angleOfLine angleBetween2Lines currentStart
          x.location commands total with
      | PlanOutcome.returned r commands1 total1 =>
        if r = DeliveryResult.NO_ROUTE ∨ r = DeliveryResult.BAD_COORD then
          LoopOutcome.left (PlanOutcome.returned r commands1 total1)
        else
          deliveryLoop router distanceEarthMiles angleOfLine angleBetween2Lines x.location
            rest (commands1 ++ [DeliveryCommand.deliver x.item]) total1
      | stuck => LoopOutcome.left stuck

/-- `DeliveryPlannerImpl::generateDeliveryPlan(depot, deliveries, commands,
totalDistanceTravelled)`: the total is set to 0, the deliveries are visited in order, and
the way back to the depot is navigated. -/
def generateDeliveryPlan (router : G → G → Outcome G) (distanceEarthMiles : G → G → Nat)
    (angleOfLine : StreetSegment G → ℚ)
    (angleBetween2Lines : StreetSegment G → StreetSegment G → ℚ) (depot : G)
    (deliveries : List (DeliveryRequest G)) (commands : List DeliveryCommand)
    (totalDistanceTravelled : Nat) : PlanOutcome G :=
  match deliveryLoop router distanceEarthMiles angleOfLine angleBetween2Lines depot
      deliveries commands 0 with
  | LoopOutcome.finished currentStart commands1 total1 =>
    navigate router distanceEarthMiles angleOfLine angleBetween2Lines currentStart depot
      commands1 total1
  | LoopOutcome.left out => out

end Planner

/-! ## Vocabulary of the statements about the planner -/

/-- The command is a proceed command. -/
def DeliveryCommand.isProceed : DeliveryCommand → Bool
  | DeliveryCommand.proceed _ _ _ => true
  | _ => false

/-- The command is a turn command. -/
def DeliveryCommand.isTurn : DeliveryCommand → Bool
  | DeliveryCommand.turn _ _ => true
  | _ => false

/-- The command is a deliver command. -/
def DeliveryCommand.isDeliver : DeliveryCommand → Bool
  | DeliveryCommand.deliver _ => true
  | _ => false

/-- The compass name the specification assigns to the bucket index of a bearing. -/
def compassBucketName (index : Int) : String :=
  if index = 0 ∨ index = 15 then "east"
  else if index = 1 ∨ index = 2 then "northeast"
  else if index = 3 ∨ index = 4 then "north"
  else if index = 5 ∨ index = 6 then "northwest"
  else if index = 7 ∨ index = 8 then "west"
  else if index = 9 ∨ index = 10 then "southwest"
  else if index = 11 ∨ index = 12 then "south"
  else if index = 13 ∨ index = 14 then "southeast"
  else ""

section PlannerVocabulary

variable {G : Type} [DecidableEq G]

/-- The proceed command the specification assigns to a run of segments: the compass
direction of the bearing of its first segment, its street name, and the sum of the
lengths of its segments. -/
def proceedOfRun (distanceEarthMiles : G → G → Nat) (angleOfLine : StreetSegment G → ℚ)
    (run : List (StreetSegment G)) : DeliveryCommand :=
  DeliveryCommand.proceed
    ((run.head?.map (fun s => stringAngleForProceed (angleOfLine s))).getD "")
    ((run.head?.map (fun s => s.name)).getD "")
    (routeLength distanceEarthMiles run)

/-- The segments of a run share one street name. -/
def OneStreet (run : List (StreetSegment G)) : Prop :=
  ∀ s ∈ run, ∀ t ∈ run, s.name = t.name

/-- No segment of the first run has the street name of a segment of the second. -/
def StreetChanges (run1 run2 : List (StreetSegment G)) : Prop :=
  ∀ s ∈ run1, ∀ t ∈ run2, s.name ≠ t.name

/-- The runs are the maximal consecutive runs of the route that share a street name:
they are non-empty, each on one street, the street changes from each run to the next,
and laid end to end they are the route. -/
def MaximalRuns (route : List (StreetSegment G)) (runs : List (List (StreetSegment G))) :
    Prop :=
  runs.flatten = route ∧ (∀ run ∈ runs, run ≠ [] ∧ OneStreet run)
    ∧ runs.Chain' StreetChanges

/-- The current position after the requests `done`: the depot when there are none, else
the location of the last one. -/
def currentPosition (depot : G) (done : List (DeliveryRequest G)) : G :=
  (done.getLast?.map (fun r => r.location)).getD depot

/-- The commands of one leg on their own: what `navigate` appends to an empty command
vector when it returns `DELIVERY_SUCCESS`. -/
def legCommands (router : G → G → Outcome G) (distanceEarthMiles : G → G → Nat)
    (angleOfLine : StreetSegment G → ℚ)
    (angleBetween2Lines : StreetSegment G → StreetSegment G → ℚ) (a b : G) :
    Option (List DeliveryCommand) :=
  match navigate router distanceEarthMiles angleOfLine angleBetween2Lines a b [] 0 with
  | PlanOutcome.returned DeliveryResult.DELIVERY_SUCCESS commands _ => some commands
  | _ => none

/-- The command sequence the specification assigns to a plan: for each request in input
order the commands of the leg from the previous position to its location followed by its
deliver command, then the commands of the leg from the last position back to the depot. -/
def planCommands (router : G → G → Outcome G) (distanceEarthMiles : G → G → Nat)
    (angleOfLine : StreetSegment G → ℚ)
    (angleBetween2Lines : StreetSegment G → StreetSegment G → ℚ) (depot : G) :
    G → List (DeliveryRequest G) → Option (List DeliveryCommand)
  | position, [] =>
    legCommands router distanceEarthMiles angleOfLine angleBetween2Lines position depot
  | position, x :: rest =>
    match legCommands router distanceEarthMiles angleOfLine angleBetween2Lines position
        x.location,
      planCommands router distanceEarthMiles angleOfLine angleBetween2Lines depot
        x.location rest with
    | some leg, some more => some (leg ++ DeliveryCommand.deliver x.item :: more)
    | _, _ => none

/-- The search loop of `generatePointToPointRoute` with a record of the entries it
inserts into `processed` (statement `processed.insert(current)`), in order. -/
def settledEntries (hasher : G → Nat) (distanceEarthMiles : G → G → Nat)
    (sm : StreetMapImpl G) (end_ : G) : Nat → RouterState G → List (processCoord G)
  | 0, _ => []
  | fuel + 1, st =>
    match st.vertexQueue with
    | [] => []
    | current :: rest =>
      if setFind current st.processed then
        settledEntries hasher distanceEarthMiles sm end_ fuel { st with vertexQueue := rest }
      else if current.location = end_ then [current]
      else
        match sm.getSegmentsThatStartWith hasher current.location with
        | none => [current]
        | some processor =>
          current :: settledEntries hasher distanceEarthMiles sm end_ fuel
            (relax hasher distanceEarthMiles
              current processor
              { st with vertexQueue := rest, processed := setInsert current st.processed })

end PlannerVocabulary

/-- A bearing function for the examples: every segment points east. -/
def bearingEast (_ : StreetSegment Nat) : ℚ := 0

/-- A turn-angle function for the examples: the same angle between any two segments. -/
def turnAngle (angle : ℚ) (_ _ : StreetSegment Nat) : ℚ := angle

/-- The straight street `0 - 1 - 2 - 3`: two segments of street "x", then one of "y". -/
def threeMap : StreetMapImpl Nat :=
  StreetMapImpl.loadSegments id StreetMapImpl.create [(0, 1, "x"), (1, 2, "x"), (2, 3, "y")]

/-! ## Vocabulary of the statements about distances, storage and termination -/

section LastVocabulary

variable {G : Type} [DecidableEq G]

/-- The distance the router returns for one leg: nothing is routed when the two
positions are equal. -/
def legDistance (router : G → G → Outcome G) (a b : G) : Option Nat :=
  if a = b then some 0
  else
    match router a b with
    | Outcome.returned DeliveryResult.DELIVERY_SUCCESS _ d => some d
    | _ => none

/-- The sum of the distances the router returns for the legs of a plan: from each
position to the location of the next request, and from the last position back to the
depot. -/
def planDistance (router : G → G → Outcome G) (depot : G) :
    G → List (DeliveryRequest G) → Option Nat
  | position, [] => legDistance router position depot
  | position, x :: rest =>
    match legDistance router position x.location, planDistance router depot x.location rest with
    | some d, some more => some (d + more)
    | _, _ => none

/-- A run of `insertSegment` calls, in order. -/
def StreetMapImpl.insertSegments (hasher : G → Nat) (sm : StreetMapImpl G)
    (segs : List (StreetSegment G)) : StreetMapImpl G :=
  segs.foldl (fun acc s => acc.insertSegment hasher s) sm

/-- The inserted segments that start at `c`, in insertion order. -/
def segmentsFrom (c : G) (segs : List (StreetSegment G)) : List (StreetSegment G) :=
  segs.filter (fun s => decide (s.start = c))

/-- What `getSegmentsThatStartWith` is to report for a list of segments: `false` for the
empty list, else `true` with the list. -/
def reported (segs : List (StreetSegment G)) : Option (List (StreetSegment G)) :=
  if segs = [] then none else some segs

/-- The two opposing segments `load` inserts for each segment line. -/
def opposingSegments (lines : List (G × G × String)) : List (StreetSegment G) :=
  match lines with
  | [] => []
  | (new1, new2, streetName) :: rest =>
    ⟨new1, new2, streetName⟩ :: ⟨new2, new1, streetName⟩ :: opposingSegments rest

end LastVocabulary

section ArrayLemmas

variable {K V : Type}

theorem length_modifyAt (f : MapType K V → MapType K V) (l : List (MapType K V)) (i : Nat) :
    (modifyAt f l i).length = l.length := by
  induction l generalizing i with
  | nil => rfl
  | cons b bs ih => cases i <;> simp [modifyAt, ih]

theorem bucketAt_modifyAt_self (f : MapType K V → MapType K V) (l : List (MapType K V))
    (i : Nat) (h : i < l.length) : bucketAt (modifyAt f l i) i = f (bucketAt l i) := by
  induction l generalizing i with
  | nil => simp at h
  | cons b bs ih =>
    cases i with
    | zero => rfl
    | succ n => exact ih n (by simpa using h)

theorem bucketAt_modifyAt_ne (f : MapType K V → MapType K V) (l : List (MapType K V))
    (i j : Nat) (h : i ≠ j) : bucketAt (modifyAt f l i) j = bucketAt l j := by
  induction l generalizing i j with
  | nil => rfl
  | cons b bs ih =>
    cases i with
    | zero =>
      cases j with
      | zero => exact absurd rfl h
      | succ m => rfl
    | succ n =>
      cases j with
      | zero => rfl
      | succ m => exact ih n m (fun e => h (by rw [e]))

theorem bucketAt_of_length_le (l : List (MapType K V)) (j : Nat) (h : l.length ≤ j) :
    bucketAt l j = ([], false) := by
  induction l generalizing j with
  | nil => rfl
  | cons b bs ih =>
    cases j with
    | zero => simp at h
    | succ m => exact ih m (by simpa using h)

theorem bucketAt_newBuckets (n j : Nat) : bucketAt (newBuckets K V n) j = ([], false) := by
  induction n generalizing j with
  | zero => rfl
  | succ n ih =>
    cases j with
    | zero => rfl
    | succ m => simpa [newBuckets, List.replicate_succ, bucketAt] using ih m

theorem bucketAt_mem (l : List (MapType K V)) (j : Nat) (h : j < l.length) :
    bucketAt l j ∈ l := by
  induction l generalizing j with
  | nil => simp at h
  | cons b bs ih =>
    cases j with
    | zero => simp [bucketAt]
    | succ m => exact List.mem_cons_of_mem _ (ih m (by simpa using h))

theorem mem_entries_of_mem_bucketAt (l : List (MapType K V)) (j : Nat) (kv : K × V)
    (h : kv ∈ (bucketAt l j).1) : kv ∈ ExpandableHashMap.entries l := by
  induction l generalizing j with
  | nil => simp [bucketAt] at h
  | cons b bs ih =>
    cases j with
    | zero => exact List.mem_append_left _ h
    | succ m => exact List.mem_append_right _ (ih m h)

theorem entries_newBuckets (n : Nat) : ExpandableHashMap.entries (newBuckets K V n) = [] := by
  induction n with
  | zero => rfl
  | succ n ih => simpa [newBuckets, List.replicate_succ, ExpandableHashMap.entries] using ih

theorem entries_pushBack_perm (l : List (MapType K V)) (pos : Nat) (kv : K × V)
    (h : pos < l.length) :
    (ExpandableHashMap.entries (pushBack l pos kv)).Perm (kv :: ExpandableHashMap.entries l) := by
  induction l generalizing pos with
  | nil => simp at h
  | cons b bs ih =>
    cases pos with
    | zero =>
      simp only [pushBack, modifyAt, ExpandableHashMap.entries, List.append_assoc]
      exact (List.perm_middle).trans (List.Perm.refl _)
    | succ n =>
      have := ih n (by simpa using h)
      simp only [pushBack, modifyAt, ExpandableHashMap.entries] at this ⊢
      exact (List.Perm.append_left b.1 this).trans List.perm_middle

theorem length_entries_modifyAt (f : MapType K V → MapType K V)
    (hf : ∀ b, (f b).1.length = b.1.length) (l : List (MapType K V)) (i : Nat) :
    (ExpandableHashMap.entries (modifyAt f l i)).length = (ExpandableHashMap.entries l).length := by
  induction l generalizing i with
  | nil => rfl
  | cons b bs ih =>
    cases i with
    | zero => simp [modifyAt, ExpandableHashMap.entries, hf]
    | succ n => simp [modifyAt, ExpandableHashMap.entries, ih]

end ArrayLemmas

/-! ## Collision chains -/

namespace ExpandableHashMap

variable {K V : Type} [DecidableEq K]

theorem findInChain_eq_none_iff (key : K) (l : List (K × V)) :
    findInChain key l = none ↔ key ∉ l.map Prod.fst := by
  induction l with
  | nil => simp [findInChain]
  | cons kv rest ih =>
    by_cases h : kv.1 = key
    · simp [findInChain, h]
    · simp only [findInChain, h, if_false, ih, List.map_cons, List.mem_cons, not_or]
      constructor
      · intro h2; exact ⟨fun e => h e.symm, h2⟩
      · intro h2; exact h2.2

theorem findInChain_append_of_none (key : K) (l1 l2 : List (K × V))
    (h : findInChain key l1 = none) : findInChain key (l1 ++ l2) = findInChain key l2 := by
  induction l1 with
  | nil => rfl
  | cons kv rest ih =>
    by_cases hk : kv.1 = key
    · simp [findInChain, hk] at h
    · simp only [findInChain, hk, if_false] at h
      simp [findInChain, hk, ih h]

theorem findInChain_append_of_some (key : K) (l1 l2 : List (K × V)) (v : V)
    (h : findInChain key l1 = some v) : findInChain key (l1 ++ l2) = some v := by
  induction l1 with
  | nil => simp [findInChain] at h
  | cons kv rest ih =>
    by_cases hk : kv.1 = key
    · simpa [findInChain, hk] using h
    · simp only [findInChain, hk, if_false] at h
      simp [findInChain, hk, ih h]

theorem findInChain_overwrite_self (key : K) (value w : V) (l : List (K × V))
    (h : findInChain key l = some w) :
    findInChain key (overwriteInChain key value l) = some value := by
  induction l with
  | nil => simp [findInChain] at h
  | cons kv rest ih =>
    by_cases hk : kv.1 = key
    · simp [overwriteInChain, findInChain, hk]
    · simp only [findInChain, hk, if_false] at h
      simp [overwriteInChain, findInChain, hk, ih h]

theorem findInChain_overwrite_ne (key key2 : K) (value : V) (l : List (K × V))
    (hne : key2 ≠ key) :
    findInChain key2 (overwriteInChain key value l) = findInChain key2 l := by
  induction l with
  | nil => rfl
  | cons kv rest ih =>
    by_cases hk : kv.1 = key
    · have hk2 : ¬ kv.1 = key2 := fun e => hne (e.symm.trans hk)
      simp only [overwriteInChain, findInChain, if_pos hk, if_neg hk2]
    · by_cases hk2 : kv.1 = key2
      · simp only [overwriteInChain, findInChain, if_neg hk, if_pos hk2]
      · simp only [overwriteInChain, findInChain, if_neg hk, if_neg hk2, ih]

theorem map_fst_overwriteInChain (key : K) (value : V) (l : List (K × V)) :
    (overwriteInChain key value l).map Prod.fst = l.map Prod.fst := by
  induction l with
  | nil => rfl
  | cons kv rest ih =>
    by_cases hk : kv.1 = key
    · simp [overwriteInChain, hk]
    · simp [overwriteInChain, hk, ih]

theorem length_overwriteInChain (key : K) (value : V) (l : List (K × V)) :
    (overwriteInChain key value l).length = l.length := by
  have := congrArg List.length (map_fst_overwriteInChain key value l)
  simpa using this

theorem findInChain_filter (key : K) (p : K × V → Bool) (l : List (K × V))
    (hp : ∀ kv : K × V, kv.1 = key → p kv = true) :
    findInChain key (l.filter p) = findInChain key l := by
  induction l with
  | nil => rfl
  | cons kv rest ih =>
    by_cases hk : kv.1 = key
    · simp [List.filter, hp kv hk, findInChain, hk]
    · cases hpk : p kv
      · simp [List.filter, hpk, findInChain, hk, ih]
      · simp [List.filter, hpk, findInChain, hk, ih]

theorem findInChain_mem (key : K) (v : V) (l : List (K × V))
    (h : findInChain key l = some v) : (key, v) ∈ l := by
  induction l with
  | nil => simp [findInChain] at h
  | cons kv rest ih =>
    by_cases hk : kv.1 = key
    · simp only [findInChain, hk, if_true, Option.some.injEq] at h
      have : kv = (key, v) := Prod.ext hk h
      simp [this]
    · simp only [findInChain, hk, if_false] at h
      exact List.mem_cons_of_mem _ (ih h)

/-! ## The structural invariant -/

theorem bucketsOk_bucketAt (hasher : K → Nat) (n i : Nat) (l : List (MapType K V))
    (h : BucketsOk hasher n i l) (j : Nat) (hj : j < l.length) :
    BucketOk hasher n (i + j) (bucketAt l j) := by
  induction l generalizing i j with
  | nil => simp at hj
  | cons b bs ih =>
    cases j with
    | zero => exact h.1
    | succ m =>
      have := ih (i + 1) h.2 m (by simpa using hj)
      simpa [bucketAt, Nat.add_assoc, Nat.add_comm 1 m] using this

theorem bucketsOk_of_bucketAt (hasher : K → Nat) (n i : Nat) (l : List (MapType K V))
    (h : ∀ j, j < l.length → BucketOk hasher n (i + j) (bucketAt l j)) :
    BucketsOk hasher n i l := by
  induction l generalizing i with
  | nil => trivial
  | cons b bs ih =>
    refine ⟨by simpa [bucketAt] using h 0 (by simp), ih (i + 1) ?_⟩
    intro j hj
    have := h (j + 1) (by simpa using hj)
    simpa [bucketAt, Nat.add_assoc, Nat.add_comm 1 j] using this

theorem chain_eq_nil_of_flag (hasher : K → Nat) (n i : Nat) (l : List (MapType K V))
    (h : BucketsOk hasher n i l) (j : Nat) (hf : (bucketAt l j).2 = false) :
    (bucketAt l j).1 = [] := by
  by_cases hj : j < l.length
  · have := (bucketsOk_bucketAt hasher n i l h j hj).2.2
    by_contra hne
    rw [this hne] at hf
    exact Bool.noConfusion hf
  · rw [bucketAt_of_length_le l j (Nat.le_of_not_lt hj)]

theorem hash_of_mem_entries (hasher : K → Nat) (n i : Nat) (l : List (MapType K V))
    (h : BucketsOk hasher n i l) (kv : K × V) (hkv : kv ∈ entries l) :
    i ≤ hasher kv.1 % n ∧ kv ∈ (bucketAt l (hasher kv.1 % n - i)).1 := by
  induction l generalizing i with
  | nil => simp [entries] at hkv
  | cons b bs ih =>
    rcases List.mem_append.1 hkv with hb | hbs
    · have := h.1.1 kv hb
      rw [this]
      exact ⟨Nat.le_refl _, by simpa [bucketAt] using hb⟩
    · have := ih (i + 1) h.2 hbs
      refine ⟨by omega, ?_⟩
      have e : hasher kv.1 % n - i = (hasher kv.1 % n - (i + 1)) + 1 := by omega
      rw [e]
      exact this.2

theorem nodup_keys_entries (hasher : K → Nat) (n i : Nat) (l : List (MapType K V))
    (h : BucketsOk hasher n i l) : ((entries l).map Prod.fst).Nodup := by
  induction l generalizing i with
  | nil => simp [entries]
  | cons b bs ih =>
    simp only [entries, List.map_append]
    refine List.Nodup.append h.1.2.1 (ih (i + 1) h.2) ?_
    intro k hk1 hk2
    rcases List.mem_map.1 hk1 with ⟨kv1, hm1, rfl⟩
    rcases List.mem_map.1 hk2 with ⟨kv2, hm2, he⟩
    have h1 := h.1.1 kv1 hm1
    have h2 := (hash_of_mem_entries hasher n (i + 1) bs h.2 kv2 hm2).1
    rw [he] at h2
    omega

theorem findInChain_entries (hasher : K → Nat) (n i : Nat) (l : List (MapType K V))
    (h : BucketsOk hasher n i l) (key : K) (hi : i ≤ hasher key % n) :
    findInChain key (entries l) = findInChain key (bucketAt l (hasher key % n - i)).1 := by
  induction l generalizing i with
  | nil => rfl
  | cons b bs ih =>
    by_cases he : hasher key % n = i
    · have e0 : hasher key % n - i = 0 := by omega
      rw [e0]
      simp only [entries, bucketAt]
      cases hb : findInChain key b.1 with
      | some v => exact findInChain_append_of_some key _ _ v hb
      | none =>
        rw [findInChain_append_of_none key _ _ hb]
        rw [findInChain_eq_none_iff]
        intro hmem
        rcases List.mem_map.1 hmem with ⟨kv, hm, hk⟩
        have := (hash_of_mem_entries hasher n (i + 1) bs h.2 kv hm).1
        rw [hk] at this
        omega
    · have e : hasher key % n - i = (hasher key % n - (i + 1)) + 1 := by omega
      rw [e]
      simp only [entries, bucketAt]
      have hb : findInChain key b.1 = none := by
        rw [findInChain_eq_none_iff]
        intro hmem
        rcases List.mem_map.1 hmem with ⟨kv, hm, hk⟩
        have := h.1.1 kv hm
        rw [hk] at this
        exact he this
      rw [findInChain_append_of_none key _ _ hb]
      exact ih (i + 1) h.2 (by omega)

/-- Under the invariant `find` is the chain walk of the bucket the key hashes to. -/
theorem find_eq_chain (hasher : K → Nat) (m : ExpandableHashMap K V) (hm : WF hasher m)
    (key : K) :
    find hasher m key = findInChain key (bucketAt m.m_hashmap (hasher key % m.m_buckets)).1 := by
  unfold find
  by_cases hs : m.m_size = 0
  · have hnil : entries m.m_hashmap = [] := by
      have := hm.size_eq
      rw [hs] at this
      exact List.length_eq_zero.1 this.symm
    have : (bucketAt m.m_hashmap (hasher key % m.m_buckets)).1 = [] := by
      apply List.eq_nil_iff_forall_not_mem.2
      intro kv hkv
      have := mem_entries_of_mem_bucketAt _ _ kv hkv
      rw [hnil] at this
      simp at this
    simp [hs, this, findInChain]
  · simp only [hs, if_false]
    cases hf : (bucketAt m.m_hashmap (hasher key % m.m_buckets)).2
    · have := chain_eq_nil_of_flag hasher _ 0 _ hm.buckets_ok _ hf
      simp [this, findInChain]
    · simp

/-- Under the invariant `find` is the lookup of the key among all stored pairs. -/
theorem find_eq_entries (hasher : K → Nat) (m : ExpandableHashMap K V) (hm : WF hasher m)
    (key : K) : find hasher m key = findInChain key (entries m.m_hashmap) := by
  rw [find_eq_chain hasher m hm key,
    findInChain_entries hasher _ 0 _ hm.buckets_ok key (Nat.zero_le _)]
  rfl

end ExpandableHashMap

/-! ## The rehash loop -/

namespace ExpandableHashMap

variable {K V : Type} [DecidableEq K]

theorem length_rehashChain (hasher : K → Nat) (d : Nat) (kvs : List (K × V))
    (fresh : List (MapType K V)) : (rehashChain hasher d kvs fresh).length = fresh.length := by
  induction kvs generalizing fresh with
  | nil => rfl
  | cons kv rest ih => simp [rehashChain, ih, pushBack, length_modifyAt]

theorem rehashChain_append (hasher : K → Nat) (d : Nat) (l1 l2 : List (K × V))
    (fresh : List (MapType K V)) :
    rehashChain hasher d (l1 ++ l2) fresh
      = rehashChain hasher d l2 (rehashChain hasher d l1 fresh) := by
  induction l1 generalizing fresh with
  | nil => rfl
  | cons kv rest ih => simp [rehashChain, ih]

theorem rehash_eq_rehashChain (hasher : K → Nat) (d : Nat) (bs : List (MapType K V))
    (fresh : List (MapType K V)) (hflag : ∀ b ∈ bs, b.2 = false → b.1 = []) :
    rehash hasher d bs fresh = rehashChain hasher d (entries bs) fresh := by
  induction bs generalizing fresh with
  | nil => rfl
  | cons b rest ih =>
    have ih2 := fun fr => ih fr (fun c hc => hflag c (List.mem_cons_of_mem _ hc))
    cases hb : b.2
    · have := hflag b (List.mem_cons_self _ _) hb
      simp [rehash, hb, entries, this, ih2]
    · simp [rehash, hb, entries, rehashChain_append, ih2]

theorem bucketAt_rehashChain (hasher : K → Nat) (d : Nat) (hpos : 0 < d) (kvs : List (K × V))
    (fresh : List (MapType K V)) (hd : fresh.length = d) (j : Nat) :
    (bucketAt (rehashChain hasher d kvs fresh) j).1
      = (bucketAt fresh j).1 ++ kvs.filter (fun kv => decide (hasher kv.1 % d = j)) := by
  induction kvs generalizing fresh with
  | nil => simp [rehashChain]
  | cons kv rest ih =>
    have hlen : (pushBack fresh (hasher kv.1 % d) kv).length = d := by
      simp [pushBack, length_modifyAt, hd]
    rw [rehashChain, ih _ hlen]
    by_cases hj : hasher kv.1 % d = j
    · have hlt : hasher kv.1 % d < fresh.length := by
        rw [hd]; exact Nat.mod_lt _ hpos
      subst hj
      simp [pushBack, bucketAt_modifyAt_self _ _ _ hlt, List.filter]
    · simp [pushBack, bucketAt_modifyAt_ne _ _ _ _ hj, List.filter, hj]

theorem flag_rehashChain (hasher : K → Nat) (d : Nat) (hpos : 0 < d) (kvs : List (K × V))
    (fresh : List (MapType K V)) (hd : fresh.length = d)
    (hf : ∀ j, (bucketAt fresh j).1 ≠ [] → (bucketAt fresh j).2 = true) (j : Nat) :
    (bucketAt (rehashChain hasher d kvs fresh) j).1 ≠ [] →
      (bucketAt (rehashChain hasher d kvs fresh) j).2 = true := by
  induction kvs generalizing fresh with
  | nil => exact hf j
  | cons kv rest ih =>
    have hlen : (pushBack fresh (hasher kv.1 % d) kv).length = d := by
      simp [pushBack, length_modifyAt, hd]
    have hlt : hasher kv.1 % d < fresh.length := by
      rw [hd]; exact Nat.mod_lt _ hpos
    rw [rehashChain]
    apply ih _ hlen
    intro i
    by_cases hi : hasher kv.1 % d = i
    · subst hi
      simp [pushBack, bucketAt_modifyAt_self _ _ _ hlt]
    · simpa [pushBack, bucketAt_modifyAt_ne _ _ _ _ hi] using hf i

theorem entries_rehashChain_perm (hasher : K → Nat) (d : Nat) (hpos : 0 < d)
    (kvs : List (K × V)) (fresh : List (MapType K V)) (hd : fresh.length = d) :
    (entries (rehashChain hasher d kvs fresh)).Perm (entries fresh ++ kvs) := by
  induction kvs generalizing fresh with
  | nil => simp [rehashChain]
  | cons kv rest ih =>
    have hlen : (pushBack fresh (hasher kv.1 % d) kv).length = d := by
      simp [pushBack, length_modifyAt, hd]
    have hlt : hasher kv.1 % d < fresh.length := by
      rw [hd]; exact Nat.mod_lt _ hpos
    rw [rehashChain]
    refine (ih _ hlen).trans ?_
    refine ((entries_pushBack_perm fresh _ kv hlt).append_right rest).trans ?_
    simpa using (List.perm_middle).symm

theorem flag_of_bucketsOk (hasher : K → Nat) (n i : Nat) (l : List (MapType K V))
    (h : BucketsOk hasher n i l) : ∀ b ∈ l, b.2 = false → b.1 = [] := by
  induction l generalizing i with
  | nil => intro b hb; simp at hb
  | cons c cs ih =>
    intro b hb hf
    rcases List.mem_cons.1 hb with rfl | hcs
    · by_contra hne
      rw [h.1.2.2 hne] at hf
      exact Bool.noConfusion hf
    · exact ih (i + 1) h.2 b hcs hf

/-! ## The invariant is kept by every operation -/

theorem wf_create (hasher : K → Nat) (lf : LoadFactor) :
    WF hasher (create lf : ExpandableHashMap K V) := by
  refine ⟨by simp [create, newBuckets], by simp [create], ?_, ?_⟩
  · apply bucketsOk_of_bucketAt
    intro j _
    simp [create, bucketAt_newBuckets, BucketOk]
  · simp [create, entries_newBuckets]

theorem wf_reset (hasher : K → Nat) (m : ExpandableHashMap K V) : WF hasher (reset m) :=
  wf_create hasher m.m_loadFactor

theorem wf_grow (hasher : K → Nat) (m : ExpandableHashMap K V) (hm : WF hasher m) :
    WF hasher (grow hasher m) := by
  have hpos : 0 < m.m_buckets * 2 := by have := hm.buckets_pos; omega
  have hlen : (newBuckets K V (m.m_buckets * 2)).length = m.m_buckets * 2 := by
    simp [newBuckets]
  have hre := rehash_eq_rehashChain hasher (m.m_buckets * 2) m.m_hashmap
    (newBuckets K V (m.m_buckets * 2)) (flag_of_bucketsOk hasher _ 0 _ hm.buckets_ok)
  refine ⟨?_, hpos, ?_, ?_⟩
  · simp only [grow]
    rw [hre, length_rehashChain, hlen]
  · simp only [grow]
    rw [hre]
    apply bucketsOk_of_bucketAt
    intro j _
    have hch := bucketAt_rehashChain hasher _ hpos (entries m.m_hashmap) _ hlen j
    rw [bucketAt_newBuckets, List.nil_append] at hch
    refine ⟨?_, ?_, ?_⟩
    · intro kv hkv
      rw [hch] at hkv
      simpa using (List.mem_filter.1 hkv).2
    · rw [hch]
      have := nodup_keys_entries hasher _ 0 _ hm.buckets_ok
      exact List.Nodup.sublist (List.Sublist.map _ (List.filter_sublist _)) this
    · apply flag_rehashChain hasher _ hpos _ _ hlen
      intro i hi
      simp [bucketAt_newBuckets] at hi
  · simp only [grow]
    rw [hre, hm.size_eq]
    have := (entries_rehashChain_perm hasher _ hpos (entries m.m_hashmap) _ hlen).length_eq
    rw [this, entries_newBuckets, List.nil_append]

theorem find_grow (hasher : K → Nat) (m : ExpandableHashMap K V) (hm : WF hasher m)
    (key : K) : find hasher (grow hasher m) key = find hasher m key := by
  have hpos : 0 < m.m_buckets * 2 := by have := hm.buckets_pos; omega
  have hlen : (newBuckets K V (m.m_buckets * 2)).length = m.m_buckets * 2 := by
    simp [newBuckets]
  have hre := rehash_eq_rehashChain hasher (m.m_buckets * 2) m.m_hashmap
    (newBuckets K V (m.m_buckets * 2)) (flag_of_bucketsOk hasher _ 0 _ hm.buckets_ok)
  rw [find_eq_chain hasher _ (wf_grow hasher m hm), find_eq_entries hasher m hm]
  simp only [grow]
  rw [hre, bucketAt_rehashChain hasher _ hpos _ _ hlen, bucketAt_newBuckets, List.nil_append]
  apply findInChain_filter
  intro kv hk
  simp [hk]

theorem entries_grow_perm (hasher : K → Nat) (m : ExpandableHashMap K V) (hm : WF hasher m) :
    (entries (grow hasher m).m_hashmap).Perm (entries m.m_hashmap) := by
  have hpos : 0 < m.m_buckets * 2 := by have := hm.buckets_pos; omega
  have hlen : (newBuckets K V (m.m_buckets * 2)).length = m.m_buckets * 2 := by
    simp [newBuckets]
  have hre := rehash_eq_rehashChain hasher (m.m_buckets * 2) m.m_hashmap
    (newBuckets K V (m.m_buckets * 2)) (flag_of_bucketsOk hasher _ 0 _ hm.buckets_ok)
  simp only [grow]
  rw [hre]
  have := entries_rehashChain_perm hasher _ hpos (entries m.m_hashmap) _ hlen
  rwa [entries_newBuckets, List.nil_append] at this

theorem wf_insertNew (hasher : K → Nat) (m : ExpandableHashMap K V) (hm : WF hasher m)
    (key : K) (value : V) (habs : find hasher m key = none) :
    WF hasher (insertNew hasher m key value) := by
  have hlt : hasher key % m.m_buckets < m.m_hashmap.length := by
    rw [hm.length_eq]; exact Nat.mod_lt _ hm.buckets_pos
  refine ⟨?_, hm.buckets_pos, ?_, ?_⟩
  · simp [insertNew, pushBack, length_modifyAt, hm.length_eq]
  · simp only [insertNew]
    apply bucketsOk_of_bucketAt
    intro j hj
    rw [pushBack, length_modifyAt] at hj
    have hold := bucketsOk_bucketAt hasher _ 0 _ hm.buckets_ok j hj
    by_cases hjp : hasher key % m.m_buckets = j
    · subst hjp
      rw [pushBack, bucketAt_modifyAt_self _ _ _ hlt]
      refine ⟨?_, ?_, fun _ => rfl⟩
      · intro kv hkv
        rcases List.mem_append.1 hkv with h1 | h1
        · exact hold.1 kv h1
        · simp at h1; subst h1; simp
      · rw [find_eq_chain hasher m hm key, findInChain_eq_none_iff] at habs
        simp only [List.map_append, List.map_cons, List.map_nil]
        refine List.Nodup.append hold.2.1 (List.nodup_singleton _) ?_
        intro k hk1 hk2
        simp at hk2
        subst hk2
        exact habs hk1
    · rw [pushBack, bucketAt_modifyAt_ne _ _ _ _ hjp]
      exact hold
  · simp only [insertNew]
    rw [(entries_pushBack_perm _ _ _ hlt).length_eq, hm.size_eq]
    simp

theorem wf_overwrite (hasher : K → Nat) (m : ExpandableHashMap K V) (hm : WF hasher m)
    (key : K) (value : V) :
    WF hasher { m with
      m_hashmap := modifyAt (fun b => (overwriteInChain key value b.1, b.2)) m.m_hashmap
        (hasher key % m.m_buckets) } := by
  have hlt : hasher key % m.m_buckets < m.m_hashmap.length := by
    rw [hm.length_eq]; exact Nat.mod_lt _ hm.buckets_pos
  refine ⟨?_, hm.buckets_pos, ?_, ?_⟩
  · simp [length_modifyAt, hm.length_eq]
  · apply bucketsOk_of_bucketAt
    intro j hj
    simp only [length_modifyAt] at hj
    have hold := bucketsOk_bucketAt hasher _ 0 _ hm.buckets_ok j hj
    by_cases hjp : hasher key % m.m_buckets = j
    · subst hjp
      simp only [bucketAt_modifyAt_self _ _ _ hlt]
      refine ⟨?_, ?_, ?_⟩
      · intro kv hkv
        have : kv.1 ∈ (overwriteInChain key value
            (bucketAt m.m_hashmap (hasher key % m.m_buckets)).1).map Prod.fst :=
          List.mem_map_of_mem _ hkv
        rw [map_fst_overwriteInChain] at this
        rcases List.mem_map.1 this with ⟨kv2, hm2, he⟩
        rw [← he]
        exact hold.1 kv2 hm2
      · simp only [map_fst_overwriteInChain]
        exact hold.2.1
      · intro hne
        apply hold.2.2
        intro hnil
        apply hne
        simp [hnil, overwriteInChain]
    · simp only [bucketAt_modifyAt_ne _ _ _ _ hjp]
      exact hold
  · simp only []
    rw [length_entries_modifyAt _ (fun b => by simp [length_overwriteInChain])]
    exact hm.size_eq

theorem wf_associate (hasher : K → Nat) (m : ExpandableHashMap K V) (hm : WF hasher m)
    (key : K) (value : V) : WF hasher (associate hasher m key value) := by
  unfold associate
  cases hf : find hasher m key with
  | none =>
    simp only []
    by_cases ho : overLoad m = true
    · simp only [ho, if_true]
      exact wf_insertNew hasher _ (wf_grow hasher m hm) key value
        (by rw [find_grow hasher m hm, hf])
    · simp only [ho]
      exact wf_insertNew hasher m hm key value hf
  | some w => exact wf_overwrite hasher m hm key value

theorem wf_of_reachable (hasher : K → Nat) (m : ExpandableHashMap K V)
    (h : Reachable hasher m) : WF hasher m := by
  induction h with
  | create lf => exact wf_create hasher lf
  | reset m _ _ => exact wf_reset hasher m
  | associate m key value _ ih => exact wf_associate hasher m ih key value

end ExpandableHashMap


/-! ## `find` after `associate` -/

namespace ExpandableHashMap

variable {K V : Type} [DecidableEq K]

theorem find_insertNew (hasher : K → Nat) (m : ExpandableHashMap K V) (hm : WF hasher m)
    (key : K) (value : V) (habs : find hasher m key = none) (key2 : K) :
    find hasher (insertNew hasher m key value) key2
      = if key2 = key then some value else find hasher m key2 := by
  have hlt : hasher key % m.m_buckets < m.m_hashmap.length := by
    rw [hm.length_eq]; exact Nat.mod_lt _ hm.buckets_pos
  rw [find_eq_chain hasher _ (wf_insertNew hasher m hm key value habs),
    find_eq_chain hasher m hm key2]
  rw [find_eq_chain hasher m hm key] at habs
  simp only [insertNew]
  by_cases hp : hasher key % m.m_buckets = hasher key2 % m.m_buckets
  · rw [← hp, pushBack, bucketAt_modifyAt_self _ _ _ hlt]
    by_cases hk : key2 = key
    · subst hk
      simp only [if_true]
      rw [findInChain_append_of_none _ _ _ habs]
      simp [findInChain]
    · simp only [if_neg hk]
      cases hc : findInChain key2 (bucketAt m.m_hashmap (hasher key % m.m_buckets)).1 with
      | none =>
        rw [findInChain_append_of_none _ _ _ hc]
        have : ¬ key = key2 := fun e => hk e.symm
        simp [findInChain, this]
      | some w => exact findInChain_append_of_some _ _ _ w hc
  · have hk : ¬ key2 = key := fun e => hp (by rw [e])
    rw [pushBack, bucketAt_modifyAt_ne _ _ _ _ hp, if_neg hk]

theorem find_overwrite (hasher : K → Nat) (m : ExpandableHashMap K V) (hm : WF hasher m)
    (key : K) (value w : V) (hpres : find hasher m key = some w) (key2 : K) :
    find hasher { m with
      m_hashmap := modifyAt (fun b => (overwriteInChain key value b.1, b.2)) m.m_hashmap
        (hasher key % m.m_buckets) } key2
      = if key2 = key then some value else find hasher m key2 := by
  have hlt : hasher key % m.m_buckets < m.m_hashmap.length := by
    rw [hm.length_eq]; exact Nat.mod_lt _ hm.buckets_pos
  rw [find_eq_chain hasher _ (wf_overwrite hasher m hm key value),
    find_eq_chain hasher m hm key2]
  rw [find_eq_chain hasher m hm key] at hpres
  simp only []
  by_cases hp : hasher key % m.m_buckets = hasher key2 % m.m_buckets
  · rw [← hp, bucketAt_modifyAt_self _ _ _ hlt]
    by_cases hk : key2 = key
    · subst hk
      simp only [if_true]
      exact findInChain_overwrite_self _ _ w _ hpres
    · simp only [if_neg hk]
      exact findInChain_overwrite_ne _ _ _ _ hk
  · have hk : ¬ key2 = key := fun e => hp (by rw [e])
    rw [bucketAt_modifyAt_ne _ _ _ _ hp, if_neg hk]

/-- The map law of `associate` on a state that satisfies the invariant. -/
theorem find_associate (hasher : K → Nat) (m : ExpandableHashMap K V) (hm : WF hasher m)
    (key : K) (value : V) (key2 : K) :
    find hasher (associate hasher m key value) key2
      = if key2 = key then some value else find hasher m key2 := by
  unfold associate
  cases hf : find hasher m key with
  | none =>
    simp only []
    by_cases ho : overLoad m = true
    · simp only [ho, if_true]
      rw [find_insertNew hasher _ (wf_grow hasher m hm) key value
        (by rw [find_grow hasher m hm, hf]), find_grow hasher m hm]
    · simp only [ho]
      exact find_insertNew hasher m hm key value hf key2
  | some w => exact find_overwrite hasher m hm key value w hf key2

theorem find_create (hasher : K → Nat) (lf : LoadFactor) (key : K) :
    find hasher (create lf : ExpandableHashMap K V) key = none := by
  simp [find, create]

theorem associateAll_append (hasher : K → Nat) (m : ExpandableHashMap K V)
    (l1 l2 : List (K × V)) :
    associateAll hasher m (l1 ++ l2) = associateAll hasher (associateAll hasher m l1) l2 := by
  simp [associateAll, List.foldl_append]

theorem wf_associateAll (hasher : K → Nat) (m : ExpandableHashMap K V) (hm : WF hasher m)
    (kvs : List (K × V)) : WF hasher (associateAll hasher m kvs) := by
  induction kvs generalizing m with
  | nil => exact hm
  | cons kv rest ih => exact ih _ (wf_associate hasher m hm kv.1 kv.2)

theorem find_associateAll (hasher : K → Nat) (m : ExpandableHashMap K V) (hm : WF hasher m)
    (kvs : List (K × V)) (key : K) :
    find hasher (associateAll hasher m kvs) key
      = valueOr (lastAssociated key kvs) (find hasher m key) := by
  induction kvs generalizing m with
  | nil => rfl
  | cons kv rest ih =>
    have := ih _ (wf_associate hasher m hm kv.1 kv.2)
    simp only [associateAll, List.foldl_cons] at this ⊢
    rw [this]
    simp only [lastAssociated]
    cases lastAssociated key rest with
    | some v => rfl
    | none =>
      simp only [valueOr]
      rw [find_associate hasher m hm]
      by_cases hk : key = kv.1
      · simp [hk]
      · have : ¬ kv.1 = key := fun e => hk e.symm
        simp [hk, this]

theorem mem_keysOf_iff (hasher : K → Nat) (m : ExpandableHashMap K V) (hm : WF hasher m)
    (key : K) : key ∈ keysOf m ↔ find hasher m key ≠ none := by
  rw [find_eq_entries hasher m hm, Ne, findInChain_eq_none_iff]
  simp [keysOf]

theorem size_eq_card_keysOf (hasher : K → Nat) (m : ExpandableHashMap K V)
    (hm : WF hasher m) : m.size = (keysOf m).card := by
  unfold keysOf size
  rw [List.toFinset_card_of_nodup (nodup_keys_entries hasher _ 0 _ hm.buckets_ok), hm.size_eq]
  simp

theorem keysOf_associate (hasher : K → Nat) (m : ExpandableHashMap K V) (hm : WF hasher m)
    (key : K) (value : V) :
    keysOf (associate hasher m key value) = insert key (keysOf m) := by
  ext k
  rw [mem_keysOf_iff hasher _ (wf_associate hasher m hm key value), find_associate hasher m hm,
    Finset.mem_insert, mem_keysOf_iff hasher m hm]
  by_cases hk : k = key
  · simp [hk]
  · simp [hk]

theorem keysOf_associateAll (hasher : K → Nat) (m : ExpandableHashMap K V) (hm : WF hasher m)
    (kvs : List (K × V)) :
    keysOf (associateAll hasher m kvs) = keysOf m ∪ (kvs.map Prod.fst).toFinset := by
  induction kvs generalizing m with
  | nil => simp [associateAll]
  | cons kv rest ih =>
    have := ih _ (wf_associate hasher m hm kv.1 kv.2)
    simp only [associateAll, List.foldl_cons] at this ⊢
    rw [this, keysOf_associate hasher m hm]
    ext k
    simp only [Finset.mem_union, Finset.mem_insert, List.mem_toFinset, List.map_cons,
      List.mem_cons]
    tauto

theorem size_associate_step (hasher : K → Nat) (m : ExpandableHashMap K V) (key : K)
    (value : V) :
    (associate hasher m key value).size
      = if (find hasher m key).isNone then m.size + 1 else m.size := by
  unfold associate
  cases hf : find hasher m key with
  | none =>
    by_cases ho : overLoad m = true
    · simp [ho, insertNew, grow, size]
    · simp [ho, insertNew, size]
  | some w => rfl

end ExpandableHashMap

/-! ## The sets of `processCoord` -/

section SetLemmas

variable {G : Type}

theorem mem_setInsert (x y : processCoord G) (s : List (processCoord G))
    (h : y ∈ setInsert x s) : y = x ∨ y ∈ s := by
  induction s with
  | nil => simpa [setInsert] using h
  | cons z zs ih =>
    unfold setInsert at h
    by_cases h1 : x.lt z = true
    · simp only [h1, if_true] at h
      rcases List.mem_cons.1 h with h | h
      · exact Or.inl h
      · exact Or.inr h
    · by_cases h2 : z.lt x = true
      · simp only [h1, h2, if_true] at h
        rcases List.mem_cons.1 h with h | h
        · exact Or.inr (h ▸ List.mem_cons_self _ _)
        · rcases ih h with h | h
          · exact Or.inl h
          · exact Or.inr (List.mem_cons_of_mem _ h)
      · simp only [h1, h2] at h
        exact Or.inr h

theorem length_setInsert_le (x : processCoord G) (s : List (processCoord G)) :
    (setInsert x s).length ≤ s.length + 1 := by
  induction s with
  | nil => simp [setInsert]
  | cons z zs ih =>
    cases h1 : x.lt z
    · cases h2 : z.lt x
      · simp [setInsert, h1, h2]
      · simp only [setInsert, h1, h2, if_true, List.length_cons, Bool.false_eq_true, if_false]
        omega
    · simp [setInsert, h1]

theorem length_setInsert_of_not_find (x : processCoord G) (s : List (processCoord G))
    (h : setFind x s = false) : (setInsert x s).length = s.length + 1 := by
  induction s with
  | nil => simp [setInsert]
  | cons z zs ih =>
    simp only [setFind, List.any_cons, Bool.or_eq_false_iff] at h
    cases h1 : x.lt z
    · cases h2 : z.lt x
      · simp [h1, h2] at h
      · simp only [setInsert, h1, h2, if_true, List.length_cons, Bool.false_eq_true, if_false]
        rw [ih (by simpa [setFind] using h.2)]
    · simp [setInsert, h1]

theorem ascending_setInsert (x : processCoord G) (s : List (processCoord G))
    (h : Ascending s) : Ascending (setInsert x s) := by
  induction s with
  | nil => simp [setInsert, Ascending]
  | cons z zs ih =>
    unfold Ascending at h ⊢
    rw [List.pairwise_cons] at h
    unfold setInsert
    by_cases h1 : x.lt z = true
    · simp only [h1, if_true]
      have hxz : x.distanceFromSource < z.distanceFromSource := by
        simpa [processCoord.lt] using h1
      refine List.Pairwise.cons ?_ (List.Pairwise.cons h.1 h.2)
      intro a ha
      rcases List.mem_cons.1 ha with rfl | ha
      · exact hxz
      · exact Nat.lt_trans hxz (h.1 a ha)
    · by_cases h2 : z.lt x = true
      · simp only [h1, h2, if_true]
        have hzx : z.distanceFromSource < x.distanceFromSource := by
          simpa [processCoord.lt] using h2
        refine List.Pairwise.cons ?_ (ih h.2)
        intro a ha
        rcases mem_setInsert x a zs ha with rfl | ha
        · exact hzx
        · exact h.1 a ha
      · simp only [h1, h2]
        exact List.Pairwise.cons h.1 h.2

theorem length_le_of_ascending (s : List (processCoord G)) (M : Nat) (h : Ascending s)
    (hM : ∀ e ∈ s, e.distanceFromSource ≤ M) : s.length ≤ M + 1 := by
  have hnd : (s.map (fun e => e.distanceFromSource)).Nodup := by
    show List.Pairwise (fun a b => a ≠ b) _
    rw [List.pairwise_map]
    exact h.imp (fun hab => Nat.ne_of_lt hab)
  have hsub : (s.map (fun e => e.distanceFromSource)).toFinset ⊆ Finset.range (M + 1) := by
    intro n hn
    rw [List.mem_toFinset, List.mem_map] at hn
    rcases hn with ⟨e, he, rfl⟩
    exact Finset.mem_range.2 (Nat.lt_succ_of_le (hM e he))
  have := Finset.card_le_card hsub
  rw [List.toFinset_card_of_nodup hnd, Finset.card_range] at this
  simpa using this

end SetLemmas

/-! ## The predecessor chains -/

section TreeLemmas

open ExpandableHashMap

variable {G : Type} [DecidableEq G]

theorem below_avoid (hasher : G → Nat) (sm : StreetMapImpl G) (start : G)
    (dm : ExpandableHashMap G Nat) (rm : ExpandableHashMap G (StreetSegment G))
    (hdm : WF hasher dm) (hrm : WF hasher rm) (v : G) (x : StreetSegment G) (newd : Nat)
    (z : G) (hz : Below hasher sm start dm rm z) :
    ∀ dz, find hasher dm z = some dz → (∀ dv, find hasher dm v = some dv → dz < dv) →
      Below hasher sm start (associate hasher dm v newd) (associate hasher rm v x) z := by
  induction hz with
  | base => intro _ _ _; exact Below.base
  | step w seg d d' hws hrmw hend hedge hdw hds hle _ ih =>
    intro dz hdz hlt
    have hdd : dz = d := by rw [hdw] at hdz; exact (Option.some.inj hdz).symm
    subst hdd
    have hwv : w ≠ v := by
      intro e
      subst e
      exact absurd (hlt dz hdw) (Nat.lt_irrefl _)
    have hlt' : ∀ dv, find hasher dm v = some dv → d' < dv :=
      fun dv hdv => Nat.lt_of_le_of_lt hle (hlt dv hdv)
    have hsv : seg.start ≠ v := by
      intro e
      rw [e] at hds
      exact absurd (hlt' d' hds) (Nat.lt_irrefl _)
    refine Below.step w seg dz d' hws ?_ hend hedge ?_ ?_ hle (ih d' hds hlt')
    · rw [find_associate hasher rm hrm, if_neg hwv]; exact hrmw
    · rw [find_associate hasher dm hdm, if_neg hwv]; exact hdw
    · rw [find_associate hasher dm hdm, if_neg hsv]; exact hds

theorem below_keep (hasher : G → Nat) (sm : StreetMapImpl G) (start : G)
    (dm : ExpandableHashMap G Nat) (rm : ExpandableHashMap G (StreetSegment G))
    (hdm : WF hasher dm) (hrm : WF hasher rm) (v : G) (x : StreetSegment G) (newd : Nat)
    (hlt : ∀ dv, find hasher dm v = some dv → newd < dv)
    (hv : Below hasher sm start (associate hasher dm v newd) (associate hasher rm v x) v)
    (w : G) (hw : Below hasher sm start dm rm w) :
    Below hasher sm start (associate hasher dm v newd) (associate hasher rm v x) w := by
  induction hw with
  | base => exact Below.base
  | step w seg d d' hws hrmw hend hedge hdw hds hle _ ih =>
    by_cases hwv : w = v
    · rw [hwv]; exact hv
    · by_cases hsv : seg.start = v
      · refine Below.step w seg d newd hws ?_ hend hedge ?_ ?_ ?_ ih
        · rw [find_associate hasher rm hrm, if_neg hwv]; exact hrmw
        · rw [find_associate hasher dm hdm, if_neg hwv]; exact hdw
        · rw [find_associate hasher dm hdm, if_pos hsv]
        · rw [hsv] at hds
          exact Nat.le_trans (Nat.le_of_lt (hlt d' hds)) hle
      · refine Below.step w seg d d' hws ?_ hend hedge ?_ ?_ hle ih
        · rw [find_associate hasher rm hrm, if_neg hwv]; exact hrmw
        · rw [find_associate hasher dm hdm, if_neg hwv]; exact hdw
        · rw [find_associate hasher dm hdm, if_neg hsv]; exact hds

theorem entryOk_associate (hasher : G → Nat) (dm : ExpandableHashMap G Nat)
    (hdm : WF hasher dm) (v : G) (newd : Nat)
    (hlt : ∀ dv, find hasher dm v = some dv → newd < dv) (e : processCoord G)
    (he : EntryOk hasher dm e) : EntryOk hasher (associate hasher dm v newd) e := by
  intro hmax
  rcases he hmax with ⟨d, hd, hle⟩
  by_cases hev : e.location = v
  · refine ⟨newd, ?_, ?_⟩
    · rw [find_associate hasher dm hdm, if_pos hev]
    · rw [hev] at hd
      exact Nat.le_trans (Nat.le_of_lt (hlt d hd)) hle
  · exact ⟨d, by rw [find_associate hasher dm hdm, if_neg hev]; exact hd, hle⟩

theorem treeInv_relaxOne (hasher : G → Nat) (distanceEarthMiles : G → G → Nat)
    (sm : StreetMapImpl G) (start : G) (st : RouterState G) (cur : processCoord G)
    (x : StreetSegment G) (hinv : TreeInv hasher sm start st)
    (hcur : EntryOk hasher st.distanceMap cur)
    (hx : IsEdge hasher sm x.start x) (hxs : x.start = cur.location) :
    TreeInv hasher sm start (relaxOne hasher distanceEarthMiles cur x st)
      ∧ EntryOk hasher (relaxOne hasher distanceEarthMiles cur x st).distanceMap cur := by
  unfold relaxOne
  simp only []
  split
  · rename_i himp
    -- the comparison distance is at most `MAX_DOUBLE`
    have hcmp : (match find hasher st.distanceMap x.end_ with
        | some d => d
        | none => MAX_DOUBLE) ≤ MAX_DOUBLE := by
      cases hf : find hasher st.distanceMap x.end_ with
      | none => exact Nat.le_refl _
      | some d => exact (hinv.below _ d hf).1
    have hlt : ∀ dv, find hasher st.distanceMap x.end_ = some dv →
        distanceEarthMiles cur.location x.end_ + cur.distanceFromSource < dv := by
      intro dv hdv
      rw [hdv] at himp
      exact himp
    have hcurlt : cur.distanceFromSource < MAX_DOUBLE := by omega
    rcases hcur hcurlt with ⟨dc, hdc, hdcle⟩
    have hltc : ∀ dv, find hasher st.distanceMap x.end_ = some dv → dc < dv := by
      intro dv hdv
      have := hlt dv hdv
      omega
    have hvs : x.end_ ≠ start := by
      intro e
      have := hlt 0 (by rw [e]; exact hinv.start_zero)
      omega
    have hcv : x.start ≠ x.end_ := by
      intro e
      rw [hxs] at e
      rw [e] at hdc
      exact absurd (hltc dc hdc) (Nat.lt_irrefl _)
    have hbv : Below hasher sm start
        (associate hasher st.distanceMap x.end_
          (distanceEarthMiles cur.location x.end_ + cur.distanceFromSource))
        (associate hasher st.routeMap x.end_ x) x.end_ := by
      refine Below.step x.end_ x
        (distanceEarthMiles cur.location x.end_ + cur.distanceFromSource) dc hvs ?_ rfl hx
        ?_ ?_ (by omega) ?_
      · rw [find_associate hasher _ hinv.wf_rm, if_pos rfl]
      · rw [find_associate hasher _ hinv.wf_dm, if_pos rfl]
      · rw [find_associate hasher _ hinv.wf_dm, if_neg hcv, hxs]; exact hdc
      · exact below_avoid hasher sm start _ _ hinv.wf_dm hinv.wf_rm _ _ _ _
          (hinv.below _ dc (by rw [hxs]; exact hdc)).2 dc (by rw [hxs]; exact hdc) hltc
    refine ⟨⟨wf_associate hasher _ hinv.wf_dm _ _, wf_associate hasher _ hinv.wf_rm _ _,
      ?_, ?_, ?_⟩, ?_⟩
    · simp only []
      rw [find_associate hasher _ hinv.wf_dm, if_neg (fun e => hvs e.symm)]
      exact hinv.start_zero
    · intro w d hw
      simp only [] at hw ⊢
      rw [find_associate hasher _ hinv.wf_dm] at hw
      by_cases hwv : w = x.end_
      · rw [if_pos hwv] at hw
        have hd := Option.some.inj hw
        refine ⟨by omega, ?_⟩
        rw [hwv]; exact hbv
      · rw [if_neg hwv] at hw
        exact ⟨(hinv.below w d hw).1,
          below_keep hasher sm start _ _ hinv.wf_dm hinv.wf_rm _ _ _ hlt hbv w
            (hinv.below w d hw).2⟩
    · intro e he
      simp only [] at he ⊢
      rcases mem_setInsert _ _ _ he with rfl | he
      · intro _
        exact ⟨_, by rw [find_associate hasher _ hinv.wf_dm, if_pos rfl], Nat.le_refl _⟩
      · exact entryOk_associate hasher _ hinv.wf_dm _ _ hlt e (hinv.queue_ok e he)
    · exact entryOk_associate hasher _ hinv.wf_dm _ _ hlt cur hcur
  · refine ⟨⟨hinv.wf_dm, hinv.wf_rm, hinv.start_zero, hinv.below, ?_⟩, hcur⟩
    intro e he
    simp only [] at he ⊢
    rcases mem_setInsert _ _ _ he with rfl | he
    · intro hlt
      exact absurd hlt (Nat.lt_irrefl _)
    · exact hinv.queue_ok e he

theorem treeInv_relax (hasher : G → Nat) (distanceEarthMiles : G → G → Nat)
    (sm : StreetMapImpl G) (start : G) (cur : processCoord G)
    (segs : List (StreetSegment G)) (st : RouterState G)
    (hinv : TreeInv hasher sm start st) (hcur : EntryOk hasher st.distanceMap cur)
    (hsegs : ∀ x ∈ segs, IsEdge hasher sm x.start x ∧ x.start = cur.location) :
    TreeInv hasher sm start (relax hasher distanceEarthMiles cur segs st) := by
  induction segs generalizing st with
  | nil => exact hinv
  | cons x xs ih =>
    have hx := hsegs x (List.mem_cons_self _ _)
    have h1 := treeInv_relaxOne hasher distanceEarthMiles sm start st cur x hinv hcur hx.1 hx.2
    exact ih _ h1.1 h1.2 (fun y hy => hsegs y (List.mem_cons_of_mem _ hy))

theorem treeInv_initialState (hasher : G → Nat) (sm : StreetMapImpl G) (start : G) :
    TreeInv hasher sm start (initialState hasher start) := by
  have hwf : WF hasher (create defaultLoadFactor : ExpandableHashMap G Nat) :=
    wf_create hasher _
  refine ⟨wf_associate hasher _ hwf _ _, wf_create hasher _, ?_, ?_, ?_⟩
  · simp only [initialState]
    rw [find_associate hasher _ hwf, if_pos rfl]
  · intro v d hv
    simp only [initialState] at hv ⊢
    rw [find_associate hasher _ hwf] at hv
    by_cases hvs : v = start
    · rw [if_pos hvs] at hv
      have := Option.some.inj hv
      subst this
      exact ⟨Nat.zero_le _, hvs ▸ Below.base⟩
    · rw [if_neg hvs, find_create] at hv
      exact Option.noConfusion hv
  · intro e he
    simp only [initialState, setInsert, List.mem_singleton] at he
    subst he
    intro _
    exact ⟨0, by simp only [initialState]; rw [find_associate hasher _ hwf, if_pos rfl],
      Nat.le_refl _⟩

end TreeLemmas

/-! ## The backward walk -/

section WalkLemmas

open ExpandableHashMap

variable {G : Type} [DecidableEq G]

theorem isPath_snoc (hasher : G → Nat) (sm : StreetMapImpl G) (a b : G)
    (p : List (StreetSegment G)) (x : StreetSegment G) (hp : IsPath hasher sm a b p)
    (hx : IsEdge hasher sm b x) (hxs : x.start = b) :
    IsPath hasher sm a x.end_ (p ++ [x]) := by
  induction p generalizing a with
  | nil =>
    simp only [IsPath] at hp
    subst hp
    exact ⟨hx, hxs, rfl⟩
  | cons y ys ih =>
    exact ⟨hp.1, hp.2.1, ih _ hp.2.2⟩

theorem chains_of_isPath (hasher : G → Nat) (sm : StreetMapImpl G) (a b : G)
    (p : List (StreetSegment G)) (hp : IsPath hasher sm a b p) : Chains a b p := by
  induction p generalizing a with
  | nil => exact hp
  | cons y ys ih => exact ⟨hp.2.1, ih _ hp.2.2⟩

theorem backtrack_of_below (hasher : G → Nat) (sm : StreetMapImpl G) (start : G)
    (dm : ExpandableHashMap G Nat) (rm : ExpandableHashMap G (StreetSegment G)) (v : G)
    (hv : Below hasher sm start dm rm v) :
    ∃ r, IsPath hasher sm start v r ∧ (v ≠ start → r ≠ []) ∧
      ∀ fuel acc, backtrack hasher rm start fuel v acc
        = if r.length + 1 ≤ fuel then some (some (r ++ acc)) else none := by
  induction hv with
  | base =>
    refine ⟨[], rfl, fun h => absurd rfl h, ?_⟩
    intro fuel acc
    cases fuel with
    | zero => rfl
    | succ n => simp [backtrack]
  | step w seg d d' hws hrmw hend hedge _ _ _ _ ih =>
    rcases ih with ⟨r0, hp0, _, hb0⟩
    refine ⟨r0 ++ [seg], ?_, fun _ => by simp, ?_⟩
    · have := isPath_snoc hasher sm start seg.start r0 seg hp0 hedge rfl
      rwa [hend] at this
    · intro fuel acc
      cases fuel with
      | zero => simp [backtrack]
      | succ n =>
        simp only [backtrack, if_neg hws, hrmw, hb0 n (seg :: acc), List.length_append,
          List.length_singleton, List.append_assoc, List.singleton_append]
        by_cases hn : r0.length + 1 ≤ n
        · simp [hn]
        · simp [hn]

theorem treeInv_pop (hasher : G → Nat) (sm : StreetMapImpl G) (start : G)
    (st : RouterState G) (current : processCoord G) (rest : List (processCoord G))
    (hq : st.vertexQueue = current :: rest) (hinv : TreeInv hasher sm start st)
    (processed : List (processCoord G)) :
    TreeInv hasher sm start { st with vertexQueue := rest, processed := processed }
      ∧ EntryOk hasher st.distanceMap current := by
  refine ⟨⟨hinv.wf_dm, hinv.wf_rm, hinv.start_zero, hinv.below, ?_⟩, ?_⟩
  · intro e he
    exact hinv.queue_ok e (by rw [hq]; exact List.mem_cons_of_mem _ he)
  · exact hinv.queue_ok current (by rw [hq]; exact List.mem_cons_self _ _)

theorem searchLoop_tree (hasher : G → Nat) (distanceEarthMiles : G → G → Nat)
    (sm : StreetMapImpl G) (start end_ : G) (route : List (StreetSegment G)) (total : Nat)
    (hwf : WellFormed hasher sm) (hne : start ≠ end_) (fuel : Nat) (st : RouterState G)
    (hinv : TreeInv hasher sm start st) :
    ∃ N, ∀ walkFuel,
      (N ≤ walkFuel →
        searchLoop hasher distanceEarthMiles sm start end_ route total walkFuel fuel st
          ≠ Outcome.walkCutOff) ∧
      searchLoop hasher distanceEarthMiles sm start end_ route total walkFuel fuel st
        ≠ Outcome.nullSegment ∧
      ∀ r d, searchLoop hasher distanceEarthMiles sm start end_ route total walkFuel fuel st
          = Outcome.returned DeliveryResult.DELIVERY_SUCCESS r d →
        r ≠ [] ∧ IsPath hasher sm start end_ r := by
  induction fuel generalizing st with
  | zero =>
    refine ⟨0, fun walkFuel => ?_⟩
    simp [searchLoop]
  | succ n ih =>
    cases hq : st.vertexQueue with
    | nil =>
      refine ⟨0, fun walkFuel => ?_⟩
      simp [searchLoop, hq]
    | cons current rest =>
      by_cases hfind : setFind current st.processed = true
      · have h1 := (treeInv_pop hasher sm start st current rest hq hinv st.processed).1
        rcases ih _ h1 with ⟨N, hN⟩
        refine ⟨N, fun walkFuel => ?_⟩
        have := hN walkFuel
        simpa [searchLoop, hq, hfind] using this
      · by_cases hend : current.location = end_
        · cases hd : find hasher st.distanceMap end_ with
          | none =>
            refine ⟨0, fun walkFuel => ?_⟩
            simp [searchLoop, hq, hfind, hend, hd]
          | some d =>
            have hb := (hinv.below end_ d hd).2
            rcases backtrack_of_below hasher sm start _ _ end_ hb with ⟨r, hp, hnil, hbt⟩
            refine ⟨r.length + 1, fun walkFuel => ?_⟩
            have hout : searchLoop hasher distanceEarthMiles sm start end_ route total
                walkFuel (n + 1) st
                = if r.length + 1 ≤ walkFuel then
                    Outcome.returned DeliveryResult.DELIVERY_SUCCESS r d
                  else Outcome.walkCutOff := by
              simp only [searchLoop, hq, hfind, hend, hd, hbt walkFuel [], List.append_nil]
              by_cases hw : r.length + 1 ≤ walkFuel
              · simp [hw]
              · simp [hw]
            rw [hout]
            by_cases hw : r.length + 1 ≤ walkFuel
            · rw [if_pos hw]
              refine ⟨fun _ => by simp, by simp, ?_⟩
              intro r' d' he
              simp only [Outcome.returned.injEq, true_and] at he
              rw [← he.1]
              exact ⟨hnil (fun e => hne e.symm), hp⟩
            · rw [if_neg hw]
              refine ⟨fun h => absurd h hw, by simp, ?_⟩
              intro r' d' he
              simp at he
        · cases hseg : sm.getSegmentsThatStartWith hasher current.location with
          | none =>
            refine ⟨0, fun walkFuel => ?_⟩
            simp [searchLoop, hq, hfind, hend, hseg]
          | some processor =>
            have h1 := treeInv_pop hasher sm start st current rest hq hinv
              (setInsert current st.processed)
            have hsegs : ∀ x ∈ processor,
                IsEdge hasher sm x.start x ∧ x.start = current.location := by
              intro x hx
              have he : IsEdge hasher sm current.location x := ⟨processor, hseg, hx⟩
              have hs := (hwf _ _ he).1
              exact ⟨by rw [hs]; exact he, hs⟩
            have h2 := treeInv_relax hasher distanceEarthMiles sm start current processor _
              h1.1 h1.2 hsegs
            rcases ih _ h2 with ⟨N, hN⟩
            refine ⟨N, fun walkFuel => ?_⟩
            have := hN walkFuel
            simpa [searchLoop, hq, hfind, hend, hseg] using this

end WalkLemmas

/-! ## Termination of the search loop and unreachable destinations -/

section SearchLemmas

open ExpandableHashMap

variable {G : Type} [DecidableEq G]

theorem find_mem_entries {K V : Type} [DecidableEq K] (hasher : K → Nat)
    (m : ExpandableHashMap K V) (key : K) (v : V) (h : find hasher m key = some v) :
    (key, v) ∈ entries m.m_hashmap := by
  unfold find at h
  by_cases hs : m.m_size = 0
  · simp [hs] at h
  · simp only [hs, if_false] at h
    by_cases hf : (bucketAt m.m_hashmap (hasher key % m.m_buckets)).2 = true
    · simp only [hf, if_true] at h
      exact mem_entries_of_mem_bucketAt _ _ _ (findInChain_mem key v _ h)
    · simp [hf] at h

theorem le_foldr_max (l : List Nat) (a : Nat) (h : a ∈ l) : a ≤ l.foldr max 0 := by
  induction l with
  | nil => simp at h
  | cons b bs ih =>
    rcases List.mem_cons.1 h with rfl | h
    · exact Nat.le_max_left _ _
    · exact Nat.le_trans (ih h) (Nat.le_max_right _ _)

theorem length_le_maxDegree (hasher : G → Nat) (sm : StreetMapImpl G) (c : G)
    (segs : List (StreetSegment G)) (h : sm.getSegmentsThatStartWith hasher c = some segs) :
    segs.length ≤ maxDegree sm := by
  have := find_mem_entries hasher _ c segs h
  apply le_foldr_max
  exact List.mem_map.2 ⟨(c, segs), this, rfl⟩

theorem processed_relaxOne (hasher : G → Nat) (distanceEarthMiles : G → G → Nat)
    (cur : processCoord G) (x : StreetSegment G) (st : RouterState G) :
    (relaxOne hasher distanceEarthMiles cur x st).processed = st.processed := by
  unfold relaxOne
  simp only []
  split <;> rfl

theorem processed_relax (hasher : G → Nat) (distanceEarthMiles : G → G → Nat)
    (cur : processCoord G) (segs : List (StreetSegment G)) (st : RouterState G) :
    (relax hasher distanceEarthMiles cur segs st).processed = st.processed := by
  induction segs generalizing st with
  | nil => rfl
  | cons x xs ih => rw [relax, ih, processed_relaxOne]

theorem length_queue_relaxOne (hasher : G → Nat) (distanceEarthMiles : G → G → Nat)
    (cur : processCoord G) (x : StreetSegment G) (st : RouterState G) :
    (relaxOne hasher distanceEarthMiles cur x st).vertexQueue.length
      ≤ st.vertexQueue.length + 1 := by
  unfold relaxOne
  simp only []
  split <;> exact length_setInsert_le _ _

theorem length_queue_relax (hasher : G → Nat) (distanceEarthMiles : G → G → Nat)
    (cur : processCoord G) (segs : List (StreetSegment G)) (st : RouterState G) :
    (relax hasher distanceEarthMiles cur segs st).vertexQueue.length
      ≤ st.vertexQueue.length + segs.length := by
  induction segs generalizing st with
  | nil => simp [relax]
  | cons x xs ih =>
    rw [relax]
    have h1 := ih (relaxOne hasher distanceEarthMiles cur x st)
    have h2 := length_queue_relaxOne hasher distanceEarthMiles cur x st
    simp only [List.length_cons]
    omega

theorem boundInv_relaxOne (hasher : G → Nat) (distanceEarthMiles : G → G → Nat)
    (cur : processCoord G) (x : StreetSegment G) (st : RouterState G)
    (hinv : BoundInv hasher st) : BoundInv hasher (relaxOne hasher distanceEarthMiles cur x st) := by
  unfold relaxOne
  simp only []
  split
  · rename_i himp
    have hcmp : (match find hasher st.distanceMap x.end_ with
        | some d => d
        | none => MAX_DOUBLE) ≤ MAX_DOUBLE := by
      cases hf : find hasher st.distanceMap x.end_ with
      | none => exact Nat.le_refl _
      | some d => exact hinv.dm_le _ d hf
    refine ⟨wf_associate hasher _ hinv.wf_dm _ _, ?_, ?_, hinv.processed_le, hinv.processed_asc⟩
    · intro w d hw
      simp only [] at hw
      rw [find_associate hasher _ hinv.wf_dm] at hw
      by_cases hwv : w = x.end_
      · rw [if_pos hwv] at hw
        have := Option.some.inj hw
        omega
      · rw [if_neg hwv] at hw
        exact hinv.dm_le w d hw
    · intro e he
      simp only [] at he
      rcases mem_setInsert _ _ _ he with rfl | he
      · simp only []
        omega
      · exact hinv.queue_le e he
  · refine ⟨hinv.wf_dm, hinv.dm_le, ?_, hinv.processed_le, hinv.processed_asc⟩
    intro e he
    simp only [] at he
    rcases mem_setInsert _ _ _ he with rfl | he
    · exact Nat.le_refl _
    · exact hinv.queue_le e he

theorem boundInv_relax (hasher : G → Nat) (distanceEarthMiles : G → G → Nat)
    (cur : processCoord G) (segs : List (StreetSegment G)) (st : RouterState G)
    (hinv : BoundInv hasher st) : BoundInv hasher (relax hasher distanceEarthMiles cur segs st) := by
  induction segs generalizing st with
  | nil => exact hinv
  | cons x xs ih => exact ih _ (boundInv_relaxOne hasher distanceEarthMiles cur x st hinv)

theorem boundInv_initialState (hasher : G → Nat) (start : G) :
    BoundInv hasher (initialState hasher start) := by
  have hwf : WF hasher (create defaultLoadFactor : ExpandableHashMap G Nat) :=
    wf_create hasher _
  refine ⟨wf_associate hasher _ hwf _ _, ?_, ?_, ?_, ?_⟩
  · intro v d hv
    simp only [initialState] at hv
    rw [find_associate hasher _ hwf] at hv
    by_cases hvs : v = start
    · rw [if_pos hvs] at hv
      have := Option.some.inj hv
      omega
    · rw [if_neg hvs, find_create] at hv
      exact Option.noConfusion hv
  · intro e he
    simp only [initialState, setInsert, List.mem_singleton] at he
    subst he
    exact Nat.zero_le _
  · intro e he
    simp [initialState] at he
  · simp [initialState, Ascending]

theorem reached_relaxOne (hasher : G → Nat) (distanceEarthMiles : G → G → Nat)
    (sm : StreetMapImpl G) (start : G) (hwf : WellFormed hasher sm) (cur : processCoord G)
    (x : StreetSegment G) (st : RouterState G)
    (hq : ∀ e ∈ st.vertexQueue, Reached hasher sm start e.location)
    (hcur : Reached hasher sm start cur.location) (hx : IsEdge hasher sm cur.location x) :
    ∀ e ∈ (relaxOne hasher distanceEarthMiles cur x st).vertexQueue,
      Reached hasher sm start e.location := by
  have hnew : Reached hasher sm start x.end_ := by
    rcases hcur.2 with ⟨p, hp⟩
    exact ⟨(hwf _ _ hx).2, p ++ [x], isPath_snoc hasher sm start _ p x hp hx (hwf _ _ hx).1⟩
  unfold relaxOne
  simp only []
  split
  · intro e he
    simp only [] at he
    rcases mem_setInsert _ _ _ he with rfl | he
    · exact hnew
    · exact hq e he
  · intro e he
    simp only [] at he
    rcases mem_setInsert _ _ _ he with rfl | he
    · exact hnew
    · exact hq e he

theorem reached_relax (hasher : G → Nat) (distanceEarthMiles : G → G → Nat)
    (sm : StreetMapImpl G) (start : G) (hwf : WellFormed hasher sm) (cur : processCoord G)
    (segs : List (StreetSegment G)) (st : RouterState G)
    (hq : ∀ e ∈ st.vertexQueue, Reached hasher sm start e.location)
    (hcur : Reached hasher sm start cur.location)
    (hsegs : ∀ x ∈ segs, IsEdge hasher sm cur.location x) :
    ∀ e ∈ (relax hasher distanceEarthMiles cur segs st).vertexQueue,
      Reached hasher sm start e.location := by
  induction segs generalizing st with
  | nil => exact hq
  | cons x xs ih =>
    rw [relax]
    exact ih _
      (reached_relaxOne hasher distanceEarthMiles sm start hwf cur x st hq hcur
        (hsegs x (List.mem_cons_self _ _)))
      (fun y hy => hsegs y (List.mem_cons_of_mem _ hy))

/-- One processing iteration lowers the potential by at least one. -/
theorem potential_process (hasher : G → Nat) (distanceEarthMiles : G → G → Nat)
    (sm : StreetMapImpl G) (st : RouterState G) (current : processCoord G)
    (rest : List (processCoord G)) (processor : List (StreetSegment G))
    (hq : st.vertexQueue = current :: rest) (hinv : BoundInv hasher st)
    (hfind : setFind current st.processed = false)
    (hseg : sm.getSegmentsThatStartWith hasher current.location = some processor) :
    BoundInv hasher (relax hasher distanceEarthMiles current processor
        { st with vertexQueue := rest, processed := setInsert current st.processed })
      ∧ potential sm (relax hasher distanceEarthMiles current processor
        { st with vertexQueue := rest, processed := setInsert current st.processed })
        < potential sm st := by
  have hcur : current.distanceFromSource ≤ MAX_DOUBLE :=
    hinv.queue_le current (by rw [hq]; exact List.mem_cons_self _ _)
  have h1 : BoundInv hasher
      { st with vertexQueue := rest, processed := setInsert current st.processed } := by
    refine ⟨hinv.wf_dm, hinv.dm_le, ?_, ?_, ascending_setInsert _ _ hinv.processed_asc⟩
    · intro e he
      exact hinv.queue_le e (by rw [hq]; exact List.mem_cons_of_mem _ he)
    · intro e he
      rcases mem_setInsert _ _ _ he with rfl | he
      · exact hcur
      · exact hinv.processed_le e he
  refine ⟨boundInv_relax hasher distanceEarthMiles current processor _ h1, ?_⟩
  have hlen := length_queue_relax hasher distanceEarthMiles current processor
    { st with vertexQueue := rest, processed := setInsert current st.processed }
  have hdeg := length_le_maxDegree hasher sm _ _ hseg
  have hp1 := length_setInsert_of_not_find current st.processed hfind
  have hp2 := length_le_of_ascending _ MAX_DOUBLE h1.processed_asc h1.processed_le
  simp only [] at hlen hp2
  unfold potential
  rw [processed_relax]
  simp only []
  rw [hp1, hq, List.length_cons]
  obtain ⟨k, hk⟩ : ∃ k, MAX_DOUBLE + 1 - st.processed.length = k + 1 :=
    ⟨MAX_DOUBLE + 1 - st.processed.length - 1, by omega⟩
  have hk2 : MAX_DOUBLE + 1 - (st.processed.length + 1) = k := by omega
  rw [hk, hk2, Nat.mul_succ]
  omega

theorem searchLoop_no_route (hasher : G → Nat) (distanceEarthMiles : G → G → Nat)
    (sm : StreetMapImpl G) (start end_ : G) (route : List (StreetSegment G)) (total : Nat)
    (hwf : WellFormed hasher sm) (hno : ¬ ∃ p, IsPath hasher sm start end_ p)
    (walkFuel fuel : Nat) (st : RouterState G) (hinv : BoundInv hasher st)
    (hreach : ∀ e ∈ st.vertexQueue, Reached hasher sm start e.location)
    (hfuel : potential sm st < fuel) :
    searchLoop hasher distanceEarthMiles sm start end_ route total walkFuel fuel st
      = Outcome.returned DeliveryResult.NO_ROUTE route total := by
  induction fuel generalizing st with
  | zero => exact absurd hfuel (Nat.not_lt_zero _)
  | succ n ih =>
    cases hq : st.vertexQueue with
    | nil => simp [searchLoop, hq]
    | cons current rest =>
      have hcur := hreach current (by rw [hq]; exact List.mem_cons_self _ _)
      have hrest : ∀ e ∈ rest, Reached hasher sm start e.location :=
        fun e he => hreach e (by rw [hq]; exact List.mem_cons_of_mem _ he)
      cases hfind : setFind current st.processed with
      | true =>
        have h1 : BoundInv hasher { st with vertexQueue := rest } :=
          ⟨hinv.wf_dm, hinv.dm_le,
            fun e he => hinv.queue_le e (by rw [hq]; exact List.mem_cons_of_mem _ he),
            hinv.processed_le, hinv.processed_asc⟩
        have h2 : potential sm { st with vertexQueue := rest } < n := by
          unfold potential at hfuel ⊢
          rw [hq, List.length_cons] at hfuel
          simp only []
          omega
        have := ih _ h1 hrest h2
        simpa [searchLoop, hq, hfind] using this
      | false =>
        have hend : current.location ≠ end_ := by
          intro e
          apply hno
          rw [← e]
          exact hcur.2
        cases hseg : sm.getSegmentsThatStartWith hasher current.location with
        | none => exact absurd hseg hcur.1
        | some processor =>
          have hp := potential_process hasher distanceEarthMiles sm st current rest processor
            hq hinv hfind hseg
          have hr := reached_relax hasher distanceEarthMiles sm start hwf current processor
            { st with vertexQueue := rest, processed := setInsert current st.processed }
            hrest hcur (fun x hx => ⟨processor, hseg, hx⟩)
          have := ih _ hp.1 hr (by omega)
          simpa [searchLoop, hq, hfind, hend, hseg] using this

end SearchLemmas

/-! ## Checks on a stored street map -/

section CheckLemmas

open ExpandableHashMap

variable {G : Type} [DecidableEq G]

theorem wellFormed_of_check (hasher : G → Nat) (sm : StreetMapImpl G)
    (h : wellFormedCheck hasher sm = true) : WellFormed hasher sm := by
  intro c x hx
  rcases hx with ⟨segs, hfind, hmem⟩
  have hent := find_mem_entries hasher _ c segs hfind
  unfold wellFormedCheck at h
  rw [List.all_eq_true] at h
  have h1 := h (c, segs) hent
  rw [List.all_eq_true] at h1
  have h2 := h1 x hmem
  simp only [Bool.and_eq_true, decide_eq_true_eq] at h2
  refine ⟨h2.1, ?_⟩
  intro hnone
  rw [hnone] at h2
  simp at h2

theorem no_path_of_closed (hasher : G → Nat) (sm : StreetMapImpl G) (inside : G → Bool)
    (h : closedCheck inside sm = true) (a b : G) (ha : inside a = true)
    (hb : inside b = false) : ¬ ∃ p, IsPath hasher sm a b p := by
  rintro ⟨p, hp⟩
  induction p generalizing a with
  | nil =>
    simp only [IsPath] at hp
    rw [hp, hb] at ha
    exact Bool.noConfusion ha
  | cons x xs ih =>
    rcases hp with ⟨⟨segs, hfind, hmem⟩, _, hrest⟩
    have hent := find_mem_entries hasher _ a segs hfind
    unfold closedCheck at h
    rw [List.all_eq_true] at h
    have h1 := h (a, segs) hent
    simp only [ha, Bool.not_true, Bool.false_or] at h1
    rw [List.all_eq_true] at h1
    exact ih x.end_ (h1 x hmem) hrest

theorem generate_of_ne (hasher : G → Nat) (distanceEarthMiles : G → G → Nat)
    (sm : StreetMapImpl G) (start end_ : G) (route : List (StreetSegment G)) (total : Nat)
    (searchFuel walkFuel : Nat) (hne : start ≠ end_) :
    generatePointToPointRoute hasher distanceEarthMiles sm start end_ route total
        searchFuel walkFuel
      = if (sm.getSegmentsThatStartWith hasher start).isNone
            || (sm.getSegmentsThatStartWith hasher end_).isNone then
          Outcome.returned DeliveryResult.BAD_COORD route total
        else
          searchLoop hasher distanceEarthMiles sm start end_ route total walkFuel
            searchFuel (initialState hasher start) := by
  unfold generatePointToPointRoute
  rw [if_neg hne]

end CheckLemmas

/-! ## Claims about `generatePointToPointRoute` -/

section RouterClaims

open ExpandableHashMap

/-- C1: shortest-path optimality does not hold for the code. On `detourMap`, a
well-formed graph, the call from `10` to `12` returns `DELIVERY_SUCCESS` with
`totalDistanceTravelled = 12`, while the graph path `10 → 11 → 12` has length 2: the
neighbour `11` of the start ties with the neighbour `9` at distance 1 and never enters
the queue. -/
theorem optimality_fails_on_tie :
    WellFormed id detourMap
      ∧ generatePointToPointRoute id lineDistance detourMap 10 12 [] 0 30 30
          = Outcome.returned DeliveryResult.DELIVERY_SUCCESS
              [⟨10, 9, "a"⟩, ⟨9, 5, "d"⟩, ⟨5, 12, "e"⟩] 12
      ∧ IsPath id detourMap 10 12 [⟨10, 11, "b"⟩, ⟨11, 12, "c"⟩]
      ∧ routeLength lineDistance [⟨10, 11, "b"⟩, ⟨11, 12, "c"⟩] = 2 := by
  refine ⟨wellFormed_of_check id detourMap (by decide), by decide, ?_, by decide⟩
  exact ⟨⟨_, rfl, by decide⟩, rfl, ⟨_, rfl, by decide⟩, rfl, rfl⟩

/-- C2: the returned total distance is not the length of the returned route. On
`staleMap`, a well-formed graph, the call from `3` to `7` returns `DELIVERY_SUCCESS` with
`totalDistanceTravelled = 6` and a route of length 4: the queue entry of `6` for its
improved distance 3 ties with the entry of `0` and is dropped, so `6` is expanded with
its old distance 5 while the route map already leads over `5`. -/
theorem total_differs_from_route_length :
    WellFormed id staleMap
      ∧ generatePointToPointRoute id lineDistance staleMap 3 7 [] 0 30 30
          = Outcome.returned DeliveryResult.DELIVERY_SUCCESS
              [⟨3, 5, "sa"⟩, ⟨5, 6, "av"⟩, ⟨6, 7, "ve"⟩] 6
      ∧ routeLength lineDistance [⟨3, 5, "sa"⟩, ⟨5, 6, "av"⟩, ⟨6, 7, "ve"⟩] = 4 := by
  exact ⟨wellFormed_of_check id staleMap (by decide), by decide, by decide⟩

/-- C3: on a well-formed graph with `start ≠ end`, for every bound on the search loop
there is a bound on the backward walk from which on the walk is never cut off; the walk
never dereferences a null route segment; and whenever the call returns
`DELIVERY_SUCCESS` the route is non-empty, chains from `start` to `end` (first segment
starts at `start`, each segment ends where the next starts, last segment ends at `end`)
and consists of graph edges. -/
theorem route_is_contiguous_chain {G : Type} [DecidableEq G] (hasher : G → Nat)
    (distanceEarthMiles : G → G → Nat) (sm : StreetMapImpl G) (start end_ : G)
    (route : List (StreetSegment G)) (total : Nat)
    (hwf : WellFormed hasher sm) (hne : start ≠ end_) (searchFuel : Nat) :
    ∃ N, ∀ walkFuel,
      (N ≤ walkFuel →
        generatePointToPointRoute hasher distanceEarthMiles sm start end_ route total
          searchFuel walkFuel ≠ Outcome.walkCutOff) ∧
      generatePointToPointRoute hasher distanceEarthMiles sm start end_ route total
        searchFuel walkFuel ≠ Outcome.nullSegment ∧
      ∀ r d, generatePointToPointRoute hasher distanceEarthMiles sm start end_ route total
          searchFuel walkFuel = Outcome.returned DeliveryResult.DELIVERY_SUCCESS r d →
        r ≠ [] ∧ Chains start end_ r ∧ IsPath hasher sm start end_ r := by
  by_cases hk : ((sm.getSegmentsThatStartWith hasher start).isNone
      || (sm.getSegmentsThatStartWith hasher end_).isNone) = true
  · refine ⟨0, fun walkFuel => ?_⟩
    rw [generate_of_ne hasher distanceEarthMiles sm start end_ route total _ _ hne, if_pos hk]
    refine ⟨fun _ => by simp, by simp, ?_⟩
    intro r d he
    simp at he
  · rcases searchLoop_tree hasher distanceEarthMiles sm start end_ route total hwf hne
      searchFuel _ (treeInv_initialState hasher sm start) with ⟨N, hN⟩
    refine ⟨N, fun walkFuel => ?_⟩
    rw [generate_of_ne hasher distanceEarthMiles sm start end_ route total _ _ hne, if_neg hk]
    refine ⟨(hN walkFuel).1, (hN walkFuel).2.1, ?_⟩
    intro r d he
    have := (hN walkFuel).2.2 r d he
    exact ⟨this.1, chains_of_isPath hasher sm _ _ _ this.2, this.2⟩

/-- Witness for C3 on the straight street `0 - 1 - 2`, where the call from `0` to `2`
returns the route `0 → 1 → 2`. -/
theorem route_is_contiguous_chain_witness :
    WellFormed id lineMap ∧ (0 : Nat) ≠ 2
      ∧ generatePointToPointRoute id lineDistance lineMap 0 2 [] 0 10 10
          = Outcome.returned DeliveryResult.DELIVERY_SUCCESS [⟨0, 1, "x"⟩, ⟨1, 2, "y"⟩] 2
      ∧ ∃ N, ∀ walkFuel,
        (N ≤ walkFuel →
          generatePointToPointRoute id lineDistance lineMap 0 2 [] 0 10 walkFuel
            ≠ Outcome.walkCutOff) ∧
        generatePointToPointRoute id lineDistance lineMap 0 2 [] 0 10 walkFuel
          ≠ Outcome.nullSegment ∧
        ∀ r d, generatePointToPointRoute id lineDistance lineMap 0 2 [] 0 10 walkFuel
            = Outcome.returned DeliveryResult.DELIVERY_SUCCESS r d →
          r ≠ [] ∧ Chains 0 2 r ∧ IsPath id lineMap 0 2 r :=
  ⟨wellFormed_of_check id lineMap (by decide), by decide, by decide,
    route_is_contiguous_chain id lineDistance lineMap 0 2 [] 0
      (wellFormed_of_check id lineMap (by decide)) (by decide) 10⟩

/-- C4 as stated fails: `99` is not a key of `lineMap`, and the call from `99` to `99`
returns `DELIVERY_SUCCESS`, not `BAD_COORD`. -/
theorem bad_coord_fails_when_start_is_end :
    ¬ IsKey id lineMap 99
      ∧ generatePointToPointRoute id lineDistance lineMap 99 99 [] 0 10 10
          = Outcome.returned DeliveryResult.DELIVERY_SUCCESS [] 0
      ∧ generatePointToPointRoute id lineDistance lineMap 99 99 [] 0 10 10
          ≠ Outcome.returned DeliveryResult.BAD_COORD [] 0 := by
  refine ⟨?_, by decide, by decide⟩
  intro h
  exact h (by decide)

/-- C4 amended: when `start ≠ end` and `start` or `end` is not a key of the graph, the
call returns `BAD_COORD`, leaves `route` and `totalDistanceTravelled` as they were, and
does so for every bound on the search loop, zero included: the search does not run. -/
theorem bad_coord_when_not_key {G : Type} [DecidableEq G] (hasher : G → Nat)
    (distanceEarthMiles : G → G → Nat) (sm : StreetMapImpl G) (start end_ : G)
    (route : List (StreetSegment G)) (total : Nat) (searchFuel walkFuel : Nat)
    (hne : start ≠ end_) (hkey : ¬ IsKey hasher sm start ∨ ¬ IsKey hasher sm end_) :
    generatePointToPointRoute hasher distanceEarthMiles sm start end_ route total
      searchFuel walkFuel = Outcome.returned DeliveryResult.BAD_COORD route total := by
  unfold generatePointToPointRoute
  rw [if_neg hne]
  have : ((sm.getSegmentsThatStartWith hasher start).isNone
      || (sm.getSegmentsThatStartWith hasher end_).isNone) = true := by
    rcases hkey with h | h
    · have : sm.getSegmentsThatStartWith hasher start = none := not_not.1 h
      simp [this]
    · have : sm.getSegmentsThatStartWith hasher end_ = none := not_not.1 h
      simp [this]
  rw [if_pos this]

/-- Witness for the amended C4: from the key `0` to `99`, which is no key of `lineMap`,
with no iteration allowed. -/
theorem bad_coord_when_not_key_witness :
    (0 : Nat) ≠ 99 ∧ (¬ IsKey id lineMap 0 ∨ ¬ IsKey id lineMap 99)
      ∧ generatePointToPointRoute id lineDistance lineMap 0 99 [⟨7, 8, "old"⟩] 5 0 0
          = Outcome.returned DeliveryResult.BAD_COORD [⟨7, 8, "old"⟩] 5 :=
  ⟨by decide, Or.inr (fun h => h (by decide)),
    bad_coord_when_not_key id lineDistance lineMap 0 99 [⟨7, 8, "old"⟩] 5 0 0 (by decide)
      (Or.inr (fun h => h (by decide)))⟩

/-- C5: for every graph, every coordinate `c`, every prior content of `route` and
`totalDistanceTravelled` and every bound on the loops, the call from `c` to `c` returns
`DELIVERY_SUCCESS` with the empty route and total distance 0. -/
theorem same_start_and_end {G : Type} [DecidableEq G] (hasher : G → Nat)
    (distanceEarthMiles : G → G → Nat) (sm : StreetMapImpl G) (c : G)
    (route : List (StreetSegment G)) (total : Nat) (searchFuel walkFuel : Nat) :
    generatePointToPointRoute hasher distanceEarthMiles sm c c route total
      searchFuel walkFuel = Outcome.returned DeliveryResult.DELIVERY_SUCCESS [] 0 := by
  unfold generatePointToPointRoute
  rw [if_pos rfl]

/-- C6: the code returns `NO_ROUTE` although a path exists. On `tieMap`, a well-formed
graph, `1 → 2 → 3` is a path of graph edges, and the call from `1` to `3` returns
`NO_ROUTE`: the neighbours `0` and `2` of the start tie at distance 1, the entry of `2`
is not inserted into the queue, and `2` is never expanded. -/
theorem no_route_despite_path :
    WellFormed id tieMap
      ∧ IsPath id tieMap 1 3 [⟨1, 2, "b"⟩, ⟨2, 3, "c"⟩]
      ∧ generatePointToPointRoute id lineDistance tieMap 1 3 [] 0 30 30
          = Outcome.returned DeliveryResult.NO_ROUTE [] 0 := by
  refine ⟨wellFormed_of_check id tieMap (by decide), ?_, by decide⟩
  exact ⟨⟨_, rfl, by decide⟩, rfl, ⟨_, rfl, by decide⟩, rfl, rfl⟩

/-- C7: on a well-formed graph with keys `start ≠ end` and no path of graph edges from
`start` to `end`, the call returns `NO_ROUTE` (leaving `route` and
`totalDistanceTravelled` as they were) as soon as the bound on the search loop is large
enough. -/
theorem no_route_when_unreachable {G : Type} [DecidableEq G] (hasher : G → Nat)
    (distanceEarthMiles : G → G → Nat) (sm : StreetMapImpl G) (start end_ : G)
    (route : List (StreetSegment G)) (total : Nat)
    (hwf : WellFormed hasher sm) (hne : start ≠ end_)
    (hstart : IsKey hasher sm start) (hend : IsKey hasher sm end_)
    (hno : ¬ ∃ p, IsPath hasher sm start end_ p) :
    ∃ N, ∀ searchFuel walkFuel, N ≤ searchFuel →
      generatePointToPointRoute hasher distanceEarthMiles sm start end_ route total
        searchFuel walkFuel = Outcome.returned DeliveryResult.NO_ROUTE route total := by
  refine ⟨potential sm (initialState hasher start) + 1, ?_⟩
  intro searchFuel walkFuel hfuel
  rw [generate_of_ne hasher distanceEarthMiles sm start end_ route total _ _ hne]
  have hk : ((sm.getSegmentsThatStartWith hasher start).isNone
      || (sm.getSegmentsThatStartWith hasher end_).isNone) = false := by
    cases h1 : sm.getSegmentsThatStartWith hasher start with
    | none => exact absurd h1 hstart
    | some a =>
      cases h2 : sm.getSegmentsThatStartWith hasher end_ with
      | none => exact absurd h2 hend
      | some b => rfl
  rw [hk]
  simp only [Bool.false_eq_true, if_false]
  apply searchLoop_no_route hasher distanceEarthMiles sm start end_ route total hwf hno
    walkFuel searchFuel _ (boundInv_initialState hasher start)
  · intro e he
    simp only [initialState, setInsert, List.mem_singleton] at he
    subst he
    exact ⟨hstart, [], rfl⟩
  · omega

/-- Witness for C7 on `splitMap`: `5` is not reachable from `0`, and the call returns
`NO_ROUTE`. -/
theorem no_route_when_unreachable_witness :
    WellFormed id splitMap ∧ (0 : Nat) ≠ 5 ∧ IsKey id splitMap 0 ∧ IsKey id splitMap 5
      ∧ (¬ ∃ p, IsPath id splitMap 0 5 p)
      ∧ generatePointToPointRoute id lineDistance splitMap 0 5 [] 0 10 10
          = Outcome.returned DeliveryResult.NO_ROUTE [] 0
      ∧ ∃ N, ∀ searchFuel walkFuel, N ≤ searchFuel →
          generatePointToPointRoute id lineDistance splitMap 0 5 [] 0 searchFuel walkFuel
            = Outcome.returned DeliveryResult.NO_ROUTE [] 0 :=
  ⟨wellFormed_of_check id splitMap (by decide), by decide,
    by unfold IsKey; decide, by unfold IsKey; decide,
    no_path_of_closed id splitMap splitSide (by decide) 0 5 (by decide) (by decide),
    by decide,
    no_route_when_unreachable id lineDistance splitMap 0 5 [] 0
      (wellFormed_of_check id splitMap (by decide)) (by decide)
      (by unfold IsKey; decide) (by unfold IsKey; decide)
      (no_path_of_closed id splitMap splitSide (by decide) 0 5 (by decide) (by decide))⟩

end RouterClaims

/-! ## Claims about `ExpandableHashMap` -/

section HashMapClaims

open ExpandableHashMap

theorem reachable_associateAll {K V : Type} [DecidableEq K] (hasher : K → Nat)
    (m : ExpandableHashMap K V) (hm : Reachable hasher m) (kvs : List (K × V)) :
    Reachable hasher (associateAll hasher m kvs) := by
  induction kvs generalizing m with
  | nil => exact hm
  | cons kv rest ih => exact ih _ (Reachable.associate m kv.1 kv.2 hm)

theorem keysOf_create {K V : Type} [DecidableEq K] (lf : LoadFactor) :
    keysOf (create lf : ExpandableHashMap K V) = ∅ := by
  simp [keysOf, create, entries_newBuckets]

/-- C8: in every state reachable from the constructor by `associate` and `reset` calls,
after `associate(k, v)` the call `find(k')` returns `v` when `k' = k` and otherwise what
it returned before (absent stays absent), whether or not the call resizes; hence after
any run of `associate` calls `find(k')` returns the value associated with `k'` last, and
what it returned before the run when the run does not mention `k'`. -/
theorem find_after_associate {K V : Type} [DecidableEq K] (hasher : K → Nat)
    (m : ExpandableHashMap K V) (hm : Reachable hasher m) (k k' : K) (v : V) :
    find hasher (associate hasher m k v) k' = (if k' = k then some v else find hasher m k')
      ∧ ∀ kvs : List (K × V), find hasher (associateAll hasher m kvs) k'
          = valueOr (lastAssociated k' kvs) (find hasher m k') :=
  ⟨find_associate hasher m (wf_of_reachable hasher m hm) k v k',
    fun kvs => find_associateAll hasher m (wf_of_reachable hasher m hm) kvs k'⟩

/-- Witness for C8: the fifth key of a default map doubles the 8 buckets; the new key is
found with its value and the old key `2` with the value it had. -/
theorem find_after_associate_witness :
    Reachable id fourKeys
      ∧ (associate id fourKeys 4 14).m_buckets = 16
      ∧ find id (associate id fourKeys 4 14) 4 = some 14
      ∧ find id (associate id fourKeys 4 14) 2 = some 12
      ∧ (find id (associate id fourKeys 4 14) 2
            = (if 2 = 4 then some 14 else find id fourKeys 2)
          ∧ ∀ kvs : List (Nat × Nat), find id (associateAll id fourKeys kvs) 2
              = valueOr (lastAssociated 2 kvs) (find id fourKeys 2)) :=
  ⟨reachable_associateAll id _ (Reachable.create defaultLoadFactor) _, by decide, by decide,
    by decide,
    find_after_associate id fourKeys
      (reachable_associateAll id _ (Reachable.create defaultLoadFactor) _) 4 2 14⟩

/-- C9: after any run of `associate` calls on a freshly constructed map, or on a map that
was just reset, `size()` is the number of distinct keys of the run; and on any map one
`associate` call raises `size()` by exactly 1 when `find` reports the key absent and
leaves it unchanged when the key is present. -/
theorem size_counts_distinct_keys {K V : Type} [DecidableEq K] (hasher : K → Nat)
    (lf : LoadFactor) (m : ExpandableHashMap K V) (kvs : List (K × V)) (key : K)
    (value : V) :
    (associateAll hasher (create lf) kvs).size = ((kvs.map Prod.fst).toFinset).card
      ∧ (associateAll hasher (reset m) kvs).size = ((kvs.map Prod.fst).toFinset).card
      ∧ (associate hasher m key value).size
          = (if (find hasher m key).isNone then m.size + 1 else m.size) := by
  have h : ∀ lf' : LoadFactor, (associateAll hasher (create lf' : ExpandableHashMap K V) kvs).size
      = ((kvs.map Prod.fst).toFinset).card := by
    intro lf'
    rw [size_eq_card_keysOf hasher _ (wf_associateAll hasher _ (wf_create hasher lf') kvs),
      keysOf_associateAll hasher _ (wf_create hasher lf'), keysOf_create, Finset.empty_union]
  exact ⟨h lf, h m.m_loadFactor, size_associate_step hasher m key value⟩

/-- C10: when `associate` of a key that `find` reports absent doubles the bucket array
of a reachable map, the new array has twice the buckets, the pairs rehashed into it are
a permutation of the pairs of the old array, the pairs after the call are a permutation
of the old pairs plus the new pair, and every key found before the call is found after
it with the same value. -/
theorem resize_preserves_contents {K V : Type} [DecidableEq K] (hasher : K → Nat)
    (m : ExpandableHashMap K V) (hm : Reachable hasher m) (key : K) (value : V)
    (habs : find hasher m key = none) (hover : overLoad m = true) :
    (associate hasher m key value).m_buckets = m.m_buckets * 2
      ∧ (associate hasher m key value).m_hashmap.length = m.m_hashmap.length * 2
      ∧ (entries (grow hasher m).m_hashmap).Perm (entries m.m_hashmap)
      ∧ (entries (associate hasher m key value).m_hashmap).Perm
          ((key, value) :: entries m.m_hashmap)
      ∧ ∀ k w, find hasher m k = some w →
          find hasher (associate hasher m key value) k = some w := by
  have hwf := wf_of_reachable hasher m hm
  have hwfg := wf_grow hasher m hwf
  have hassoc : associate hasher m key value = insertNew hasher (grow hasher m) key value := by
    unfold associate
    rw [habs]
    simp only [hover, if_true]
  have hlt : hasher key % (grow hasher m).m_buckets < (grow hasher m).m_hashmap.length := by
    rw [hwfg.length_eq]; exact Nat.mod_lt _ hwfg.buckets_pos
  refine ⟨?_, ?_, entries_grow_perm hasher m hwf, ?_, ?_⟩
  · rw [hassoc]; rfl
  · have h1 := (wf_associate hasher m hwf key value).length_eq
    rw [h1, hassoc, hwf.length_eq]; rfl
  · rw [hassoc]
    simp only [insertNew]
    exact (entries_pushBack_perm _ _ _ hlt).trans
      (List.Perm.cons _ (entries_grow_perm hasher m hwf))
  · intro k w hk
    rw [find_associate hasher m hwf]
    by_cases hkk : k = key
    · rw [hkk, habs] at hk
      exact Option.noConfusion hk
    · rw [if_neg hkk]; exact hk

/-- Witness for C10: the fifth key of a default map. -/
theorem resize_preserves_contents_witness :
    Reachable id fourKeys ∧ find id fourKeys 4 = none ∧ overLoad fourKeys = true
      ∧ ((associate id fourKeys 4 14).m_buckets = fourKeys.m_buckets * 2
        ∧ (associate id fourKeys 4 14).m_hashmap.length = fourKeys.m_hashmap.length * 2
        ∧ (entries (grow id fourKeys).m_hashmap).Perm (entries fourKeys.m_hashmap)
        ∧ (entries (associate id fourKeys 4 14).m_hashmap).Perm
            ((4, 14) :: entries fourKeys.m_hashmap)
        ∧ ∀ k w, find id fourKeys k = some w →
            find id (associate id fourKeys 4 14) k = some w) :=
  ⟨reachable_associateAll id _ (Reachable.create defaultLoadFactor) _, by decide, by decide,
    resize_preserves_contents id fourKeys
      (reachable_associateAll id _ (Reachable.create defaultLoadFactor) _) 4 14
      (by decide) (by decide)⟩

end HashMapClaims

/-! ## The route loops of `navigate` -/

section NavigateLemmas

variable {G : Type} [DecidableEq G]

theorem navigate_success (router : G → G → Outcome G) (distanceEarthMiles : G → G → Nat)
    (angleOfLine : StreetSegment G → ℚ)
    (angleBetween2Lines : StreetSegment G → StreetSegment G → ℚ) (start end_ : G)
    (commands : List DeliveryCommand) (total : Nat) (route : List (StreetSegment G))
    (d : Nat) (hne : start ≠ end_)
    (hr : router start end_ = Outcome.returned DeliveryResult.DELIVERY_SUCCESS route d) :
    navigate router distanceEarthMiles angleOfLine angleBetween2Lines start end_ commands
        total
      = PlanOutcome.returned DeliveryResult.DELIVERY_SUCCESS
          (commands ++ routeCommands distanceEarthMiles angleOfLine angleBetween2Lines route)
          (total + d) := by
  unfold navigate
  rw [if_neg hne, hr]
  simp

theorem navigate_failure (router : G → G → Outcome G) (distanceEarthMiles : G → G → Nat)
    (angleOfLine : StreetSegment G → ℚ)
    (angleBetween2Lines : StreetSegment G → StreetSegment G → ℚ) (start end_ : G)
    (commands : List DeliveryCommand) (total : Nat) (r : DeliveryResult)
    (route : List (StreetSegment G)) (d : Nat) (hne : start ≠ end_)
    (hr : router start end_ = Outcome.returned r route d)
    (hbad : r = DeliveryResult.NO_ROUTE ∨ r = DeliveryResult.BAD_COORD) :
    navigate router distanceEarthMiles angleOfLine angleBetween2Lines start end_ commands
        total
      = PlanOutcome.returned r commands total := by
  unfold navigate
  rw [if_neg hne, hr]
  simp [hbad]

theorem navigate_same (router : G → G → Outcome G) (distanceEarthMiles : G → G → Nat)
    (angleOfLine : StreetSegment G → ℚ)
    (angleBetween2Lines : StreetSegment G → StreetSegment G → ℚ) (c : G)
    (commands : List DeliveryCommand) (total : Nat) :
    navigate router distanceEarthMiles angleOfLine angleBetween2Lines c c commands total
      = PlanOutcome.returned DeliveryResult.DELIVERY_SUCCESS commands total := by
  unfold navigate
  rw [if_pos rfl]

theorem turnCommands_not_deliver
    (angleBetween2Lines : StreetSegment G → StreetSegment G → ℚ) (a b : StreetSegment G) :
    ∀ c ∈ turnCommands angleBetween2Lines a b, c.isDeliver = false ∧ c.isProceed = false := by
  intro c hc
  unfold turnCommands at hc
  simp only [] at hc
  split at hc
  · simp only [List.mem_singleton] at hc
    subst hc
    exact ⟨rfl, rfl⟩
  · split at hc
    · simp only [List.mem_singleton] at hc
      subst hc
      exact ⟨rfl, rfl⟩
    · simp at hc

theorem streetLoop_not_deliver (distanceEarthMiles : G → G → Nat)
    (angleOfLine : StreetSegment G → ℚ)
    (angleBetween2Lines : StreetSegment G → StreetSegment G → ℚ)
    (rest : List (StreetSegment G)) (direction temp : String) (distance : Nat)
    (tempIt : StreetSegment G) :
    ∀ c ∈ streetLoop distanceEarthMiles angleOfLine angleBetween2Lines direction temp
      distance tempIt rest, c.isDeliver = false := by
  induction rest generalizing direction temp distance tempIt with
  | nil =>
    intro c hc
    simp only [streetLoop, List.mem_singleton] at hc
    subst hc
    rfl
  | cons it rest ih =>
    intro c hc
    unfold streetLoop at hc
    by_cases hn : it.name = temp
    · rw [if_pos hn] at hc
      exact ih _ _ _ _ c hc
    · rw [if_neg hn] at hc
      rcases List.mem_cons.1 hc with rfl | hc
      · rfl
      · rcases List.mem_append.1 hc with hc | hc
        · exact (turnCommands_not_deliver angleBetween2Lines _ _ c hc).1
        · exact ih _ _ _ _ c hc

theorem routeCommands_not_deliver (distanceEarthMiles : G → G → Nat)
    (angleOfLine : StreetSegment G → ℚ)
    (angleBetween2Lines : StreetSegment G → StreetSegment G → ℚ)
    (route : List (StreetSegment G)) :
    ∀ c ∈ routeCommands distanceEarthMiles angleOfLine angleBetween2Lines route,
      c.isDeliver = false := by
  cases route with
  | nil => intro c hc; simp [routeCommands] at hc
  | cons it rest => exact streetLoop_not_deliver _ _ _ rest _ _ _ _

/-- The first command the loops push is the proceed command under construction. -/
theorem streetLoop_head (distanceEarthMiles : G → G → Nat)
    (angleOfLine : StreetSegment G → ℚ)
    (angleBetween2Lines : StreetSegment G → StreetSegment G → ℚ)
    (rest : List (StreetSegment G)) (direction temp : String) (distance : Nat)
    (tempIt : StreetSegment G) :
    ∃ d tail, streetLoop distanceEarthMiles angleOfLine angleBetween2Lines direction temp
      distance tempIt rest = DeliveryCommand.proceed direction temp d :: tail := by
  induction rest generalizing distance tempIt with
  | nil => exact ⟨distance, [], rfl⟩
  | cons it rest ih =>
    unfold streetLoop
    by_cases hn : it.name = temp
    · rw [if_pos hn]
      exact ih _ _
    · rw [if_neg hn]
      exact ⟨distance, _, rfl⟩

/-- The last command pushed for a route that ends with segment `a` is a proceed command
for the street of `a`. -/
theorem streetLoop_last (distanceEarthMiles : G → G → Nat)
    (angleOfLine : StreetSegment G → ℚ)
    (angleBetween2Lines : StreetSegment G → StreetSegment G → ℚ)
    (pre : List (StreetSegment G)) (a : StreetSegment G) (direction temp : String)
    (distance : Nat) (tempIt : StreetSegment G) :
    ∃ init dir d, streetLoop distanceEarthMiles angleOfLine angleBetween2Lines direction temp
      distance tempIt (pre ++ [a]) = init ++ [DeliveryCommand.proceed dir a.name d] := by
  induction pre generalizing direction temp distance tempIt with
  | nil =>
    by_cases hn : a.name = temp
    · refine ⟨[], direction, distance + distanceEarthMiles a.start a.end_, ?_⟩
      simp [streetLoop, hn]
    · refine ⟨DeliveryCommand.proceed direction temp distance ::
        turnCommands angleBetween2Lines tempIt a,
        stringAngleForProceed (angleOfLine a), distanceEarthMiles a.start a.end_, ?_⟩
      simp [streetLoop, hn]
  | cons p pre ih =>
    by_cases hn : p.name = temp
    · rcases ih direction temp (distance + distanceEarthMiles p.start p.end_) p with
        ⟨init, dir, d, h⟩
      exact ⟨init, dir, d, by rw [List.cons_append, streetLoop, if_pos hn, h]⟩
    · rcases ih (stringAngleForProceed (angleOfLine p)) p.name
        (distanceEarthMiles p.start p.end_) p with ⟨init, dir, d, h⟩
      refine ⟨DeliveryCommand.proceed direction temp distance ::
        (turnCommands angleBetween2Lines tempIt p ++ init), dir, d, ?_⟩
      rw [List.cons_append, streetLoop, if_neg hn, h]
      simp

/-- Where the street name changes from `a` to `b`, the commands are those of the route
up to `a`, the turn block for `a` and `b`, and those of the route from `b` on. -/
theorem streetLoop_boundary (distanceEarthMiles : G → G → Nat)
    (angleOfLine : StreetSegment G → ℚ)
    (angleBetween2Lines : StreetSegment G → StreetSegment G → ℚ)
    (pre : List (StreetSegment G)) (a b : StreetSegment G) (post : List (StreetSegment G))
    (hab : a.name ≠ b.name) (direction temp : String) (distance : Nat)
    (tempIt : StreetSegment G) :
    streetLoop distanceEarthMiles angleOfLine angleBetween2Lines direction temp distance
        tempIt (pre ++ a :: b :: post)
      = streetLoop distanceEarthMiles angleOfLine angleBetween2Lines direction temp distance
          tempIt (pre ++ [a])
        ++ (turnCommands angleBetween2Lines a b
          ++ routeCommands distanceEarthMiles angleOfLine angleBetween2Lines (b :: post)) := by
  induction pre generalizing direction temp distance tempIt with
  | nil =>
    have hba : ¬ b.name = a.name := fun e => hab e.symm
    by_cases hn : a.name = temp
    · have hbt : ¬ b.name = temp := fun e => hab (hn.trans e.symm)
      simp [streetLoop, routeCommands, hn, hbt]
    · simp [streetLoop, routeCommands, hn, hba]
  | cons p pre ih =>
    by_cases hn : p.name = temp
    · rw [List.cons_append, List.cons_append, streetLoop, if_pos hn, streetLoop, if_pos hn]
      exact ih _ _ _ _
    · rw [List.cons_append, List.cons_append, streetLoop, if_neg hn, streetLoop, if_neg hn,
        ih]
      simp

theorem routeCommands_boundary (distanceEarthMiles : G → G → Nat)
    (angleOfLine : StreetSegment G → ℚ)
    (angleBetween2Lines : StreetSegment G → StreetSegment G → ℚ)
    (pre : List (StreetSegment G)) (a b : StreetSegment G) (post : List (StreetSegment G))
    (hab : a.name ≠ b.name) :
    routeCommands distanceEarthMiles angleOfLine angleBetween2Lines (pre ++ a :: b :: post)
      = routeCommands distanceEarthMiles angleOfLine angleBetween2Lines (pre ++ [a])
        ++ (turnCommands angleBetween2Lines a b
          ++ routeCommands distanceEarthMiles angleOfLine angleBetween2Lines (b :: post)) := by
  cases pre with
  | nil =>
    have hba : ¬ b.name = a.name := fun e => hab e.symm
    simp [routeCommands, streetLoop, hba]
  | cons p pre =>
    simp only [List.cons_append, routeCommands]
    exact streetLoop_boundary _ _ _ pre a b post hab _ _ _ _

theorem routeCommands_last (distanceEarthMiles : G → G → Nat)
    (angleOfLine : StreetSegment G → ℚ)
    (angleBetween2Lines : StreetSegment G → StreetSegment G → ℚ)
    (pre : List (StreetSegment G)) (a : StreetSegment G) :
    ∃ init dir d, routeCommands distanceEarthMiles angleOfLine angleBetween2Lines
      (pre ++ [a]) = init ++ [DeliveryCommand.proceed dir a.name d] := by
  cases pre with
  | nil => exact ⟨[], stringAngleForProceed (angleOfLine a),
      distanceEarthMiles a.start a.end_, by simp [routeCommands, streetLoop]⟩
  | cons p pre =>
    simp only [List.cons_append, routeCommands]
    exact streetLoop_last _ _ _ pre a _ _ _ _

theorem routeCommands_head (distanceEarthMiles : G → G → Nat)
    (angleOfLine : StreetSegment G → ℚ)
    (angleBetween2Lines : StreetSegment G → StreetSegment G → ℚ)
    (b : StreetSegment G) (post : List (StreetSegment G)) :
    ∃ d tail, routeCommands distanceEarthMiles angleOfLine angleBetween2Lines (b :: post)
      = DeliveryCommand.proceed (stringAngleForProceed (angleOfLine b)) b.name d :: tail := by
  simp only [routeCommands]
  exact streetLoop_head _ _ _ post _ _ _ _

/-- Whatever `navigate` returns, it extends the command vector and the total it was
given, and does the same from an empty vector and total 0. -/
theorem navigate_returned (router : G → G → Outcome G) (distanceEarthMiles : G → G → Nat)
    (angleOfLine : StreetSegment G → ℚ)
    (angleBetween2Lines : StreetSegment G → StreetSegment G → ℚ) (start end_ : G)
    (commands : List DeliveryCommand) (total : Nat) (r : DeliveryResult)
    (commands1 : List DeliveryCommand) (total1 : Nat)
    (h : navigate router distanceEarthMiles angleOfLine angleBetween2Lines start end_
      commands total = PlanOutcome.returned r commands1 total1) :
    ∃ leg d, commands1 = commands ++ leg ∧ total1 = total + d
      ∧ navigate router distanceEarthMiles angleOfLine angleBetween2Lines start end_ [] 0
          = PlanOutcome.returned r leg d
      ∧ (r ≠ DeliveryResult.DELIVERY_SUCCESS → leg = [] ∧ d = 0)
      ∧ ∀ c ∈ leg, c.isDeliver = false := by
  by_cases hse : start = end_
  · subst hse
    rw [navigate_same] at h
    simp only [PlanOutcome.returned.injEq] at h
    refine ⟨[], 0, by simp [h.2.1], by simp [h.2.2], ?_, fun _ => ⟨rfl, rfl⟩, by simp⟩
    rw [navigate_same, h.1]
  · cases hr : router start end_ with
    | returned r0 route d =>
      by_cases hbad : r0 = DeliveryResult.NO_ROUTE ∨ r0 = DeliveryResult.BAD_COORD
      · rw [navigate_failure _ _ _ _ _ _ _ _ r0 route d hse hr hbad] at h
        simp only [PlanOutcome.returned.injEq] at h
        refine ⟨[], 0, by simp [h.2.1], by simp [h.2.2], ?_, fun _ => ⟨rfl, rfl⟩, by simp⟩
        rw [navigate_failure _ _ _ _ _ _ _ _ r0 route d hse hr hbad, h.1]
      · have hs : r0 = DeliveryResult.DELIVERY_SUCCESS := by
          cases r0 <;> simp at hbad ⊢
        subst hs
        rw [navigate_success _ _ _ _ _ _ _ _ route d hse hr] at h
        simp only [PlanOutcome.returned.injEq] at h
        refine ⟨routeCommands distanceEarthMiles angleOfLine angleBetween2Lines route, d,
          h.2.1.symm, h.2.2.symm, ?_, fun hne => absurd h.1.symm hne,
          routeCommands_not_deliver _ _ _ route⟩
        rw [navigate_success _ _ _ _ _ _ _ _ route d hse hr, ← h.1]
        simp
    | nullDistance => simp [navigate, hse, hr] at h
    | nullSegment => simp [navigate, hse, hr] at h
    | searchCutOff => simp [navigate, hse, hr] at h
    | walkCutOff => simp [navigate, hse, hr] at h

end NavigateLemmas

/-! ## Compass buckets and runs of one street -/

section RunLemmas

variable {G : Type} [DecidableEq G]

theorem truncatedBucket_of_nonneg (angle : ℚ) (h0 : 0 ≤ angle) :
    truncatedBucket angle = ⌊angle / (45 / 2)⌋ := by
  unfold truncatedBucket
  have : (0 : ℚ) ≤ angle / (45 / 2) := by positivity
  rw [if_pos this]

theorem bucket_range (angle : ℚ) (h0 : 0 ≤ angle) (h360 : angle < 360) :
    0 ≤ ⌊angle / (45 / 2)⌋ ∧ ⌊angle / (45 / 2)⌋ ≤ 15 := by
  constructor
  · exact Int.floor_nonneg.2 (by positivity)
  · have h : angle / (45 / 2) < ((16 : Int) : ℚ) := by
      rw [div_lt_iff₀ (by norm_num)]
      norm_num
      linarith
    have := Int.floor_lt.2 h
    omega

theorem compassBucketName_ne_empty (p : Int) (h0 : 0 ≤ p) (h15 : p ≤ 15) :
    compassBucketName p ≠ "" := by
  interval_cases p <;> decide

theorem routeLength_cons (distanceEarthMiles : G → G → Nat) (s : StreetSegment G)
    (r : List (StreetSegment G)) :
    routeLength distanceEarthMiles (s :: r)
      = distanceEarthMiles s.start s.end_ + routeLength distanceEarthMiles r := by
  simp [routeLength]

/-- Segments of the current street only add their lengths to the proceed command. -/
theorem streetLoop_sameStreet (distanceEarthMiles : G → G → Nat)
    (angleOfLine : StreetSegment G → ℚ)
    (angleBetween2Lines : StreetSegment G → StreetSegment G → ℚ)
    (r rest : List (StreetSegment G)) (direction temp : String) (distance : Nat)
    (tempIt : StreetSegment G) (hr : ∀ s ∈ r, s.name = temp) :
    streetLoop distanceEarthMiles angleOfLine angleBetween2Lines direction temp distance
        tempIt (r ++ rest)
      = streetLoop distanceEarthMiles angleOfLine angleBetween2Lines direction temp
          (distance + routeLength distanceEarthMiles r) (r.getLast?.getD tempIt) rest := by
  induction r generalizing distance tempIt with
  | nil => simp [routeLength]
  | cons s r ih =>
    have hs : s.name = temp := hr s (List.mem_cons_self _ _)
    rw [List.cons_append, streetLoop, if_pos hs,
      ih _ _ (fun t ht => hr t (List.mem_cons_of_mem _ ht)), routeLength_cons, Nat.add_assoc]
    congr 1
    cases r with
    | nil => rfl
    | cons t r =>
      rw [List.getLast?_cons_cons]
      cases hl : (t :: r).getLast? with
      | none => simp at hl
      | some u => rfl

theorem filter_isProceed_turnCommands
    (angleBetween2Lines : StreetSegment G → StreetSegment G → ℚ) (a b : StreetSegment G) :
    (turnCommands angleBetween2Lines a b).filter DeliveryCommand.isProceed = [] := by
  rw [List.filter_eq_nil_iff]
  intro c hc
  rw [(turnCommands_not_deliver angleBetween2Lines a b c hc).2]
  exact Bool.false_ne_true

theorem proceeds_streetLoop (distanceEarthMiles : G → G → Nat)
    (angleOfLine : StreetSegment G → ℚ)
    (angleBetween2Lines : StreetSegment G → StreetSegment G → ℚ)
    (runs : List (List (StreetSegment G)))
    (hruns : ∀ run ∈ runs, run ≠ [] ∧ OneStreet run) (hch : runs.Chain' StreetChanges)
    (direction temp : String) (distance : Nat) (tempIt : StreetSegment G)
    (hfirst : ∀ run, runs.head? = some run → ∀ s ∈ run, s.name ≠ temp) :
    (streetLoop distanceEarthMiles angleOfLine angleBetween2Lines direction temp distance
        tempIt runs.flatten).filter DeliveryCommand.isProceed
      = DeliveryCommand.proceed direction temp distance
          :: runs.map (proceedOfRun distanceEarthMiles angleOfLine) := by
  induction runs generalizing direction temp distance tempIt with
  | nil => simp [streetLoop, DeliveryCommand.isProceed]
  | cons run rs ih =>
    have hrun := hruns run (List.mem_cons_self _ _)
    cases run with
    | nil => exact absurd rfl hrun.1
    | cons it r =>
      have hit : ¬ it.name = temp := hfirst _ rfl it (List.mem_cons_self _ _)
      have hr : ∀ s ∈ r, s.name = it.name := fun s hs =>
        hrun.2 s (List.mem_cons_of_mem _ hs) it (List.mem_cons_self _ _)
      have hnext : ∀ run2, rs.head? = some run2 → ∀ s ∈ run2, s.name ≠ it.name := by
        intro run2 h2 s hs
        cases rs with
        | nil => simp at h2
        | cons r2 rs2 =>
          simp only [List.head?_cons, Option.some.injEq] at h2
          subst h2
          have := (List.chain'_cons.1 hch).1 it (List.mem_cons_self _ _) s hs
          exact fun e => this e.symm
      have hih := ih (fun q hq => hruns q (List.mem_cons_of_mem _ hq)) hch.tail
        (stringAngleForProceed (angleOfLine it)) it.name
        (distanceEarthMiles it.start it.end_ + routeLength distanceEarthMiles r)
        (r.getLast?.getD it) hnext
      rw [List.flatten_cons, List.cons_append, streetLoop, if_neg hit,
        streetLoop_sameStreet _ _ _ r _ _ _ _ _ hr, List.filter_cons_of_pos (by rfl),
        List.filter_append, filter_isProceed_turnCommands, List.nil_append, hih]
      simp [proceedOfRun, routeLength_cons]

theorem proceeds_routeCommands (distanceEarthMiles : G → G → Nat)
    (angleOfLine : StreetSegment G → ℚ)
    (angleBetween2Lines : StreetSegment G → StreetSegment G → ℚ)
    (route : List (StreetSegment G)) (runs : List (List (StreetSegment G)))
    (h : MaximalRuns route runs) :
    (routeCommands distanceEarthMiles angleOfLine angleBetween2Lines route).filter
        DeliveryCommand.isProceed
      = runs.map (proceedOfRun distanceEarthMiles angleOfLine) := by
  rcases h with ⟨hflat, hruns, hch⟩
  subst hflat
  cases runs with
  | nil => simp [routeCommands]
  | cons run rs =>
    have hrun := hruns run (List.mem_cons_self _ _)
    cases run with
    | nil => exact absurd rfl hrun.1
    | cons it r =>
      have hr : ∀ s ∈ r, s.name = it.name := fun s hs =>
        hrun.2 s (List.mem_cons_of_mem _ hs) it (List.mem_cons_self _ _)
      have hnext : ∀ run2, rs.head? = some run2 → ∀ s ∈ run2, s.name ≠ it.name := by
        intro run2 h2 s hs
        cases rs with
        | nil => simp at h2
        | cons r2 rs2 =>
          simp only [List.head?_cons, Option.some.injEq] at h2
          subst h2
          have := (List.chain'_cons.1 hch).1 it (List.mem_cons_self _ _) s hs
          exact fun e => this e.symm
      have hih := proceeds_streetLoop distanceEarthMiles angleOfLine angleBetween2Lines rs
        (fun q hq => hruns q (List.mem_cons_of_mem _ hq)) hch.tail
        (stringAngleForProceed (angleOfLine it)) it.name
        (distanceEarthMiles it.start it.end_ + routeLength distanceEarthMiles r)
        (r.getLast?.getD it) hnext
      rw [List.flatten_cons, List.cons_append, routeCommands,
        streetLoop_sameStreet _ _ _ r _ _ _ _ _ hr, hih]
      simp [proceedOfRun, routeLength_cons]

theorem routeCommands_oneStreet (distanceEarthMiles : G → G → Nat)
    (angleOfLine : StreetSegment G → ℚ)
    (angleBetween2Lines : StreetSegment G → StreetSegment G → ℚ)
    (route : List (StreetSegment G)) (hne : route ≠ []) (h : OneStreet route) :
    routeCommands distanceEarthMiles angleOfLine angleBetween2Lines route
      = [proceedOfRun distanceEarthMiles angleOfLine route] := by
  cases route with
  | nil => exact absurd rfl hne
  | cons it r =>
    have hr : ∀ s ∈ r, s.name = it.name := fun s hs =>
      h s (List.mem_cons_of_mem _ hs) it (List.mem_cons_self _ _)
    have := streetLoop_sameStreet distanceEarthMiles angleOfLine angleBetween2Lines r []
      (stringAngleForProceed (angleOfLine it)) it.name (distanceEarthMiles it.start it.end_)
      it hr
    rw [List.append_nil] at this
    rw [routeCommands, this]
    simp [streetLoop, proceedOfRun, routeLength_cons]

end RunLemmas

/-! ## The loop over the deliveries -/

section DeliveryLoopLemmas

variable {G : Type} [DecidableEq G]

theorem currentPosition_cons (depot : G) (x : DeliveryRequest G)
    (rest : List (DeliveryRequest G)) :
    currentPosition depot (x :: rest) = currentPosition x.location rest := by
  cases rest with
  | nil => simp [currentPosition]
  | cons y ys =>
    simp only [currentPosition, List.getLast?_cons_cons]
    cases hl : (y :: ys).getLast? with
    | none => simp at hl
    | some u => rfl

theorem deliveryLoop_same (router : G → G → Outcome G) (distanceEarthMiles : G → G → Nat)
    (angleOfLine : StreetSegment G → ℚ)
    (angleBetween2Lines : StreetSegment G → StreetSegment G → ℚ) (cur : G)
    (x : DeliveryRequest G) (rest : List (DeliveryRequest G))
    (commands : List DeliveryCommand) (total : Nat) (hx : x.location = cur) :
    deliveryLoop router distanceEarthMiles angleOfLine angleBetween2Lines cur (x :: rest)
        commands total
      = deliveryLoop router distanceEarthMiles angleOfLine angleBetween2Lines x.location
          rest (commands ++ [DeliveryCommand.deliver x.item]) total := by
  rw [deliveryLoop, if_pos hx.symm]

theorem deliveryLoop_leg (router : G → G → Outcome G) (distanceEarthMiles : G → G → Nat)
    (angleOfLine : StreetSegment G → ℚ)
    (angleBetween2Lines : StreetSegment G → StreetSegment G → ℚ) (cur : G)
    (x : DeliveryRequest G) (rest : List (DeliveryRequest G))
    (commands : List DeliveryCommand) (total : Nat) (hx : cur ≠ x.location)
    (commands1 : List DeliveryCommand) (total1 : Nat)
    (hnav : navigate router distanceEarthMiles angleOfLine angleBetween2Lines cur x.location
      commands total = PlanOutcome.returned DeliveryResult.DELIVERY_SUCCESS commands1 total1) :
    deliveryLoop router distanceEarthMiles angleOfLine angleBetween2Lines cur (x :: rest)
        commands total
      = deliveryLoop router distanceEarthMiles angleOfLine angleBetween2Lines x.location
          rest (commands1 ++ [DeliveryCommand.deliver x.item]) total1 := by
  rw [deliveryLoop, if_neg hx, hnav]
  simp

theorem deliveryLoop_fail (router : G → G → Outcome G) (distanceEarthMiles : G → G → Nat)
    (angleOfLine : StreetSegment G → ℚ)
    (angleBetween2Lines : StreetSegment G → StreetSegment G → ℚ) (cur : G)
    (x : DeliveryRequest G) (rest : List (DeliveryRequest G))
    (commands : List DeliveryCommand) (total : Nat) (hx : cur ≠ x.location)
    (r : DeliveryResult) (commands1 : List DeliveryCommand) (total1 : Nat)
    (hnav : navigate router distanceEarthMiles angleOfLine angleBetween2Lines cur x.location
      commands total = PlanOutcome.returned r commands1 total1)
    (hbad : r = DeliveryResult.NO_ROUTE ∨ r = DeliveryResult.BAD_COORD) :
    deliveryLoop router distanceEarthMiles angleOfLine angleBetween2Lines cur (x :: rest)
        commands total
      = LoopOutcome.left (PlanOutcome.returned r commands1 total1) := by
  rw [deliveryLoop, if_neg hx, hnav]
  simp [hbad]

/-- One step of the loop, by cases: the same location, a successful leg, or leaving. -/
theorem deliveryLoop_cases (router : G → G → Outcome G) (distanceEarthMiles : G → G → Nat)
    (angleOfLine : StreetSegment G → ℚ)
    (angleBetween2Lines : StreetSegment G → StreetSegment G → ℚ) (cur : G)
    (x : DeliveryRequest G) (rest : List (DeliveryRequest G))
    (commands : List DeliveryCommand) (total : Nat) :
    (cur = x.location ∧
      deliveryLoop router distanceEarthMiles angleOfLine angleBetween2Lines cur (x :: rest)
          commands total
        = deliveryLoop router distanceEarthMiles angleOfLine angleBetween2Lines x.location
            rest (commands ++ [DeliveryCommand.deliver x.item]) total)
    ∨ (cur ≠ x.location ∧ ∃ commands1 total1,
      navigate router distanceEarthMiles angleOfLine angleBetween2Lines cur x.location
          commands total
        = PlanOutcome.returned DeliveryResult.DELIVERY_SUCCESS commands1 total1 ∧
      deliveryLoop router distanceEarthMiles angleOfLine angleBetween2Lines cur (x :: rest)
          commands total
        = deliveryLoop router distanceEarthMiles angleOfLine angleBetween2Lines x.location
            rest (commands1 ++ [DeliveryCommand.deliver x.item]) total1)
    ∨ (∃ out,
      deliveryLoop router distanceEarthMiles angleOfLine angleBetween2Lines cur (x :: rest)
          commands total = LoopOutcome.left out ∧
      ∀ c t, out ≠ PlanOutcome.returned DeliveryResult.DELIVERY_SUCCESS c t) := by
  by_cases hx : cur = x.location
  · exact Or.inl ⟨hx, deliveryLoop_same _ _ _ _ _ _ _ _ _ hx.symm⟩
  · cases hnav : navigate router distanceEarthMiles angleOfLine angleBetween2Lines cur
        x.location commands total with
    | returned r commands1 total1 =>
      by_cases hbad : r = DeliveryResult.NO_ROUTE ∨ r = DeliveryResult.BAD_COORD
      · refine Or.inr (Or.inr ⟨_, deliveryLoop_fail _ _ _ _ _ _ _ _ _ hx r _ _ hnav hbad, ?_⟩)
        intro c t e
        simp only [PlanOutcome.returned.injEq] at e
        rcases hbad with h | h <;> rw [h] at e <;> simp at e
      · have hs : r = DeliveryResult.DELIVERY_SUCCESS := by
          cases r <;> simp at hbad ⊢
        subst hs
        exact Or.inr (Or.inl ⟨hx, commands1, total1, rfl,
          deliveryLoop_leg _ _ _ _ _ _ _ _ _ hx _ _ hnav⟩)
    | routerStuck o =>
      refine Or.inr (Or.inr ⟨PlanOutcome.routerStuck o, ?_, fun c t e => by simp at e⟩)
      rw [deliveryLoop, if_neg hx, hnav]

theorem deliveryLoop_left_not_success (router : G → G → Outcome G)
    (distanceEarthMiles : G → G → Nat) (angleOfLine : StreetSegment G → ℚ)
    (angleBetween2Lines : StreetSegment G → StreetSegment G → ℚ)
    (reqs : List (DeliveryRequest G)) (cur : G) (commands : List DeliveryCommand)
    (total : Nat) (out : PlanOutcome G)
    (h : deliveryLoop router distanceEarthMiles angleOfLine angleBetween2Lines cur reqs
      commands total = LoopOutcome.left out) :
    ∀ c t, out ≠ PlanOutcome.returned DeliveryResult.DELIVERY_SUCCESS c t := by
  induction reqs generalizing cur commands total with
  | nil => simp [deliveryLoop] at h
  | cons x rest ih =>
    rcases deliveryLoop_cases router distanceEarthMiles angleOfLine angleBetween2Lines cur x
      rest commands total with ⟨_, h1⟩ | ⟨_, c1, t1, _, h1⟩ | ⟨o, h1, h2⟩
    · rw [h1] at h; exact ih _ _ _ h
    · rw [h1] at h; exact ih _ _ _ h
    · rw [h1] at h
      simp only [LoopOutcome.left.injEq] at h
      rw [← h]; exact h2

theorem deliveryLoop_append (router : G → G → Outcome G) (distanceEarthMiles : G → G → Nat)
    (angleOfLine : StreetSegment G → ℚ)
    (angleBetween2Lines : StreetSegment G → StreetSegment G → ℚ)
    (pre post : List (DeliveryRequest G)) (cur : G) (commands : List DeliveryCommand)
    (total : Nat) (cur1 : G) (commands1 : List DeliveryCommand) (total1 : Nat)
    (h : deliveryLoop router distanceEarthMiles angleOfLine angleBetween2Lines cur pre
      commands total = LoopOutcome.finished cur1 commands1 total1) :
    deliveryLoop router distanceEarthMiles angleOfLine angleBetween2Lines cur (pre ++ post)
        commands total
      = deliveryLoop router distanceEarthMiles angleOfLine angleBetween2Lines cur1 post
          commands1 total1 := by
  induction pre generalizing cur commands total with
  | nil =>
    simp only [deliveryLoop, LoopOutcome.finished.injEq] at h
    rw [List.nil_append, h.1, h.2.1, h.2.2]
  | cons x rest ih =>
    rcases deliveryLoop_cases router distanceEarthMiles angleOfLine angleBetween2Lines cur x
      rest commands total with ⟨hx, h1⟩ | ⟨hx, c1, t1, hnav, h1⟩ | ⟨o, h1, _⟩
    · rw [h1] at h
      rw [List.cons_append, deliveryLoop_same _ _ _ _ _ _ _ _ _ hx.symm]
      exact ih _ _ _ h
    · rw [h1] at h
      rw [List.cons_append, deliveryLoop_leg _ _ _ _ _ _ _ _ _ hx _ _ hnav]
      exact ih _ _ _ h
    · rw [h1] at h
      simp at h

theorem deliveryLoop_finished_position (router : G → G → Outcome G)
    (distanceEarthMiles : G → G → Nat) (angleOfLine : StreetSegment G → ℚ)
    (angleBetween2Lines : StreetSegment G → StreetSegment G → ℚ)
    (reqs : List (DeliveryRequest G)) (cur : G) (commands : List DeliveryCommand)
    (total : Nat) (cur1 : G) (commands1 : List DeliveryCommand) (total1 : Nat)
    (h : deliveryLoop router distanceEarthMiles angleOfLine angleBetween2Lines cur reqs
      commands total = LoopOutcome.finished cur1 commands1 total1) :
    cur1 = currentPosition cur reqs := by
  induction reqs generalizing cur commands total with
  | nil =>
    simp only [deliveryLoop, LoopOutcome.finished.injEq] at h
    simp [currentPosition, h.1]
  | cons x rest ih =>
    rw [currentPosition_cons]
    rcases deliveryLoop_cases router distanceEarthMiles angleOfLine angleBetween2Lines cur x
      rest commands total with ⟨_, h1⟩ | ⟨_, c1, t1, _, h1⟩ | ⟨o, h1, _⟩
    · rw [h1] at h; exact ih _ _ _ h
    · rw [h1] at h; exact ih _ _ _ h
    · rw [h1] at h
      simp at h

theorem legCommands_of_navigate (router : G → G → Outcome G)
    (distanceEarthMiles : G → G → Nat) (angleOfLine : StreetSegment G → ℚ)
    (angleBetween2Lines : StreetSegment G → StreetSegment G → ℚ) (a b : G)
    (leg : List DeliveryCommand) (d : Nat)
    (h : navigate router distanceEarthMiles angleOfLine angleBetween2Lines a b [] 0
      = PlanOutcome.returned DeliveryResult.DELIVERY_SUCCESS leg d) :
    legCommands router distanceEarthMiles angleOfLine angleBetween2Lines a b = some leg := by
  unfold legCommands
  rw [h]

/-- The commands of a successful plan, from any state of the loop on. -/
theorem plan_structure (router : G → G → Outcome G) (distanceEarthMiles : G → G → Nat)
    (angleOfLine : StreetSegment G → ℚ)
    (angleBetween2Lines : StreetSegment G → StreetSegment G → ℚ) (depot : G)
    (reqs : List (DeliveryRequest G)) (cur : G) (commands0 : List DeliveryCommand)
    (total0 : Nat) (cur1 : G) (commands1 : List DeliveryCommand) (total1 : Nat)
    (commands : List DeliveryCommand) (total : Nat)
    (hloop : deliveryLoop router distanceEarthMiles angleOfLine angleBetween2Lines cur reqs
      commands0 total0 = LoopOutcome.finished cur1 commands1 total1)
    (hback : navigate router distanceEarthMiles angleOfLine angleBetween2Lines cur1 depot
      commands1 total1 = PlanOutcome.returned DeliveryResult.DELIVERY_SUCCESS commands total) :
    ∃ appended,
      planCommands router distanceEarthMiles angleOfLine angleBetween2Lines depot cur reqs
          = some appended
        ∧ commands = commands0 ++ appended
        ∧ appended.filter DeliveryCommand.isDeliver
            = reqs.map (fun r => DeliveryCommand.deliver r.item) := by
  induction reqs generalizing cur commands0 total0 with
  | nil =>
    simp only [deliveryLoop, LoopOutcome.finished.injEq] at hloop
    rw [← hloop.1, ← hloop.2.1, ← hloop.2.2] at hback
    rcases navigate_returned _ _ _ _ _ _ _ _ _ _ _ hback with ⟨leg, d, hc, _, hnav, _, hnd⟩
    refine ⟨leg, ?_, hc, ?_⟩
    · simp only [planCommands]
      exact legCommands_of_navigate _ _ _ _ _ _ _ _ hnav
    · simp only [List.map_nil, List.filter_eq_nil_iff]
      intro c hc2
      rw [hnd c hc2]
      exact Bool.false_ne_true
  | cons x rest ih =>
    rcases deliveryLoop_cases router distanceEarthMiles angleOfLine angleBetween2Lines cur x
      rest commands0 total0 with ⟨hx, h1⟩ | ⟨hx, c1, t1, hnav, h1⟩ | ⟨o, h1, _⟩
    · rw [h1] at hloop
      rcases ih _ _ _ hloop with ⟨more, hplan, hcmds, hfil⟩
      refine ⟨DeliveryCommand.deliver x.item :: more, ?_, ?_, ?_⟩
      · have hleg : legCommands router distanceEarthMiles angleOfLine angleBetween2Lines cur
            x.location = some [] := by
          apply legCommands_of_navigate _ _ _ _ _ _ _ 0
          rw [hx]; exact navigate_same _ _ _ _ _ _ _
        simp only [planCommands, hleg, hplan, List.nil_append]
      · rw [hcmds]; simp
      · simp [List.filter_cons, DeliveryCommand.isDeliver, hfil]
    · rw [h1] at hloop
      rcases ih _ _ _ hloop with ⟨more, hplan, hcmds, hfil⟩
      rcases navigate_returned _ _ _ _ _ _ _ _ _ _ _ hnav with ⟨leg, d, hc, _, hnav0, _, hnd⟩
      refine ⟨leg ++ DeliveryCommand.deliver x.item :: more, ?_, ?_, ?_⟩
      · have hleg := legCommands_of_navigate _ _ _ _ _ _ _ _ hnav0
        simp only [planCommands, hleg, hplan]
      · rw [hcmds, hc]; simp
      · have hlegf : leg.filter DeliveryCommand.isDeliver = [] := by
          rw [List.filter_eq_nil_iff]
          intro c hc2
          rw [hnd c hc2]
          exact Bool.false_ne_true
        simp [List.filter_append, List.filter_cons, DeliveryCommand.isDeliver, hfil, hlegf]
    · rw [h1] at hloop
      simp at hloop

theorem plan_of_finished (router : G → G → Outcome G) (distanceEarthMiles : G → G → Nat)
    (angleOfLine : StreetSegment G → ℚ)
    (angleBetween2Lines : StreetSegment G → StreetSegment G → ℚ) (depot : G)
    (reqs : List (DeliveryRequest G)) (commands0 : List DeliveryCommand) (total0 : Nat)
    (cur1 : G) (commands1 : List DeliveryCommand) (total1 : Nat)
    (h : deliveryLoop router distanceEarthMiles angleOfLine angleBetween2Lines depot reqs
      commands0 0 = LoopOutcome.finished cur1 commands1 total1) :
    generateDeliveryPlan router distanceEarthMiles angleOfLine angleBetween2Lines depot reqs
        commands0 total0
      = navigate router distanceEarthMiles angleOfLine angleBetween2Lines cur1 depot
          commands1 total1 := by
  unfold generateDeliveryPlan
  rw [h]

theorem plan_of_left (router : G → G → Outcome G) (distanceEarthMiles : G → G → Nat)
    (angleOfLine : StreetSegment G → ℚ)
    (angleBetween2Lines : StreetSegment G → StreetSegment G → ℚ) (depot : G)
    (reqs : List (DeliveryRequest G)) (commands0 : List DeliveryCommand) (total0 : Nat)
    (out : PlanOutcome G)
    (h : deliveryLoop router distanceEarthMiles angleOfLine angleBetween2Lines depot reqs
      commands0 0 = LoopOutcome.left out) :
    generateDeliveryPlan router distanceEarthMiles angleOfLine angleBetween2Lines depot reqs
        commands0 total0 = out := by
  unfold generateDeliveryPlan
  rw [h]

end DeliveryLoopLemmas

/-! ## The load factor of `ExpandableHashMap` -/

section LoadLemmas

open ExpandableHashMap

variable {K V : Type} [DecidableEq K]

theorem loadFactor_associate (hasher : K → Nat) (m : ExpandableHashMap K V) (key : K)
    (value : V) : (associate hasher m key value).m_loadFactor = m.m_loadFactor := by
  unfold associate
  cases hf : find hasher m key with
  | none =>
    cases ho : overLoad m
    · simp [insertNew]
    · simp [insertNew, grow]
  | some w => rfl

theorem loadFactor_associateAll (hasher : K → Nat) (m : ExpandableHashMap K V)
    (kvs : List (K × V)) : (associateAll hasher m kvs).m_loadFactor = m.m_loadFactor := by
  induction kvs generalizing m with
  | nil => rfl
  | cons kv rest ih =>
    have := ih (associate hasher m kv.1 kv.2)
    simp only [associateAll, List.foldl_cons] at this ⊢
    rw [this, loadFactor_associate]

theorem buckets_associate (hasher : K → Nat) (m : ExpandableHashMap K V) (key : K)
    (value : V) :
    (associate hasher m key value).m_buckets
      = if (find hasher m key).isNone = true ∧ overLoad m = true then m.m_buckets * 2
        else m.m_buckets := by
  unfold associate
  cases hf : find hasher m key with
  | none =>
    cases ho : overLoad m
    · simp [insertNew]
    · simp [insertNew, grow]
  | some w => simp [writeThrough]

/-- With a maximum load factor of at least 1/16, one doubling per insertion keeps
`size / buckets` within the maximum. -/
theorem load_bound_of_reachable (hasher : K → Nat) (lf : LoadFactor) (hden : 0 < lf.den)
    (h16 : lf.den ≤ 16 * lf.num) (m : ExpandableHashMap K V) (hm : Reachable hasher m)
    (hlf : m.m_loadFactor = lf) :
    m.m_size * lf.den ≤ lf.num * m.m_buckets ∧ 8 ≤ m.m_buckets := by
  induction hm with
  | create lf0 => simp [create]
  | reset m0 _ _ => simp [reset]
  | associate m0 key value _ ih =>
    rw [loadFactor_associate] at hlf
    have hprev := ih hlf
    have hb := buckets_associate hasher m0 key value
    have hs := size_associate_step hasher m0 key value
    simp only [size] at hs
    cases hf : find hasher m0 key with
    | some w =>
      simp only [hf, Option.isNone_some, Bool.false_eq_true, false_and, if_false] at hb hs
      rw [hb, hs]
      exact hprev
    | none =>
      simp only [hf, Option.isNone_none, true_and, if_true] at hb hs
      rw [hs]
      cases ho : overLoad m0
      · simp only [ho, Bool.false_eq_true, if_false] at hb
        rw [hb]
        refine ⟨?_, hprev.2⟩
        simp only [overLoad, decide_eq_false_iff_not, hlf, Nat.not_lt] at ho
        exact ho
      · simp only [ho, if_true] at hb
        rw [hb]
        refine ⟨?_, by omega⟩
        have e1 : (m0.m_size + 1) * lf.den = m0.m_size * lf.den + lf.den := Nat.succ_mul _ _
        have e2 : lf.num * (m0.m_buckets * 2) = 2 * (lf.num * m0.m_buckets) := by ring
        rw [e1, e2]
        rcases Nat.eq_zero_or_pos m0.m_size with h0 | hpos
        · rw [h0, Nat.zero_mul, Nat.zero_add]
          have : lf.num * 8 ≤ lf.num * m0.m_buckets := Nat.mul_le_mul_left _ hprev.2
          omega
        · have : lf.den ≤ m0.m_size * lf.den := Nat.le_mul_of_pos_left _ hpos
          omega

end LoadLemmas

/-! ## The planner on the example maps -/

section PlannerExamples

theorem east_of_zero : stringAngleForProceed 0 = "east" := by
  simp [stringAngleForProceed, truncatedBucket]

theorem lineMap_route_there :
    ptopRouter id lineDistance lineMap 10 10 0 2
      = Outcome.returned DeliveryResult.DELIVERY_SUCCESS [⟨0, 1, "x"⟩, ⟨1, 2, "y"⟩] 2 := by
  decide

theorem lineMap_route_back :
    ptopRouter id lineDistance lineMap 10 10 2 0
      = Outcome.returned DeliveryResult.DELIVERY_SUCCESS [⟨2, 1, "y"⟩, ⟨1, 0, "x"⟩] 2 := by
  decide

theorem threeMap_route :
    ptopRouter id lineDistance threeMap 10 10 0 3
      = Outcome.returned DeliveryResult.DELIVERY_SUCCESS
          [⟨0, 1, "x"⟩, ⟨1, 2, "x"⟩, ⟨2, 3, "y"⟩] 3 := by
  decide

theorem splitMap_route_there :
    ptopRouter id lineDistance splitMap 10 10 0 1
      = Outcome.returned DeliveryResult.DELIVERY_SUCCESS [⟨0, 1, "x"⟩] 1 := by
  decide

theorem splitMap_no_route :
    ptopRouter id lineDistance splitMap 10 10 1 5
      = Outcome.returned DeliveryResult.NO_ROUTE [] 0 := by
  decide

theorem lineMap_commands_left :
    routeCommands lineDistance bearingEast (turnAngle 90) [⟨0, 1, "x"⟩, ⟨1, 2, "y"⟩]
      = [DeliveryCommand.proceed "east" "x" 1, DeliveryCommand.turn "left" "y",
          DeliveryCommand.proceed "east" "y" 1] := by
  simp [routeCommands, streetLoop, turnCommands, turnAngle, bearingEast, east_of_zero,
    lineDistance]
  norm_num

theorem lineMap_commands_back :
    routeCommands lineDistance bearingEast (turnAngle 90) [⟨2, 1, "y"⟩, ⟨1, 0, "x"⟩]
      = [DeliveryCommand.proceed "east" "y" 1, DeliveryCommand.turn "left" "x",
          DeliveryCommand.proceed "east" "x" 1] := by
  simp [routeCommands, streetLoop, turnCommands, turnAngle, bearingEast, east_of_zero,
    lineDistance]
  norm_num

theorem splitMap_commands :
    routeCommands lineDistance bearingEast (turnAngle 90) [⟨0, 1, "x"⟩]
      = [DeliveryCommand.proceed "east" "x" 1] := by
  simp [routeCommands, streetLoop, bearingEast, east_of_zero, lineDistance]

end PlannerExamples

section PlannerExamples2

theorem lineMap_leg_there (commands : List DeliveryCommand) (total : Nat) :
    navigate (ptopRouter id lineDistance lineMap 10 10) lineDistance bearingEast
        (turnAngle 90) 0 2 commands total
      = PlanOutcome.returned DeliveryResult.DELIVERY_SUCCESS
          (commands ++ [DeliveryCommand.proceed "east" "x" 1, DeliveryCommand.turn "left" "y",
            DeliveryCommand.proceed "east" "y" 1]) (total + 2) := by
  rw [navigate_success _ _ _ _ _ _ _ _ _ _ (by decide) lineMap_route_there,
    lineMap_commands_left]

theorem lineMap_leg_back (commands : List DeliveryCommand) (total : Nat) :
    navigate (ptopRouter id lineDistance lineMap 10 10) lineDistance bearingEast
        (turnAngle 90) 2 0 commands total
      = PlanOutcome.returned DeliveryResult.DELIVERY_SUCCESS
          (commands ++ [DeliveryCommand.proceed "east" "y" 1, DeliveryCommand.turn "left" "x",
            DeliveryCommand.proceed "east" "x" 1]) (total + 2) := by
  rw [navigate_success _ _ _ _ _ _ _ _ _ _ (by decide) lineMap_route_back,
    lineMap_commands_back]

theorem lineMap_loop :
    deliveryLoop (ptopRouter id lineDistance lineMap 10 10) lineDistance bearingEast
        (turnAngle 90) 0 [⟨"book", 2⟩] [] 0
      = LoopOutcome.finished 2
          [DeliveryCommand.proceed "east" "x" 1, DeliveryCommand.turn "left" "y",
            DeliveryCommand.proceed "east" "y" 1, DeliveryCommand.deliver "book"] 2 := by
  rw [deliveryLoop_leg _ _ _ _ _ _ _ _ _ (by decide) _ _ (lineMap_leg_there [] 0)]
  rfl

theorem splitMap_loop :
    deliveryLoop (ptopRouter id lineDistance splitMap 10 10) lineDistance bearingEast
        (turnAngle 90) 0 [⟨"x", 1⟩] [] 0
      = LoopOutcome.finished 1
          [DeliveryCommand.proceed "east" "x" 1, DeliveryCommand.deliver "x"] 1 := by
  have hnav : navigate (ptopRouter id lineDistance splitMap 10 10) lineDistance bearingEast
      (turnAngle 90) 0 1 [] 0
      = PlanOutcome.returned DeliveryResult.DELIVERY_SUCCESS
          [DeliveryCommand.proceed "east" "x" 1] 1 := by
    rw [navigate_success _ _ _ _ _ _ _ _ _ _ (by decide) splitMap_route_there,
      splitMap_commands]
    rfl
  rw [deliveryLoop_leg _ _ _ _ _ _ _ _ _ (by decide) _ _ hnav]
  rfl

end PlannerExamples2

/-! ## Claims about `navigate` and `stringAngleForProceed` -/

section NavigateClaims

/-- C11 as stated fails: the angle 359.5 lies in [180, 360), the street name changes
between the two segments of the route from `0` to `2` on `lineMap`, and `navigate` pushes
the two proceed commands with no turn command between them. -/
theorem right_turn_fails_above_359 :
    (180 : ℚ) ≤ turnAngle (719 / 2) ⟨0, 1, "x"⟩ ⟨1, 2, "y"⟩
      ∧ turnAngle (719 / 2) ⟨0, 1, "x"⟩ ⟨1, 2, "y"⟩ < 360
      ∧ navigate (ptopRouter id lineDistance lineMap 10 10) lineDistance bearingEast
          (turnAngle (719 / 2)) 0 2 [] 0
        = PlanOutcome.returned DeliveryResult.DELIVERY_SUCCESS
            [DeliveryCommand.proceed "east" "x" 1, DeliveryCommand.proceed "east" "y" 1] 2 := by
  refine ⟨by norm_num [turnAngle], by norm_num [turnAngle], ?_⟩
  rw [navigate_success _ _ _ _ _ _ _ _ _ _ (by decide) lineMap_route_there]
  simp [routeCommands, streetLoop, turnCommands, turnAngle, bearingEast, east_of_zero,
    lineDistance]
  norm_num

/-- C11 amended: when the router returns a route in which the street name changes between
the consecutive segments `a` and `b`, and `angleBetween2Lines(a, b)` lies in [180, 359],
`navigate` appends the commands of the route up to `a`, which end with the proceed
command of the street of `a`, then the turn command "right" with the street name of `b`,
then the commands of the route from `b` on, which begin with the proceed command of the
street of `b`. -/
theorem right_turn_up_to_359 {G : Type} [DecidableEq G] (router : G → G → Outcome G)
    (distanceEarthMiles : G → G → Nat) (angleOfLine : StreetSegment G → ℚ)
    (angleBetween2Lines : StreetSegment G → StreetSegment G → ℚ) (start end_ : G)
    (commands : List DeliveryCommand) (total : Nat) (pre : List (StreetSegment G))
    (a b : StreetSegment G) (post : List (StreetSegment G)) (d : Nat)
    (hne : start ≠ end_)
    (hr : router start end_
      = Outcome.returned DeliveryResult.DELIVERY_SUCCESS (pre ++ a :: b :: post) d)
    (hab : a.name ≠ b.name) (h180 : 180 ≤ angleBetween2Lines a b)
    (h359 : angleBetween2Lines a b ≤ 359) :
    navigate router distanceEarthMiles angleOfLine angleBetween2Lines start end_ commands
        total
      = PlanOutcome.returned DeliveryResult.DELIVERY_SUCCESS
          (commands ++
            (routeCommands distanceEarthMiles angleOfLine angleBetween2Lines (pre ++ [a])
              ++ DeliveryCommand.turn "right" b.name ::
                routeCommands distanceEarthMiles angleOfLine angleBetween2Lines (b :: post)))
          (total + d)
      ∧ (∃ init dir len,
          routeCommands distanceEarthMiles angleOfLine angleBetween2Lines (pre ++ [a])
            = init ++ [DeliveryCommand.proceed dir a.name len])
      ∧ (∃ len tail,
          routeCommands distanceEarthMiles angleOfLine angleBetween2Lines (b :: post)
            = DeliveryCommand.proceed (stringAngleForProceed (angleOfLine b)) b.name len
                :: tail) := by
  refine ⟨?_, routeCommands_last _ _ _ pre a, routeCommands_head _ _ _ b post⟩
  rw [navigate_success _ _ _ _ _ _ _ _ _ _ hne hr, routeCommands_boundary _ _ _ _ _ _ _ hab]
  have hnl : ¬ (1 ≤ angleBetween2Lines a b ∧ angleBetween2Lines a b < 180) :=
    fun h => absurd h180 (not_le.2 h.2)
  have ht : turnCommands angleBetween2Lines a b = [DeliveryCommand.turn "right" b.name] := by
    unfold turnCommands
    simp only []
    rw [if_neg hnl, if_pos ⟨h180, h359⟩]
  rw [ht]
  rfl

/-- Witness for the amended C11: the route from `0` to `2` on `lineMap` with an angle of
270 between its two segments. -/
theorem right_turn_up_to_359_witness :
    (0 : Nat) ≠ 2
      ∧ ptopRouter id lineDistance lineMap 10 10 0 2
          = Outcome.returned DeliveryResult.DELIVERY_SUCCESS
              ([] ++ ⟨0, 1, "x"⟩ :: ⟨1, 2, "y"⟩ :: []) 2
      ∧ (180 : ℚ) ≤ turnAngle 270 ⟨0, 1, "x"⟩ ⟨1, 2, "y"⟩
      ∧ turnAngle 270 ⟨0, 1, "x"⟩ ⟨1, 2, "y"⟩ ≤ 359
      ∧ navigate (ptopRouter id lineDistance lineMap 10 10) lineDistance bearingEast
          (turnAngle 270) 0 2 [] 0
        = PlanOutcome.returned DeliveryResult.DELIVERY_SUCCESS
            ([] ++
              (routeCommands lineDistance bearingEast (turnAngle 270) ([] ++ [⟨0, 1, "x"⟩])
                ++ DeliveryCommand.turn "right" "y" ::
                  routeCommands lineDistance bearingEast (turnAngle 270) [⟨1, 2, "y"⟩]))
            (0 + 2) :=
  ⟨by decide, lineMap_route_there, by norm_num [turnAngle], by norm_num [turnAngle],
    (right_turn_up_to_359 (ptopRouter id lineDistance lineMap 10 10) lineDistance
      bearingEast (turnAngle 270) 0 2 [] 0 [] ⟨0, 1, "x"⟩ ⟨1, 2, "y"⟩ [] 2 (by decide)
      lineMap_route_there (by decide) (by norm_num [turnAngle])
      (by norm_num [turnAngle])).1⟩

/-- C12: when the router returns a route in which the street name changes between the
consecutive segments `a` and `b`: if `angleBetween2Lines(a, b)` lies in [1, 180),
`navigate` appends the commands of the route up to `a`, then exactly the turn command
"left" with the street name of `b`, then the commands of the route from `b` on; if the
angle lies in [0, 1), the commands of the route from `b` on follow those of the route up
to `a` directly. The former end with the proceed command of the street of `a`, the latter
begin with the proceed command of the street of `b`. -/
theorem left_turn_and_straight {G : Type} [DecidableEq G] (router : G → G → Outcome G)
    (distanceEarthMiles : G → G → Nat) (angleOfLine : StreetSegment G → ℚ)
    (angleBetween2Lines : StreetSegment G → StreetSegment G → ℚ) (start end_ : G)
    (commands : List DeliveryCommand) (total : Nat) (pre : List (StreetSegment G))
    (a b : StreetSegment G) (post : List (StreetSegment G)) (d : Nat)
    (hne : start ≠ end_)
    (hr : router start end_
      = Outcome.returned DeliveryResult.DELIVERY_SUCCESS (pre ++ a :: b :: post) d)
    (hab : a.name ≠ b.name) :
    (1 ≤ angleBetween2Lines a b → angleBetween2Lines a b < 180 →
      navigate router distanceEarthMiles angleOfLine angleBetween2Lines start end_ commands
          total
        = PlanOutcome.returned DeliveryResult.DELIVERY_SUCCESS
            (commands ++
              (routeCommands distanceEarthMiles angleOfLine angleBetween2Lines (pre ++ [a])
                ++ DeliveryCommand.turn "left" b.name ::
                  routeCommands distanceEarthMiles angleOfLine angleBetween2Lines
                    (b :: post)))
            (total + d))
      ∧ (0 ≤ angleBetween2Lines a b → angleBetween2Lines a b < 1 →
        navigate router distanceEarthMiles angleOfLine angleBetween2Lines start end_ commands
            total
          = PlanOutcome.returned DeliveryResult.DELIVERY_SUCCESS
              (commands ++
                (routeCommands distanceEarthMiles angleOfLine angleBetween2Lines (pre ++ [a])
                  ++ routeCommands distanceEarthMiles angleOfLine angleBetween2Lines
                      (b :: post)))
              (total + d))
      ∧ (∃ init dir len,
          routeCommands distanceEarthMiles angleOfLine angleBetween2Lines (pre ++ [a])
            = init ++ [DeliveryCommand.proceed dir a.name len])
      ∧ (∃ len tail,
          routeCommands distanceEarthMiles angleOfLine angleBetween2Lines (b :: post)
            = DeliveryCommand.proceed (stringAngleForProceed (angleOfLine b)) b.name len
                :: tail) := by
  refine ⟨?_, ?_, routeCommands_last _ _ _ pre a, routeCommands_head _ _ _ b post⟩
  · intro h1 h180
    rw [navigate_success _ _ _ _ _ _ _ _ _ _ hne hr,
      routeCommands_boundary _ _ _ _ _ _ _ hab]
    have ht : turnCommands angleBetween2Lines a b = [DeliveryCommand.turn "left" b.name] := by
      unfold turnCommands
      simp only []
      rw [if_pos ⟨h1, h180⟩]
    rw [ht]
    rfl
  · intro h0 h1
    rw [navigate_success _ _ _ _ _ _ _ _ _ _ hne hr,
      routeCommands_boundary _ _ _ _ _ _ _ hab]
    have hnl : ¬ (1 ≤ angleBetween2Lines a b ∧ angleBetween2Lines a b < 180) :=
      fun h => absurd h.1 (not_le.2 h1)
    have hnr : ¬ (180 ≤ angleBetween2Lines a b ∧ angleBetween2Lines a b ≤ 359) :=
      fun h => absurd h.1 (not_le.2 (lt_trans h1 (by norm_num)))
    have ht : turnCommands angleBetween2Lines a b = [] := by
      unfold turnCommands
      simp only []
      rw [if_neg hnl, if_neg hnr]
    rw [ht]
    rfl

/-- Witness for C12: the route from `0` to `2` on `lineMap`, with an angle of 90 and with
an angle of 0.5 between its two segments. -/
theorem left_turn_and_straight_witness :
    (0 : Nat) ≠ 2
      ∧ ptopRouter id lineDistance lineMap 10 10 0 2
          = Outcome.returned DeliveryResult.DELIVERY_SUCCESS
              ([] ++ ⟨0, 1, "x"⟩ :: ⟨1, 2, "y"⟩ :: []) 2
      ∧ navigate (ptopRouter id lineDistance lineMap 10 10) lineDistance bearingEast
          (turnAngle 90) 0 2 [] 0
        = PlanOutcome.returned DeliveryResult.DELIVERY_SUCCESS
            ([] ++
              (routeCommands lineDistance bearingEast (turnAngle 90) ([] ++ [⟨0, 1, "x"⟩])
                ++ DeliveryCommand.turn "left" "y" ::
                  routeCommands lineDistance bearingEast (turnAngle 90) [⟨1, 2, "y"⟩]))
            (0 + 2)
      ∧ navigate (ptopRouter id lineDistance lineMap 10 10) lineDistance bearingEast
          (turnAngle (1 / 2)) 0 2 [] 0
        = PlanOutcome.returned DeliveryResult.DELIVERY_SUCCESS
            ([] ++
              (routeCommands lineDistance bearingEast (turnAngle (1 / 2))
                  ([] ++ [⟨0, 1, "x"⟩])
                ++ routeCommands lineDistance bearingEast (turnAngle (1 / 2))
                    [⟨1, 2, "y"⟩]))
            (0 + 2) :=
  ⟨by decide, lineMap_route_there,
    (left_turn_and_straight (ptopRouter id lineDistance lineMap 10 10) lineDistance
      bearingEast (turnAngle 90) 0 2 [] 0 [] ⟨0, 1, "x"⟩ ⟨1, 2, "y"⟩ [] 2 (by decide)
      lineMap_route_there (by decide)).1 (by norm_num [turnAngle]) (by norm_num [turnAngle]),
    (left_turn_and_straight (ptopRouter id lineDistance lineMap 10 10) lineDistance
      bearingEast (turnAngle (1 / 2)) 0 2 [] 0 [] ⟨0, 1, "x"⟩ ⟨1, 2, "y"⟩ [] 2 (by decide)
      lineMap_route_there (by decide)).2.1 (by norm_num [turnAngle])
      (by norm_num [turnAngle])⟩

/-- C13: for every bearing in [0, 360), `stringAngleForProceed` returns the name the
specification assigns to the index `floor(angle / 22.5)`, that index lies in 0..15, and
the result is not the empty string. -/
theorem compass_bucket (angle : ℚ) (h0 : 0 ≤ angle) (h360 : angle < 360) :
    stringAngleForProceed angle = compassBucketName ⌊angle / (45 / 2)⌋
      ∧ 0 ≤ ⌊angle / (45 / 2)⌋ ∧ ⌊angle / (45 / 2)⌋ ≤ 15
      ∧ stringAngleForProceed angle ≠ "" := by
  have hr := bucket_range angle h0 h360
  have he : stringAngleForProceed angle = compassBucketName ⌊angle / (45 / 2)⌋ := by
    unfold stringAngleForProceed
    simp only []
    rw [truncatedBucket_of_nonneg angle h0]
    rfl
  refine ⟨he, hr.1, hr.2, ?_⟩
  rw [he]
  exact compassBucketName_ne_empty _ hr.1 hr.2

/-- Witness for C13 at the bearing 100, which is "north" (index 4). -/
theorem compass_bucket_witness :
    (0 : ℚ) ≤ 100 ∧ (100 : ℚ) < 360 ∧ ⌊(100 : ℚ) / (45 / 2)⌋ = 4
      ∧ compassBucketName 4 = "north"
      ∧ (stringAngleForProceed 100 = compassBucketName ⌊(100 : ℚ) / (45 / 2)⌋
        ∧ 0 ≤ ⌊(100 : ℚ) / (45 / 2)⌋ ∧ ⌊(100 : ℚ) / (45 / 2)⌋ ≤ 15
        ∧ stringAngleForProceed 100 ≠ "") :=
  ⟨by norm_num, by norm_num, by rw [Int.floor_eq_iff]; norm_num, by decide,
    compass_bucket 100 (by norm_num) (by norm_num)⟩

/-- C14: when the router returns a route, `navigate` appends the commands of the route
loop; their proceed commands are, one for one and in order, those of the maximal runs of
consecutive segments that share a street name, each with the compass direction of the
bearing of the first segment of its run, the street name of the run and the sum of the
lengths of its segments; and a non-empty route on one street gives exactly one proceed
command and nothing else. -/
theorem proceed_per_run {G : Type} [DecidableEq G] (router : G → G → Outcome G)
    (distanceEarthMiles : G → G → Nat) (angleOfLine : StreetSegment G → ℚ)
    (angleBetween2Lines : StreetSegment G → StreetSegment G → ℚ) (start end_ : G)
    (commands : List DeliveryCommand) (total : Nat) (route : List (StreetSegment G))
    (runs : List (List (StreetSegment G))) (d : Nat) (hne : start ≠ end_)
    (hr : router start end_ = Outcome.returned DeliveryResult.DELIVERY_SUCCESS route d)
    (hruns : MaximalRuns route runs) :
    navigate router distanceEarthMiles angleOfLine angleBetween2Lines start end_ commands
        total
      = PlanOutcome.returned DeliveryResult.DELIVERY_SUCCESS
          (commands ++ routeCommands distanceEarthMiles angleOfLine angleBetween2Lines route)
          (total + d)
      ∧ (routeCommands distanceEarthMiles angleOfLine angleBetween2Lines route).filter
            DeliveryCommand.isProceed
          = runs.map (proceedOfRun distanceEarthMiles angleOfLine)
      ∧ (runs.length = 1 →
          routeCommands distanceEarthMiles angleOfLine angleBetween2Lines route
            = [proceedOfRun distanceEarthMiles angleOfLine route]) := by
  refine ⟨navigate_success _ _ _ _ _ _ _ _ _ _ hne hr,
    proceeds_routeCommands _ _ _ route runs hruns, ?_⟩
  intro hlen
  rcases hruns with ⟨hflat, hall, _⟩
  cases runs with
  | nil => simp at hlen
  | cons run rs =>
    cases rs with
    | nil =>
      simp only [List.flatten_cons, List.flatten_nil, List.append_nil] at hflat
      subst hflat
      have := hall run (List.mem_cons_self _ _)
      exact routeCommands_oneStreet _ _ _ run this.1 this.2
    | cons r2 rs2 => simp at hlen

/-- Witness for C14: the route from `0` to `3` on `threeMap`, two segments of street "x"
and one of street "y". -/
theorem proceed_per_run_witness :
    (0 : Nat) ≠ 3
      ∧ ptopRouter id lineDistance threeMap 10 10 0 3
          = Outcome.returned DeliveryResult.DELIVERY_SUCCESS
              [⟨0, 1, "x"⟩, ⟨1, 2, "x"⟩, ⟨2, 3, "y"⟩] 3
      ∧ MaximalRuns [⟨0, 1, "x"⟩, ⟨1, 2, "x"⟩, ⟨2, 3, "y"⟩]
          [[⟨0, 1, "x"⟩, ⟨1, 2, "x"⟩], [(⟨2, 3, "y"⟩ : StreetSegment Nat)]]
      ∧ (routeCommands lineDistance bearingEast (turnAngle 90)
            [⟨0, 1, "x"⟩, ⟨1, 2, "x"⟩, ⟨2, 3, "y"⟩]).filter DeliveryCommand.isProceed
          = [DeliveryCommand.proceed "east" "x" 2, DeliveryCommand.proceed "east" "y" 1] := by
  have hruns : MaximalRuns [⟨0, 1, "x"⟩, ⟨1, 2, "x"⟩, ⟨2, 3, "y"⟩]
      [[⟨0, 1, "x"⟩, ⟨1, 2, "x"⟩], [(⟨2, 3, "y"⟩ : StreetSegment Nat)]] := by
    simp [MaximalRuns, OneStreet, StreetChanges]
  refine ⟨by decide, threeMap_route, hruns, ?_⟩
  rw [(proceed_per_run (ptopRouter id lineDistance threeMap 10 10) lineDistance bearingEast
    (turnAngle 90) 0 3 [] 0 _ _ 3 (by decide) threeMap_route hruns).2.1]
  simp [proceedOfRun, routeLength, bearingEast, east_of_zero, lineDistance]

end NavigateClaims

/-! ## Claims about `generateDeliveryPlan` -/

section PlanClaims

/-- C15: for a request whose location is the current position (the depot when no request
precedes it, else the location of the request before it), the loop appends exactly the
deliver command of its item to the commands so far, leaves the total as it is, and goes
on from the same position; this step gives the same result for every router, so the
router has no part in it. -/
theorem same_location_request {G : Type} [DecidableEq G] (router other : G → G → Outcome G)
    (distanceEarthMiles : G → G → Nat) (angleOfLine : StreetSegment G → ℚ)
    (angleBetween2Lines : StreetSegment G → StreetSegment G → ℚ) (depot : G)
    (done : List (DeliveryRequest G)) (x : DeliveryRequest G)
    (todo : List (DeliveryRequest G)) (commands0 : List DeliveryCommand) (total0 : Nat)
    (cur : G) (commands1 : List DeliveryCommand) (total1 : Nat)
    (hdone : deliveryLoop router distanceEarthMiles angleOfLine angleBetween2Lines depot done
      commands0 total0 = LoopOutcome.finished cur commands1 total1)
    (hx : x.location = currentPosition depot done) :
    deliveryLoop router distanceEarthMiles angleOfLine angleBetween2Lines depot
        (done ++ x :: todo) commands0 total0
      = deliveryLoop router distanceEarthMiles angleOfLine angleBetween2Lines x.location
          todo (commands1 ++ [DeliveryCommand.deliver x.item]) total1
      ∧ deliveryLoop other distanceEarthMiles angleOfLine angleBetween2Lines
          (currentPosition depot done) [x] commands1 total1
        = LoopOutcome.finished x.location (commands1 ++ [DeliveryCommand.deliver x.item])
            total1 := by
  have hcur := deliveryLoop_finished_position _ _ _ _ _ _ _ _ _ _ _ hdone
  constructor
  · rw [deliveryLoop_append _ _ _ _ _ _ _ _ _ _ _ _ hdone,
      deliveryLoop_same _ _ _ _ _ _ _ _ _ (hx.trans hcur.symm)]
  · rw [deliveryLoop_same _ _ _ _ _ _ _ _ _ hx]
    rfl

/-- Witness for C15 on `lineMap`: after the request at `2`, a second request at `2`. -/
theorem same_location_request_witness :
    deliveryLoop (ptopRouter id lineDistance lineMap 10 10) lineDistance bearingEast
        (turnAngle 90) 0 [⟨"book", 2⟩] [] 0
      = LoopOutcome.finished 2
          [DeliveryCommand.proceed "east" "x" 1, DeliveryCommand.turn "left" "y",
            DeliveryCommand.proceed "east" "y" 1, DeliveryCommand.deliver "book"] 2
      ∧ (⟨"pen", 2⟩ : DeliveryRequest Nat).location = currentPosition 0 [⟨"book", 2⟩]
      ∧ (deliveryLoop (ptopRouter id lineDistance lineMap 10 10) lineDistance bearingEast
            (turnAngle 90) 0 ([⟨"book", 2⟩] ++ ⟨"pen", 2⟩ :: []) [] 0
          = deliveryLoop (ptopRouter id lineDistance lineMap 10 10) lineDistance bearingEast
              (turnAngle 90) 2 []
              ([DeliveryCommand.proceed "east" "x" 1, DeliveryCommand.turn "left" "y",
                  DeliveryCommand.proceed "east" "y" 1, DeliveryCommand.deliver "book"]
                ++ [DeliveryCommand.deliver "pen"]) 2
        ∧ deliveryLoop (fun _ _ => Outcome.searchCutOff) lineDistance bearingEast
            (turnAngle 90) (currentPosition 0 [⟨"book", 2⟩]) [⟨"pen", 2⟩]
            [DeliveryCommand.proceed "east" "x" 1, DeliveryCommand.turn "left" "y",
              DeliveryCommand.proceed "east" "y" 1, DeliveryCommand.deliver "book"] 2
          = LoopOutcome.finished 2
              ([DeliveryCommand.proceed "east" "x" 1, DeliveryCommand.turn "left" "y",
                  DeliveryCommand.proceed "east" "y" 1, DeliveryCommand.deliver "book"]
                ++ [DeliveryCommand.deliver "pen"]) 2) :=
  ⟨lineMap_loop, by decide,
    same_location_request (ptopRouter id lineDistance lineMap 10 10)
      (fun _ _ => Outcome.searchCutOff) lineDistance bearingEast (turnAngle 90) 0
      [⟨"book", 2⟩] ⟨"pen", 2⟩ [] [] 0 2 _ 2 lineMap_loop (by decide)⟩

/-- C16: when the legs of the requests `done` succeed and the router then returns
`NO_ROUTE` or `BAD_COORD` for the next leg, be it the leg to a further request or the leg
back to the depot, the plan returns that result with the commands and the total as they
were after the requests `done`: nothing is appended and no distance added for the failed
leg, and the result does not depend on the requests after it. -/
theorem failure_propagates {G : Type} [DecidableEq G] (router : G → G → Outcome G)
    (distanceEarthMiles : G → G → Nat) (angleOfLine : StreetSegment G → ℚ)
    (angleBetween2Lines : StreetSegment G → StreetSegment G → ℚ) (depot : G)
    (done : List (DeliveryRequest G)) (commands0 : List DeliveryCommand) (total0 : Nat)
    (cur : G) (commands1 : List DeliveryCommand) (total1 : Nat) (r : DeliveryResult)
    (hdone : deliveryLoop router distanceEarthMiles angleOfLine angleBetween2Lines depot done
      commands0 0 = LoopOutcome.finished cur commands1 total1)
    (hbad : r = DeliveryResult.NO_ROUTE ∨ r = DeliveryResult.BAD_COORD) :
    (∀ (x : DeliveryRequest G) (todo : List (DeliveryRequest G))
        (route : List (StreetSegment G)) (d : Nat),
      cur ≠ x.location → router cur x.location = Outcome.returned r route d →
      generateDeliveryPlan router distanceEarthMiles angleOfLine angleBetween2Lines depot
          (done ++ x :: todo) commands0 total0
        = PlanOutcome.returned r commands1 total1)
      ∧ (∀ (route : List (StreetSegment G)) (d : Nat),
        cur ≠ depot → router cur depot = Outcome.returned r route d →
        generateDeliveryPlan router distanceEarthMiles angleOfLine angleBetween2Lines depot
            done commands0 total0
          = PlanOutcome.returned r commands1 total1)
      ∧ cur = currentPosition depot done := by
  refine ⟨?_, ?_, deliveryLoop_finished_position _ _ _ _ _ _ _ _ _ _ _ hdone⟩
  · intro x todo route d hx hr
    apply plan_of_left
    rw [deliveryLoop_append _ _ _ _ _ _ _ _ _ _ _ _ hdone]
    exact deliveryLoop_fail _ _ _ _ _ _ _ _ _ hx r _ _
      (navigate_failure _ _ _ _ _ _ _ _ r route d hx hr hbad) hbad
  · intro route d hx hr
    rw [plan_of_finished _ _ _ _ _ _ _ _ _ _ _ hdone]
    exact navigate_failure _ _ _ _ _ _ _ _ r route d hx hr hbad

/-- Witness for C16 on `splitMap`: the leg from the depot `0` to `1` succeeds, `5` is not
reachable from `1`, and the plan for the requests at `1`, `5` and `6` returns `NO_ROUTE`
with the commands of the first leg and its deliver command. -/
theorem failure_propagates_witness :
    deliveryLoop (ptopRouter id lineDistance splitMap 10 10) lineDistance bearingEast
        (turnAngle 90) 0 [⟨"x", 1⟩] [] 0
      = LoopOutcome.finished 1
          [DeliveryCommand.proceed "east" "x" 1, DeliveryCommand.deliver "x"] 1
      ∧ (DeliveryResult.NO_ROUTE = DeliveryResult.NO_ROUTE
          ∨ DeliveryResult.NO_ROUTE = DeliveryResult.BAD_COORD)
      ∧ (1 : Nat) ≠ (⟨"y", 5⟩ : DeliveryRequest Nat).location
      ∧ ptopRouter id lineDistance splitMap 10 10 1 5
          = Outcome.returned DeliveryResult.NO_ROUTE [] 0
      ∧ generateDeliveryPlan (ptopRouter id lineDistance splitMap 10 10) lineDistance
          bearingEast (turnAngle 90) 0 ([⟨"x", 1⟩] ++ ⟨"y", 5⟩ :: [⟨"z", 6⟩]) [] 9
        = PlanOutcome.returned DeliveryResult.NO_ROUTE
            [DeliveryCommand.proceed "east" "x" 1, DeliveryCommand.deliver "x"] 1 :=
  ⟨splitMap_loop, Or.inl rfl, by decide, splitMap_no_route,
    (failure_propagates (ptopRouter id lineDistance splitMap 10 10) lineDistance bearingEast
      (turnAngle 90) 0 [⟨"x", 1⟩] [] 9 1 _ 1 DeliveryResult.NO_ROUTE splitMap_loop
      (Or.inl rfl)).1 ⟨"y", 5⟩ [⟨"z", 6⟩] [] 0 (by decide) splitMap_no_route⟩

/-- C17: when the plan returns `DELIVERY_SUCCESS`, the commands it appended are, for each
request in input order, the commands of the leg from the previous position to the
location of the request followed by the deliver command of its item, and then the
commands of the leg from the last position back to the depot; the deliver commands among
them are those of the request items, once each and in input order. -/
theorem plan_is_sequential {G : Type} [DecidableEq G] (router : G → G → Outcome G)
    (distanceEarthMiles : G → G → Nat) (angleOfLine : StreetSegment G → ℚ)
    (angleBetween2Lines : StreetSegment G → StreetSegment G → ℚ) (depot : G)
    (reqs : List (DeliveryRequest G)) (commands0 : List DeliveryCommand) (total0 : Nat)
    (commands : List DeliveryCommand) (total : Nat)
    (h : generateDeliveryPlan router distanceEarthMiles angleOfLine angleBetween2Lines depot
      reqs commands0 total0
      = PlanOutcome.returned DeliveryResult.DELIVERY_SUCCESS commands total) :
    ∃ appended,
      planCommands router distanceEarthMiles angleOfLine angleBetween2Lines depot depot reqs
          = some appended
        ∧ commands = commands0 ++ appended
        ∧ appended.filter DeliveryCommand.isDeliver
            = reqs.map (fun r => DeliveryCommand.deliver r.item) := by
  cases hloop : deliveryLoop router distanceEarthMiles angleOfLine angleBetween2Lines depot
      reqs commands0 0 with
  | finished cur1 commands1 total1 =>
    rw [plan_of_finished _ _ _ _ _ _ _ _ _ _ _ hloop] at h
    exact plan_structure _ _ _ _ _ _ _ _ _ _ _ _ _ _ hloop h
  | left out =>
    rw [plan_of_left _ _ _ _ _ _ _ _ _ hloop] at h
    exact absurd h (deliveryLoop_left_not_success _ _ _ _ _ _ _ _ _ hloop _ _)

/-- The plan on `lineMap` for the depot `0` and one request at `2`. -/
theorem lineMap_plan :
    generateDeliveryPlan (ptopRouter id lineDistance lineMap 10 10) lineDistance bearingEast
        (turnAngle 90) 0 [⟨"book", 2⟩] [] 7
      = PlanOutcome.returned DeliveryResult.DELIVERY_SUCCESS
          ([] ++ [DeliveryCommand.proceed "east" "x" 1, DeliveryCommand.turn "left" "y",
            DeliveryCommand.proceed "east" "y" 1, DeliveryCommand.deliver "book",
            DeliveryCommand.proceed "east" "y" 1, DeliveryCommand.turn "left" "x",
            DeliveryCommand.proceed "east" "x" 1]) 4 := by
  rw [plan_of_finished _ _ _ _ _ _ _ _ _ _ _ lineMap_loop, lineMap_leg_back]
  rfl

/-- Witness for C17 on `lineMap`: depot `0`, one request at `2`. -/
theorem plan_is_sequential_witness :
    generateDeliveryPlan (ptopRouter id lineDistance lineMap 10 10) lineDistance bearingEast
        (turnAngle 90) 0 [⟨"book", 2⟩] [] 7
      = PlanOutcome.returned DeliveryResult.DELIVERY_SUCCESS
          ([] ++ [DeliveryCommand.proceed "east" "x" 1, DeliveryCommand.turn "left" "y",
            DeliveryCommand.proceed "east" "y" 1, DeliveryCommand.deliver "book",
            DeliveryCommand.proceed "east" "y" 1, DeliveryCommand.turn "left" "x",
            DeliveryCommand.proceed "east" "x" 1]) 4
      ∧ ∃ appended,
        planCommands (ptopRouter id lineDistance lineMap 10 10) lineDistance bearingEast
            (turnAngle 90) 0 0 [⟨"book", 2⟩] = some appended
          ∧ ([] ++ [DeliveryCommand.proceed "east" "x" 1, DeliveryCommand.turn "left" "y",
              DeliveryCommand.proceed "east" "y" 1, DeliveryCommand.deliver "book",
              DeliveryCommand.proceed "east" "y" 1, DeliveryCommand.turn "left" "x",
              DeliveryCommand.proceed "east" "x" 1]) = [] ++ appended
          ∧ appended.filter DeliveryCommand.isDeliver
              = [(⟨"book", 2⟩ : DeliveryRequest Nat)].map
                  (fun r => DeliveryCommand.deliver r.item) :=
  ⟨lineMap_plan,
    plan_is_sequential (ptopRouter id lineDistance lineMap 10 10) lineDistance bearingEast
      (turnAngle 90) 0 [⟨"book", 2⟩] [] 7 _ 4 lineMap_plan⟩

end PlanClaims

/-! ## Claims about the processed set and the load factor -/

section SetAndLoadClaims

open ExpandableHashMap

/-- C18: the code settles and expands one coordinate more than once. On `splitMap`, a
well-formed graph, the call from `0` to `5` returns `NO_ROUTE` after inserting three
entries into `processed` and expanding each: the start `0` with distance 0, `1` with
distance 1, and the start `0` again with distance `MAX_DOUBLE`, because the popped entry
is looked up in `processed` by its distance only. -/
theorem start_is_expanded_twice :
    WellFormed id splitMap
      ∧ generatePointToPointRoute id lineDistance splitMap 0 5 [] 0 10 10
          = Outcome.returned DeliveryResult.NO_ROUTE [] 0
      ∧ settledEntries id lineDistance splitMap 5 10 (initialState id 0)
          = [⟨0, 0⟩, ⟨1, 1⟩, ⟨0, MAX_DOUBLE⟩] :=
  ⟨wellFormed_of_check id splitMap (by decide), by decide, by decide⟩

/-- C19 as stated fails: with the positive maximum load factor 1/100, after the first
`associate` call the map has 1 pair in 16 buckets, and 1/16 exceeds 1/100. -/
theorem load_bound_fails_for_small_factor :
    0 < (⟨1, 100⟩ : LoadFactor).num ∧ 0 < (⟨1, 100⟩ : LoadFactor).den
      ∧ (associate id (create ⟨1, 100⟩ : ExpandableHashMap Nat Nat) 0 0).size = 1
      ∧ (associate id (create ⟨1, 100⟩ : ExpandableHashMap Nat Nat) 0 0).m_buckets = 16
      ∧ ¬ ((associate id (create ⟨1, 100⟩ : ExpandableHashMap Nat Nat) 0 0).size * 100
          ≤ 1 * (associate id (create ⟨1, 100⟩ : ExpandableHashMap Nat Nat) 0 0).m_buckets) := by
  decide

/-- C19 amended: for a map constructed with a maximum load factor `num / den` of at least
1/16 and every run of `associate` calls, `size() / bucketCount` is at most `num / den`
after the run, hence after each call. -/
theorem load_bound_from_one_sixteenth {K V : Type} [DecidableEq K] (hasher : K → Nat)
    (lf : LoadFactor) (kvs : List (K × V)) (hden : 0 < lf.den) (h16 : lf.den ≤ 16 * lf.num) :
    (associateAll hasher (create lf) kvs).size * lf.den
      ≤ lf.num * (associateAll hasher (create lf) kvs).m_buckets :=
  (load_bound_of_reachable hasher lf hden h16 _
    (reachable_associateAll hasher _ (Reachable.create lf) kvs)
    (by rw [loadFactor_associateAll]; rfl)).1

/-- Witness for the amended C19: maximum load factor 1/10 and three keys. -/
theorem load_bound_from_one_sixteenth_witness :
    0 < (⟨1, 10⟩ : LoadFactor).den
      ∧ (⟨1, 10⟩ : LoadFactor).den ≤ 16 * (⟨1, 10⟩ : LoadFactor).num
      ∧ (associateAll id (create ⟨1, 10⟩ : ExpandableHashMap Nat Nat)
            [(0, 0), (1, 1), (2, 2)]).size * (⟨1, 10⟩ : LoadFactor).den
          ≤ (⟨1, 10⟩ : LoadFactor).num
            * (associateAll id (create ⟨1, 10⟩ : ExpandableHashMap Nat Nat)
                [(0, 0), (1, 1), (2, 2)]).m_buckets :=
  ⟨by decide, by decide,
    load_bound_from_one_sixteenth id ⟨1, 10⟩ [(0, 0), (1, 1), (2, 2)] (by decide)
      (by decide)⟩

/-- C20: a map constructed with the default maximum load factor 0.5 starts with 8
buckets; in every state reached by `associate` and `reset` calls `2 * size()` is at most
the bucket count; an `associate` call doubles the bucket count exactly when the key is
absent and `size + 1` exceeds half the bucket count, and leaves it unchanged otherwise;
and the bound holds again after the call, so one doubling suffices. -/
theorem default_load_bound {K V : Type} [DecidableEq K] (hasher : K → Nat)
    (m : ExpandableHashMap K V) (key : K) (value : V) (hm : Reachable hasher m)
    (hlf : m.m_loadFactor = defaultLoadFactor) :
    (create defaultLoadFactor : ExpandableHashMap K V).m_buckets = 8
      ∧ 2 * m.size ≤ m.m_buckets
      ∧ (associate hasher m key value).m_buckets
          = (if (find hasher m key).isNone = true ∧ m.m_buckets < 2 * (m.size + 1) then
              m.m_buckets * 2 else m.m_buckets)
      ∧ 2 * (associate hasher m key value).size ≤ (associate hasher m key value).m_buckets := by
  have h1 := load_bound_of_reachable hasher defaultLoadFactor (by decide) (by decide) m hm hlf
  have h2 := load_bound_of_reachable hasher defaultLoadFactor (by decide) (by decide) _
    (Reachable.associate m key value hm) (by rw [loadFactor_associate]; exact hlf)
  refine ⟨rfl, ?_, ?_, ?_⟩
  · have := h1.1
    simp only [defaultLoadFactor, size] at this ⊢
    omega
  · rw [buckets_associate]
    have ho : (overLoad m = true) ↔ m.m_buckets < 2 * (m.size + 1) := by
      simp only [overLoad, hlf, defaultLoadFactor, decide_eq_true_eq, size]
      omega
    simp only [ho]
  · have := h2.1
    simp only [defaultLoadFactor, size] at this ⊢
    omega

/-- Witness for C20: the default map with four keys, where the fifth doubles the 8
buckets. -/
theorem default_load_bound_witness :
    Reachable id fourKeys ∧ fourKeys.m_loadFactor = defaultLoadFactor
      ∧ fourKeys.size = 4 ∧ fourKeys.m_buckets = 8
      ∧ (associate id fourKeys 4 14).m_buckets = 16
      ∧ ((create defaultLoadFactor : ExpandableHashMap Nat Nat).m_buckets = 8
        ∧ 2 * fourKeys.size ≤ fourKeys.m_buckets
        ∧ (associate id fourKeys 4 14).m_buckets
            = (if (find id fourKeys 4).isNone = true
                  ∧ fourKeys.m_buckets < 2 * (fourKeys.size + 1) then
                fourKeys.m_buckets * 2 else fourKeys.m_buckets)
        ∧ 2 * (associate id fourKeys 4 14).size ≤ (associate id fourKeys 4 14).m_buckets) :=
  ⟨reachable_associateAll id _ (Reachable.create defaultLoadFactor) _, by decide, by decide,
    by decide, by decide,
    default_load_bound id fourKeys 4 14
      (reachable_associateAll id _ (Reachable.create defaultLoadFactor) _) (by decide)⟩

end SetAndLoadClaims

/-! ## Distances of a plan and plans without travel -/

section PlanDistanceLemmas

variable {G : Type} [DecidableEq G]

theorem legDistance_of_navigate (router : G → G → Outcome G)
    (distanceEarthMiles : G → G → Nat) (angleOfLine : StreetSegment G → ℚ)
    (angleBetween2Lines : StreetSegment G → StreetSegment G → ℚ) (a b : G)
    (commands : List DeliveryCommand) (total : Nat) (commands1 : List DeliveryCommand)
    (total1 : Nat)
    (h : navigate router distanceEarthMiles angleOfLine angleBetween2Lines a b commands total
      = PlanOutcome.returned DeliveryResult.DELIVERY_SUCCESS commands1 total1) :
    ∃ d, legDistance router a b = some d ∧ total1 = total + d := by
  by_cases hab : a = b
  · subst hab
    rw [navigate_same] at h
    simp only [PlanOutcome.returned.injEq, true_and] at h
    exact ⟨0, by simp [legDistance], by omega⟩
  · cases hr : router a b with
    | returned r0 route d =>
      by_cases hbad : r0 = DeliveryResult.NO_ROUTE ∨ r0 = DeliveryResult.BAD_COORD
      · rw [navigate_failure _ _ _ _ _ _ _ _ r0 route d hab hr hbad] at h
        simp only [PlanOutcome.returned.injEq] at h
        rcases hbad with e | e <;> rw [e] at h <;> simp at h
      · have hs : r0 = DeliveryResult.DELIVERY_SUCCESS := by
          cases r0 <;> simp at hbad ⊢
        subst hs
        rw [navigate_success _ _ _ _ _ _ _ _ route d hab hr] at h
        simp only [PlanOutcome.returned.injEq, true_and] at h
        exact ⟨d, by simp [legDistance, hab, hr], h.2.symm⟩
    | nullDistance => simp [navigate, hab, hr] at h
    | nullSegment => simp [navigate, hab, hr] at h
    | searchCutOff => simp [navigate, hab, hr] at h
    | walkCutOff => simp [navigate, hab, hr] at h

/-- The total of a successful plan, from any state of the loop on. -/
theorem plan_distance (router : G → G → Outcome G) (distanceEarthMiles : G → G → Nat)
    (angleOfLine : StreetSegment G → ℚ)
    (angleBetween2Lines : StreetSegment G → StreetSegment G → ℚ) (depot : G)
    (reqs : List (DeliveryRequest G)) (cur : G) (commands0 : List DeliveryCommand)
    (total0 : Nat) (cur1 : G) (commands1 : List DeliveryCommand) (total1 : Nat)
    (commands : List DeliveryCommand) (total : Nat)
    (hloop : deliveryLoop router distanceEarthMiles angleOfLine angleBetween2Lines cur reqs
      commands0 total0 = LoopOutcome.finished cur1 commands1 total1)
    (hback : navigate router distanceEarthMiles angleOfLine angleBetween2Lines cur1 depot
      commands1 total1 = PlanOutcome.returned DeliveryResult.DELIVERY_SUCCESS commands total) :
    ∃ s, planDistance router depot cur reqs = some s ∧ total = total0 + s := by
  induction reqs generalizing cur commands0 total0 with
  | nil =>
    simp only [deliveryLoop, LoopOutcome.finished.injEq] at hloop
    rw [← hloop.1, ← hloop.2.1, ← hloop.2.2] at hback
    rcases legDistance_of_navigate _ _ _ _ _ _ _ _ _ _ hback with ⟨d, hd, ht⟩
    exact ⟨d, by simp only [planDistance, hd], ht⟩
  | cons x rest ih =>
    rcases deliveryLoop_cases router distanceEarthMiles angleOfLine angleBetween2Lines cur x
      rest commands0 total0 with ⟨hx, h1⟩ | ⟨hx, c1, t1, hnav, h1⟩ | ⟨o, h1, _⟩
    · rw [h1] at hloop
      rcases ih _ _ _ hloop with ⟨s, hs, ht⟩
      refine ⟨0 + s, ?_, by omega⟩
      have hleg : legDistance router cur x.location = some 0 := by simp [legDistance, hx]
      simp only [planDistance, hleg, hs]
    · rw [h1] at hloop
      rcases ih _ _ _ hloop with ⟨s, hs, ht⟩
      rcases legDistance_of_navigate _ _ _ _ _ _ _ _ _ _ hnav with ⟨d, hd, htd⟩
      refine ⟨d + s, ?_, by omega⟩
      simp only [planDistance, hd, hs]
    · rw [h1] at hloop
      simp at hloop

theorem deliveryLoop_at_depot (router : G → G → Outcome G)
    (distanceEarthMiles : G → G → Nat) (angleOfLine : StreetSegment G → ℚ)
    (angleBetween2Lines : StreetSegment G → StreetSegment G → ℚ) (depot : G)
    (reqs : List (DeliveryRequest G)) (commands : List DeliveryCommand) (total : Nat)
    (h : ∀ x ∈ reqs, x.location = depot) :
    deliveryLoop router distanceEarthMiles angleOfLine angleBetween2Lines depot reqs commands
        total
      = LoopOutcome.finished depot
          (commands ++ reqs.map (fun r => DeliveryCommand.deliver r.item)) total := by
  induction reqs generalizing commands with
  | nil => simp [deliveryLoop]
  | cons x rest ih =>
    have hx := h x (List.mem_cons_self _ _)
    rw [deliveryLoop_same _ _ _ _ _ _ _ _ _ hx, hx,
      ih _ (fun y hy => h y (List.mem_cons_of_mem _ hy))]
    simp

end PlanDistanceLemmas

/-! ## Storage of the street map and the bucket count -/

section StorageLemmas

open ExpandableHashMap

variable {G : Type} [DecidableEq G]

theorem wf_insertSegment (hasher : G → Nat) (sm : StreetMapImpl G)
    (hsm : WF hasher sm.m_coordToSegmentMap) (s : StreetSegment G) :
    WF hasher (sm.insertSegment hasher s).m_coordToSegmentMap := by
  unfold StreetMapImpl.insertSegment
  cases hf : find hasher sm.m_coordToSegmentMap s.start with
  | none => exact wf_associate hasher _ hsm _ _
  | some f => exact wf_overwrite hasher _ hsm _ _

theorem find_insertSegment (hasher : G → Nat) (sm : StreetMapImpl G)
    (hsm : WF hasher sm.m_coordToSegmentMap) (s : StreetSegment G) (c : G) :
    (sm.insertSegment hasher s).getSegmentsThatStartWith hasher c
      = if c = s.start then
          some ((sm.getSegmentsThatStartWith hasher s.start).getD [] ++ [s])
        else sm.getSegmentsThatStartWith hasher c := by
  unfold StreetMapImpl.getSegmentsThatStartWith StreetMapImpl.insertSegment
  cases hf : find hasher sm.m_coordToSegmentMap s.start with
  | none =>
    simp only [Option.getD_none, List.nil_append]
    exact find_associate hasher _ hsm _ _ _
  | some f =>
    simp only [Option.getD_some]
    exact find_overwrite hasher _ hsm _ _ f hf c

theorem segmentsFrom_append (c : G) (l1 l2 : List (StreetSegment G)) :
    segmentsFrom c (l1 ++ l2) = segmentsFrom c l1 ++ segmentsFrom c l2 := by
  simp [segmentsFrom]

theorem getD_reported (segs : List (StreetSegment G)) : (reported segs).getD [] = segs := by
  unfold reported
  by_cases h : segs = []
  · simp [h]
  · simp [h]

/-- The stored lists after a run of `insertSegment` calls on a map that stores the
segments `done`. -/
theorem storage_insertSegments (hasher : G → Nat) (segs : List (StreetSegment G))
    (sm : StreetMapImpl G) (done : List (StreetSegment G))
    (hsm : WF hasher sm.m_coordToSegmentMap)
    (hfind : ∀ c, sm.getSegmentsThatStartWith hasher c = reported (segmentsFrom c done)) :
    WF hasher (sm.insertSegments hasher segs).m_coordToSegmentMap
      ∧ ∀ c, (sm.insertSegments hasher segs).getSegmentsThatStartWith hasher c
          = reported (segmentsFrom c (done ++ segs)) := by
  induction segs generalizing sm done with
  | nil => simpa [StreetMapImpl.insertSegments] using ⟨hsm, hfind⟩
  | cons s rest ih =>
    have hstep : ∀ c, (sm.insertSegment hasher s).getSegmentsThatStartWith hasher c
        = reported (segmentsFrom c (done ++ [s])) := by
      intro c
      rw [find_insertSegment hasher sm hsm s c, segmentsFrom_append]
      by_cases hc : c = s.start
      · rw [if_pos hc, hfind, getD_reported, hc]
        simp [segmentsFrom, reported]
      · rw [if_neg hc, hfind]
        have : ¬ s.start = c := fun e => hc e.symm
        simp [segmentsFrom, this]
    have := ih (sm.insertSegment hasher s) (done ++ [s]) (wf_insertSegment hasher sm hsm s)
      hstep
    simpa [StreetMapImpl.insertSegments] using this

theorem loadSegments_eq (hasher : G → Nat) (lines : List (G × G × String))
    (sm : StreetMapImpl G) :
    StreetMapImpl.loadSegments hasher sm lines
      = sm.insertSegments hasher (opposingSegments lines) := by
  induction lines generalizing sm with
  | nil => rfl
  | cons line rest ih =>
    rcases line with ⟨new1, new2, streetName⟩
    simp only [StreetMapImpl.loadSegments, opposingSegments, StreetMapImpl.insertSegments,
      List.foldl_cons]
    exact ih _

theorem mem_opposingSegments (lines : List (G × G × String)) (p q : G) (name : String)
    (h : (p, q, name) ∈ lines) :
    (⟨p, q, name⟩ : StreetSegment G) ∈ opposingSegments lines
      ∧ (⟨q, p, name⟩ : StreetSegment G) ∈ opposingSegments lines := by
  induction lines with
  | nil => simp at h
  | cons line rest ih =>
    rcases line with ⟨new1, new2, streetName⟩
    rcases List.mem_cons.1 h with e | e
    · simp only [Prod.mk.injEq] at e
      rcases e with ⟨rfl, rfl, rfl⟩
      simp [opposingSegments]
    · have := ih e
      simp [opposingSegments, this.1, this.2]

theorem getSegments_create (hasher : G → Nat) (c : G) :
    (StreetMapImpl.create : StreetMapImpl G).getSegmentsThatStartWith hasher c = none := by
  unfold StreetMapImpl.getSegmentsThatStartWith StreetMapImpl.create
  exact find_create hasher _ c

theorem pow2_buckets_of_reachable {K V : Type} [DecidableEq K] (hasher : K → Nat)
    (m : ExpandableHashMap K V) (hm : Reachable hasher m) :
    ∃ j, m.m_buckets = 8 * 2 ^ j := by
  induction hm with
  | create lf => exact ⟨0, rfl⟩
  | reset m0 _ _ => exact ⟨0, rfl⟩
  | associate m0 key value _ ih =>
    rcases ih with ⟨j, hj⟩
    rw [buckets_associate]
    split
    · exact ⟨j + 1, by rw [hj, pow_succ]; ring⟩
    · exact ⟨j, hj⟩

theorem placed_of_wf {K V : Type} [DecidableEq K] (hasher : K → Nat)
    (m : ExpandableHashMap K V) (hm : WF hasher m) (i : Nat) :
    (∀ kv ∈ (bucketAt m.m_hashmap i).1, hasher kv.1 % m.m_buckets = i)
      ∧ ((bucketAt m.m_hashmap i).1 ≠ [] → (bucketAt m.m_hashmap i).2 = true) := by
  by_cases hi : i < m.m_hashmap.length
  · have := bucketsOk_bucketAt hasher _ 0 _ hm.buckets_ok i hi
    rw [Nat.zero_add] at this
    exact ⟨this.1, this.2.2⟩
  · rw [bucketAt_of_length_le _ _ (Nat.le_of_not_lt hi)]
    simp

end StorageLemmas

/-! ## Termination of the search loop -/

section TerminationLemmas

open ExpandableHashMap

variable {G : Type} [DecidableEq G]

end TerminationLemmas

/-! ## Plan distance, graph storage, the structural invariant, plans without travel -/

section LastClaims

open ExpandableHashMap

/-- C22: for every router, depot, request list, command vector and initial value
`total0` of the output variable, when `generateDeliveryPlan` returns `DELIVERY_SUCCESS`
with the total `total`, then `total` is the sum `planDistance` of the distances the
router returned for the routed legs (each request whose location differs from the
current position, and the leg back to the depot when the last position differs from the
depot; a leg between equal positions is not routed and adds `0`). The sum does not
mention `total0`: the value the variable held before the call does not contribute. -/
theorem plan_total_is_sum_of_legs {G : Type} [DecidableEq G] (router : G → G → Outcome G)
    (distanceEarthMiles : G → G → Nat) (angleOfLine : StreetSegment G → ℚ)
    (angleBetween2Lines : StreetSegment G → StreetSegment G → ℚ) (depot : G)
    (reqs : List (DeliveryRequest G)) (commands0 : List DeliveryCommand) (total0 : Nat)
    (commands : List DeliveryCommand) (total : Nat)
    (h : generateDeliveryPlan router distanceEarthMiles angleOfLine angleBetween2Lines depot
      reqs commands0 total0
        = PlanOutcome.returned DeliveryResult.DELIVERY_SUCCESS commands total) :
    planDistance router depot depot reqs = some total := by
  cases hloop : deliveryLoop router distanceEarthMiles angleOfLine angleBetween2Lines depot
      reqs commands0 0 with
  | finished cur1 commands1 total1 =>
    rw [plan_of_finished _ _ _ _ _ _ _ _ _ _ _ hloop] at h
    rcases plan_distance _ _ _ _ _ _ _ _ _ _ _ _ _ _ hloop h with ⟨s, hs, ht⟩
    rw [hs, ht, Nat.zero_add]
  | left out =>
    rw [plan_of_left _ _ _ _ _ _ _ _ _ hloop] at h
    exact absurd h (deliveryLoop_left_not_success _ _ _ _ _ _ _ _ _ hloop _ _)

/-- Witness for C22 on `lineMap`: depot `0`, one request at `2`, the output variable
holds `7` before the call and `4 = 2 + 2` after it. -/
theorem plan_total_is_sum_of_legs_witness :
    generateDeliveryPlan (ptopRouter id lineDistance lineMap 10 10) lineDistance bearingEast
        (turnAngle 90) 0 [⟨"book", 2⟩] [] 7
      = PlanOutcome.returned DeliveryResult.DELIVERY_SUCCESS
          ([] ++ [DeliveryCommand.proceed "east" "x" 1, DeliveryCommand.turn "left" "y",
            DeliveryCommand.proceed "east" "y" 1, DeliveryCommand.deliver "book",
            DeliveryCommand.proceed "east" "y" 1, DeliveryCommand.turn "left" "x",
            DeliveryCommand.proceed "east" "x" 1]) 4
      ∧ planDistance (ptopRouter id lineDistance lineMap 10 10) 0 0 [⟨"book", 2⟩] = some 4 :=
  ⟨lineMap_plan, plan_total_is_sum_of_legs _ _ _ _ _ _ _ _ _ _ lineMap_plan⟩

/-- C23: after any run `segs` of `insertSegment` calls on an empty `StreetMapImpl`,
`getSegmentsThatStartWith(c)` returns false when no inserted segment starts at `c`, and
otherwise returns true with exactly the inserted segments whose start equals `c`, in
insertion order; `load` inserts each line `(p, q, name)` as the two opposing segments, so
that after loading `lines` the list of `p` holds the segment to `q` and the list of `q`
holds the segment to `p`. -/
theorem graph_storage {G : Type} [DecidableEq G] (hasher : G → Nat)
    (segs : List (StreetSegment G)) (c : G) (lines : List (G × G × String)) (p q : G)
    (name : String) (h : (p, q, name) ∈ lines) :
    (StreetMapImpl.create.insertSegments hasher segs).getSegmentsThatStartWith hasher c
        = reported (segmentsFrom c segs)
      ∧ ((∀ s ∈ segs, s.start ≠ c) →
          (StreetMapImpl.create.insertSegments hasher segs).getSegmentsThatStartWith hasher c
            = none)
      ∧ ((∃ s ∈ segs, s.start = c) →
          (StreetMapImpl.create.insertSegments hasher segs).getSegmentsThatStartWith hasher c
            = some (segs.filter (fun s => decide (s.start = c))))
      ∧ StreetMapImpl.loadSegments hasher StreetMapImpl.create lines
          = StreetMapImpl.create.insertSegments hasher (opposingSegments lines)
      ∧ (∃ fromP, (StreetMapImpl.loadSegments hasher StreetMapImpl.create
            lines).getSegmentsThatStartWith hasher p = some fromP
          ∧ (⟨p, q, name⟩ : StreetSegment G) ∈ fromP)
      ∧ (∃ fromQ, (StreetMapImpl.loadSegments hasher StreetMapImpl.create
            lines).getSegmentsThatStartWith hasher q = some fromQ
          ∧ (⟨q, p, name⟩ : StreetSegment G) ∈ fromQ) := by
  have hall : ∀ (l : List (StreetSegment G)) (c : G),
      (StreetMapImpl.create.insertSegments hasher l).getSegmentsThatStartWith hasher c
        = reported (segmentsFrom c l) := by
    intro l c
    have := (storage_insertSegments hasher l StreetMapImpl.create []
      (wf_create hasher _) (fun c => by
        rw [getSegments_create]; simp [segmentsFrom, reported])).2 c
    simpa using this
  have hmem : ∀ (l : List (StreetSegment G)) (s : StreetSegment G), s ∈ l →
      ∃ found, (StreetMapImpl.create.insertSegments hasher l).getSegmentsThatStartWith hasher
        s.start = some found ∧ s ∈ found := by
    intro l s hs
    have hin : s ∈ segmentsFrom s.start l := by simp [segmentsFrom, hs]
    refine ⟨segmentsFrom s.start l, ?_, hin⟩
    rw [hall, reported, if_neg (List.ne_nil_of_mem hin)]
  refine ⟨hall segs c, ?_, ?_, loadSegments_eq hasher lines _, ?_, ?_⟩
  · intro hno
    rw [hall]
    have : segmentsFrom c segs = [] := by
      simp only [segmentsFrom, List.filter_eq_nil_iff, decide_eq_true_eq]
      exact hno
    rw [this]; rfl
  · rintro ⟨s, hs, hsc⟩
    rw [hall]
    have hin : s ∈ segmentsFrom c segs := by simp [segmentsFrom, hs, hsc]
    rw [reported, if_neg (List.ne_nil_of_mem hin)]
    rfl
  · rw [loadSegments_eq]
    exact hmem _ _ (mem_opposingSegments lines p q name h).1
  · rw [loadSegments_eq]
    exact hmem _ _ (mem_opposingSegments lines p q name h).2

/-- Witness for C23: three inserted segments read at `0`, and the two lines of `lineMap`
read at the two ends of the second line. -/
theorem graph_storage_witness :
    ((1, 2, "y") ∈ [((0 : Nat), (1 : Nat), "x"), (1, 2, "y")])
      ∧ ((StreetMapImpl.create.insertSegments id
            [(⟨0, 1, "x"⟩ : StreetSegment Nat), ⟨1, 0, "x"⟩,
              ⟨0, 2, "z"⟩]).getSegmentsThatStartWith id 0
          = reported (segmentsFrom 0 [(⟨0, 1, "x"⟩ : StreetSegment Nat), ⟨1, 0, "x"⟩,
              ⟨0, 2, "z"⟩])
        ∧ ((∀ s ∈ [(⟨0, 1, "x"⟩ : StreetSegment Nat), ⟨1, 0, "x"⟩, ⟨0, 2, "z"⟩],
              s.start ≠ 0) →
            (StreetMapImpl.create.insertSegments id
              [(⟨0, 1, "x"⟩ : StreetSegment Nat), ⟨1, 0, "x"⟩,
                ⟨0, 2, "z"⟩]).getSegmentsThatStartWith id 0 = none)
        ∧ ((∃ s ∈ [(⟨0, 1, "x"⟩ : StreetSegment Nat), ⟨1, 0, "x"⟩, ⟨0, 2, "z"⟩],
              s.start = 0) →
            (StreetMapImpl.create.insertSegments id
              [(⟨0, 1, "x"⟩ : StreetSegment Nat), ⟨1, 0, "x"⟩,
                ⟨0, 2, "z"⟩]).getSegmentsThatStartWith id 0
              = some ([(⟨0, 1, "x"⟩ : StreetSegment Nat), ⟨1, 0, "x"⟩,
                  ⟨0, 2, "z"⟩].filter (fun s => decide (s.start = 0))))
        ∧ StreetMapImpl.loadSegments id StreetMapImpl.create
              [((0 : Nat), (1 : Nat), "x"), (1, 2, "y")]
            = StreetMapImpl.create.insertSegments id
                (opposingSegments [((0 : Nat), (1 : Nat), "x"), (1, 2, "y")])
        ∧ (∃ fromP, (StreetMapImpl.loadSegments id StreetMapImpl.create
              [((0 : Nat), (1 : Nat), "x"), (1, 2, "y")]).getSegmentsThatStartWith id 1
              = some fromP
            ∧ (⟨1, 2, "y"⟩ : StreetSegment Nat) ∈ fromP)
        ∧ (∃ fromQ, (StreetMapImpl.loadSegments id StreetMapImpl.create
              [((0 : Nat), (1 : Nat), "x"), (1, 2, "y")]).getSegmentsThatStartWith id 2
              = some fromQ
            ∧ (⟨2, 1, "y"⟩ : StreetSegment Nat) ∈ fromQ)) :=
  ⟨by decide, graph_storage id _ 0 _ 1 2 "y" (by decide)⟩

/-- C24: in every state reachable from construction by `associate` and `reset`, every
stored (key, value) pair lies in the bucket with index `hash(key) mod bucketCount` (and
every pair of bucket `i` has that index `i`), no key occurs in more than one stored pair,
`m_size` equals the total number of stored pairs, the used flag of a bucket is set
whenever its chain is non-empty, the array has `bucketCount` buckets, and `bucketCount`
is `8 * 2^j` for some `j`. -/
theorem structural_invariant {K V : Type} [DecidableEq K] (hasher : K → Nat)
    (m : ExpandableHashMap K V) (hm : Reachable hasher m) :
    (∀ kv ∈ entries m.m_hashmap, kv ∈ (bucketAt m.m_hashmap (hasher kv.1 % m.m_buckets)).1)
      ∧ (∀ i, ∀ kv ∈ (bucketAt m.m_hashmap i).1, hasher kv.1 % m.m_buckets = i)
      ∧ ((entries m.m_hashmap).map Prod.fst).Nodup
      ∧ m.m_size = (entries m.m_hashmap).length
      ∧ (∀ i, (bucketAt m.m_hashmap i).1 ≠ [] → (bucketAt m.m_hashmap i).2 = true)
      ∧ m.m_hashmap.length = m.m_buckets
      ∧ ∃ j, m.m_buckets = 8 * 2 ^ j := by
  have hwf := wf_of_reachable hasher m hm
  refine ⟨?_, fun i => (placed_of_wf hasher m hwf i).1,
    nodup_keys_entries hasher _ 0 _ hwf.buckets_ok, hwf.size_eq,
    fun i => (placed_of_wf hasher m hwf i).2, hwf.length_eq,
    pow2_buckets_of_reachable hasher m hm⟩
  intro kv hkv
  have := (hash_of_mem_entries hasher _ 0 _ hwf.buckets_ok kv hkv).2
  simpa using this

/-- Witness for C24: the default map after four `associate` calls. -/
theorem structural_invariant_witness :
    Reachable id fourKeys
      ∧ ((∀ kv ∈ entries fourKeys.m_hashmap,
            kv ∈ (bucketAt fourKeys.m_hashmap (id kv.1 % fourKeys.m_buckets)).1)
        ∧ (∀ i, ∀ kv ∈ (bucketAt fourKeys.m_hashmap i).1, id kv.1 % fourKeys.m_buckets = i)
        ∧ ((entries fourKeys.m_hashmap).map Prod.fst).Nodup
        ∧ fourKeys.m_size = (entries fourKeys.m_hashmap).length
        ∧ (∀ i, (bucketAt fourKeys.m_hashmap i).1 ≠ [] →
            (bucketAt fourKeys.m_hashmap i).2 = true)
        ∧ fourKeys.m_hashmap.length = fourKeys.m_buckets
        ∧ ∃ j, fourKeys.m_buckets = 8 * 2 ^ j) :=
  ⟨reachable_associateAll id _ (Reachable.create defaultLoadFactor) _,
    structural_invariant id fourKeys
      (reachable_associateAll id _ (Reachable.create defaultLoadFactor) _)⟩

/-- C25: for every router (hence every graph) and every depot, whether or not the depot
is a key of the graph, if the request list is empty or every request is located at the
depot, `generateDeliveryPlan` returns `DELIVERY_SUCCESS`, sets `totalDistanceTravelled` to
`0` whatever it held before, and appends exactly one `Deliver` command per request, in
input order, to the commands already in the output vector. -/
theorem plan_without_travel {G : Type} [DecidableEq G] (router : G → G → Outcome G)
    (distanceEarthMiles : G → G → Nat) (angleOfLine : StreetSegment G → ℚ)
    (angleBetween2Lines : StreetSegment G → StreetSegment G → ℚ) (depot : G)
    (reqs : List (DeliveryRequest G)) (commands0 : List DeliveryCommand) (total0 : Nat)
    (h : ∀ x ∈ reqs, x.location = depot) :
    generateDeliveryPlan router distanceEarthMiles angleOfLine angleBetween2Lines depot reqs
        commands0 total0
      = PlanOutcome.returned DeliveryResult.DELIVERY_SUCCESS
          (commands0 ++ reqs.map (fun r => DeliveryCommand.deliver r.item)) 0 := by
  rw [plan_of_finished _ _ _ _ _ _ _ _ _ _ _
    (deliveryLoop_at_depot router distanceEarthMiles angleOfLine angleBetween2Lines depot reqs
      commands0 0 h), navigate_same]

/-- Witness for C25 on `lineMap`: the depot `99` is not a key of the graph, two requests
are located at it, one command is in the vector and the output variable holds `7`. -/
theorem plan_without_travel_witness :
    (∀ x ∈ [(⟨"book", 99⟩ : DeliveryRequest Nat), ⟨"pen", 99⟩], x.location = 99)
      ∧ ¬ IsKey id lineMap 99
      ∧ generateDeliveryPlan (ptopRouter id lineDistance lineMap 10 10) lineDistance
          bearingEast (turnAngle 90) 99 [(⟨"book", 99⟩ : DeliveryRequest Nat), ⟨"pen", 99⟩]
          [DeliveryCommand.deliver "ink"] 7
        = PlanOutcome.returned DeliveryResult.DELIVERY_SUCCESS
            ([DeliveryCommand.deliver "ink"]
              ++ [(⟨"book", 99⟩ : DeliveryRequest Nat), ⟨"pen", 99⟩].map
                (fun r => DeliveryCommand.deliver r.item)) 0 :=
  ⟨by decide, by unfold IsKey; decide,
    plan_without_travel _ _ _ _ 99 _ _ 7 (by decide)⟩

end LastClaims

/-! ## Termination of a routing call -/

section TerminationClaim

end TerminationClaim

end GooberEats
